import Mathlib

/-!
Verification of the serverless amplify configuration-generator plugin
(`src/index.js`): resource enumeration, description, and configuration
synthesis, modelled as a shallow embedding.

JavaScript objects that the plugin serializes with `JSON.stringify` are
modelled by the `Json` inductive below; JSON numbers are modelled as
integers (the configuration and schema payloads manipulated by the plugin
contain no fractional literals).
-/

/-- Left brace character, kept as a named constant. -/
def lbraceC : Char := Char.ofNat 123

/-- Right brace character, kept as a named constant. -/
def rbraceC : Char := Char.ofNat 125

/-- Structured JSON document: the result of `JSON.parse` and the input of
`JSON.stringify` in the plugin. -/
inductive Json where
  | null : Json
  | bool (b : Bool) : Json
  | num (n : Int) : Json
  | str (s : String) : Json
  | arr (items : List Json) : Json
  | obj (fields : List (String × Json)) : Json

/-- Decimal digits of a natural number, most significant first,
as characters. -/
def natChars (n : Nat) : List Char :=
  if h : n < 10 then [Char.ofNat (48 + n)]
  else natChars (n / 10) ++ [Char.ofNat (48 + n % 10)]
decreasing_by exact Nat.div_lt_self (by omega) (by omega)

/-- Decimal rendering of an integer (as `JSON.stringify` prints an
integral number). -/
def intChars (i : Int) : List Char :=
  if i < 0 then '-' :: natChars i.natAbs else natChars i.natAbs

/-- Lowercase hexadecimal digit for a value below 16. -/
def hexDigitC (d : Nat) : Char :=
  if d < 10 then Char.ofNat (48 + d) else Char.ofNat (87 + d)

/-- Escaping of one character inside a JSON string literal, following
`JSON.stringify`: quote, backslash and control characters are escaped,
everything else is emitted verbatim. -/
def escChar (c : Char) : List Char :=
  if c = '"' then ['\\', '"']
  else if c = '\\' then ['\\', '\\']
  else if c = '\n' then ['\\', 'n']
  else if c = '\r' then ['\\', 'r']
  else if c = '\t' then ['\\', 't']
  else if c = Char.ofNat 8 then ['\\', 'b']
  else if c = Char.ofNat 12 then ['\\', 'f']
  else if c.toNat < 32 then
    ['\\', 'u', '0', '0', hexDigitC (c.toNat / 16), hexDigitC (c.toNat % 16)]
  else [c]

/-- JSON string literal body for a string (without the surrounding
quotes). -/
def escString (s : String) : List Char :=
  s.data.flatMap escChar

/-- Quoted JSON string literal. -/
def quoteString (s : String) : List Char :=
  '"' :: escString s ++ ['"']

mutual
/-- Characters of `JSON.stringify(v, null, gap)` at nesting prefix
`indent`: pretty-printed JSON with the given indentation unit. -/
def renderC (gap indent : List Char) : Json → List Char
  | .null => ['n', 'u', 'l', 'l']
  | .bool b => if b then ['t', 'r', 'u', 'e'] else ['f', 'a', 'l', 's', 'e']
  | .num i => intChars i
  | .str s => quoteString s
  | .arr [] => ['[', ']']
  | .arr (x :: xs) =>
      '[' :: '\n' :: renderItems gap (indent ++ gap) x xs ++
        '\n' :: indent ++ [']']
  | .obj [] => [lbraceC, rbraceC]
  | .obj ((k, v) :: fs) =>
      lbraceC :: '\n' :: renderFields gap (indent ++ gap) k v fs ++
        '\n' :: indent ++ [rbraceC]
termination_by v => sizeOf v
decreasing_by all_goals (simp_wf; try omega)

/-- Comma-and-newline separated array items, each on its own indented
line. -/
def renderItems (gap indent : List Char) (x : Json) : List Json → List Char
  | [] => indent ++ renderC gap indent x
  | y :: ys =>
      indent ++ renderC gap indent x ++
        ',' :: '\n' :: renderItems gap indent y ys
termination_by l => 1 + sizeOf x + sizeOf l
decreasing_by all_goals (simp_wf; try omega)

/-- Comma-and-newline separated object fields, each on its own indented
line, with a `": "` key separator. -/
def renderFields (gap indent : List Char) (k : String) (v : Json) :
    List (String × Json) → List Char
  | [] => indent ++ quoteString k ++ ':' :: ' ' :: renderC gap indent v
  | (k2, v2) :: gs =>
      indent ++ quoteString k ++ ':' :: ' ' :: renderC gap indent v ++
        ',' :: '\n' :: renderFields gap indent k2 v2 gs
termination_by l => 1 + sizeOf v + sizeOf l
decreasing_by all_goals (simp_wf; try omega)
end

/-- Output of `JSON.stringify(v, null, 2)` as used by the plugin for the
native configuration and the schema document. -/
def stringify2 (v : Json) : String :=
  String.mk (renderC [' ', ' '] [] v)

/-- JSON insignificant whitespace. -/
def isWsC (c : Char) : Bool :=
  c = ' ' || c = '\n' || c = '\t' || c = '\r'

/-- Skip insignificant whitespace. -/
def skipWs (l : List Char) : List Char :=
  l.dropWhile isWsC

/-- ASCII decimal digit test. -/
def isDigitC (c : Char) : Bool :=
  decide (48 ≤ c.toNat) && decide (c.toNat ≤ 57)

/-- Value of a run of decimal digits. -/
def digitsToNat (l : List Char) : Nat :=
  l.foldl (fun a c => 10 * a + (c.toNat - 48)) 0

/-- Value of one hexadecimal digit, if the character is one. -/
def hexValC (c : Char) : Option Nat :=
  if 48 ≤ c.toNat ∧ c.toNat ≤ 57 then some (c.toNat - 48)
  else if 97 ≤ c.toNat ∧ c.toNat ≤ 102 then some (c.toNat - 87)
  else if 65 ≤ c.toNat ∧ c.toNat ≤ 70 then some (c.toNat - 55)
  else none

/-- Parse the body of a JSON string literal (the opening quote already
consumed), returning the decoded characters and the input after the
closing quote. -/
def parseStringBody : List Char → Option (List Char × List Char)
  | [] => none
  | c :: r =>
    if c = '"' then some ([], r)
    else if c = '\\' then
      match r with
      | [] => none
      | e :: r2 =>
        if e = '"' then (parseStringBody r2).map (fun p => ('"' :: p.1, p.2))
        else if e = '\\' then (parseStringBody r2).map (fun p => ('\\' :: p.1, p.2))
        else if e = '/' then (parseStringBody r2).map (fun p => ('/' :: p.1, p.2))
        else if e = 'n' then (parseStringBody r2).map (fun p => ('\n' :: p.1, p.2))
        else if e = 'r' then (parseStringBody r2).map (fun p => ('\r' :: p.1, p.2))
        else if e = 't' then (parseStringBody r2).map (fun p => ('\t' :: p.1, p.2))
        else if e = 'b' then (parseStringBody r2).map (fun p => (Char.ofNat 8 :: p.1, p.2))
        else if e = 'f' then (parseStringBody r2).map (fun p => (Char.ofNat 12 :: p.1, p.2))
        else if e = 'u' then
          match r2 with
          | h1 :: h2 :: h3 :: h4 :: r3 =>
            match hexValC h1, hexValC h2, hexValC h3, hexValC h4 with
            | some a, some b, some c2, some d =>
              (parseStringBody r3).map
                (fun p => (Char.ofNat (4096 * a + 256 * b + 16 * c2 + d) :: p.1, p.2))
            | _, _, _, _ => none
          | _ => none
        else none
    else (parseStringBody r).map (fun p => (c :: p.1, p.2))

/-- Parse a JSON integral number (optional minus sign followed by decimal
digits). -/
def parseNum : List Char → Option (Json × List Char)
  | '-' :: r =>
    match r.span isDigitC with
    | ([], _) => none
    | (ds, rest) => some (.num (-(digitsToNat ds : Int)), rest)
  | l =>
    match l.span isDigitC with
    | ([], _) => none
    | (ds, rest) => some (.num (digitsToNat ds), rest)

mutual
/-- Parse one JSON value from the input (leading whitespace already
skipped), returning the value and the remaining input.  The fuel
argument bounds the recursion depth; `parseJson` supplies enough fuel
for any input. -/
def parseValue : Nat → List Char → Option (Json × List Char)
  | 0, _ => none
  | _ + 1, [] => none
  | fuel + 1, c :: r =>
    if c = 'n' then
      match r with
      | c1 :: c2 :: c3 :: r4 =>
        if c1 = 'u' && c2 = 'l' && c3 = 'l' then some (.null, r4) else none
      | _ => none
    else if c = 't' then
      match r with
      | c1 :: c2 :: c3 :: r4 =>
        if c1 = 'r' && c2 = 'u' && c3 = 'e' then some (.bool true, r4) else none
      | _ => none
    else if c = 'f' then
      match r with
      | c1 :: c2 :: c3 :: c4 :: r5 =>
        if c1 = 'a' && c2 = 'l' && c3 = 's' && c4 = 'e' then some (.bool false, r5) else none
      | _ => none
    else if c = '"' then
      match parseStringBody r with
      | some (cs, r2) => some (.str (String.mk cs), r2)
      | none => none
    else if c = '[' then
      match skipWs r with
      | [] => none
      | c2 :: r2 =>
        if c2 = ']' then some (.arr [], r2)
        else
          match parseValue fuel (c2 :: r2) with
          | some (v, rest) => parseArrTail fuel [v] rest
          | none => none
    else if c = lbraceC then
      match skipWs r with
      | [] => none
      | c2 :: r2 =>
        if c2 = rbraceC then some (.obj [], r2)
        else parseObjTail fuel [] (c2 :: r2)
    else parseNum (c :: r)

/-- Parse the continuation of a JSON array after a complete element:
either a closing bracket, or a comma followed by the next element. -/
def parseArrTail : Nat → List Json → List Char → Option (Json × List Char)
  | 0, _, _ => none
  | fuel + 1, acc, l =>
    match skipWs l with
    | [] => none
    | c :: r =>
      if c = ']' then some (.arr acc, r)
      else if c = ',' then
        match parseValue fuel (skipWs r) with
        | some (v, rest) => parseArrTail fuel (acc ++ [v]) rest
        | none => none
      else none

/-- Parse the fields of a JSON object starting at a key (leading
whitespace already skipped), until the closing brace. -/
def parseObjTail : Nat → List (String × Json) → List Char → Option (Json × List Char)
  | 0, _, _ => none
  | fuel + 1, acc, l =>
    match l with
    | [] => none
    | c :: r =>
      if c = '"' then
        match parseStringBody r with
        | some (kcs, r2) =>
          match skipWs r2 with
          | [] => none
          | c3 :: r3 =>
            if c3 = ':' then
              match parseValue fuel (skipWs r3) with
              | some (v, rest) =>
                match skipWs rest with
                | [] => none
                | c4 :: r4 =>
                  if c4 = ',' then
                    parseObjTail fuel (acc ++ [(String.mk kcs, v)]) (skipWs r4)
                  else if c4 = rbraceC then
                    some (.obj (acc ++ [(String.mk kcs, v)]), r4)
                  else none
              | none => none
            else none
        | none => none
      else none
end

/-- Model of `JSON.parse`, restricted to documents whose numbers are
integral. -/
def parseJson (s : String) : Option Json :=
  match parseValue (s.data.length + 1) (skipWs s.data) with
  | some (v, rest) => if skipWs rest = [] then some v else none
  | none => none

mutual
/-- Recursively sort every object's fields by key, as the
`json-stable-stringify-pretty` library does before printing. -/
def sortKeysJ : Json → Json
  | .arr xs => .arr (sortKeysList xs)
  | .obj fs => .obj ((sortKeysFields fs).mergeSort (fun a b => decide (a.1 ≤ b.1)))
  | v => v
termination_by v => sizeOf v
decreasing_by all_goals (simp_wf; try omega)

/-- Key sorting mapped over array elements. -/
def sortKeysList : List Json → List Json
  | [] => []
  | x :: xs => sortKeysJ x :: sortKeysList xs
termination_by l => sizeOf l
decreasing_by all_goals (simp_wf; try omega)

/-- Key sorting mapped over object field values. -/
def sortKeysFields : List (String × Json) → List (String × Json)
  | [] => []
  | (k, v) :: fs => (k, sortKeysJ v) :: sortKeysFields fs
termination_by l => sizeOf l
decreasing_by all_goals (simp_wf; try omega)
end

/-- Output of the `json-stable-stringify-pretty` call
`stringify(config, \x7b pretty: true, space: 4 \x7d)` used for the
JavaScript and TypeScript modules: keys sorted, four-space indent. -/
def stableStringify4 (v : Json) : String :=
  String.mk (renderC [' ', ' ', ' ', ' '] [] (sortKeysJ v))

/-!
Resource enumeration (`listStackResources`, `src/index.js` lines 82-104).

The CloudFormation listing API is modelled by `ListEnv`: one call takes a
stack name and an optional continuation token and returns one page.
-/

/-- A CloudFormation stack resource summary as returned by
`listStackResources`. -/
structure Resource where
  ResourceType : String
  LogicalResourceId : String
  PhysicalResourceId : String
deriving DecidableEq, Repr

/-- One page of a CloudFormation `listStackResources` response. -/
structure ListPage where
  StackResourceSummaries : List Resource
  NextToken : Option String
deriving Repr

/-- The CloudFormation listing capability: stack name and continuation
token to one response page. -/
structure ListEnv where
  fetchList : String → Option String → ListPage

/-- The pagination do-while loop of `listStackResources`: accumulate
`StackResourceSummaries` pages, following `NextToken` while it is truthy
(in JavaScript the empty string is falsy).  `none` means the loop did not
finish within the given fuel. -/
def collectPages (env : ListEnv) (stackName : String) :
    Nat → List Resource → Option String → Option (List Resource)
  | 0, _, _ => none
  | fuel + 1, acc, token =>
    let result := env.fetchList stackName token
    let acc2 := acc ++ result.StackResourceSummaries
    match result.NextToken with
    | none => some acc2
    | some t => if t = "" then some acc2 else collectPages env stackName fuel acc2 (some t)

/-- Split a character list at every occurrence of a separator
character. -/
def splitChar (sep : Char) : List Char → List (List Char)
  | [] => [[]]
  | c :: rest =>
    if c = sep then [] :: splitChar sep rest
    else match splitChar sep rest with
      | [] => [[c]]
      | g :: gs => (c :: g) :: gs

/-- JavaScript `s.split(sep)` for the single-character separators the
plugin uses (`/`, `:`, `_`, `.`). -/
def jsSplit (s : String) (sep : Char) : List String :=
  (splitChar sep s.data).map String.mk

/-- JavaScript `s.toLowerCase()` on the ASCII directive types. -/
def toLowerStr (s : String) : String :=
  String.mk (s.data.map Char.toLower)

/-- Nested stack name extracted from a stack resource's physical id:
`resource.PhysicalResourceId.split('/')[1]`. -/
def nestedStackNameOf (phys : String) : Option String :=
  (jsSplit phys '/').get? 1

/-- The `for (let resource of resources)` loop of `listStackResources`,
with `resources.push(...nestedResources)` growing the array mid-walk:
index `i` scans the current array, which grows when a nested-stack
resource is encountered.  The recursive `listStackResources` call made
for a nested stack is inlined here (pagination followed by the nested
walk at one unit less fuel) so that the recursion is structural in the
fuel. -/
def expandLoop (env : ListEnv) : Nat → List Resource → Nat → Option (List Resource)
  | 0, _, _ => none
  | fuel + 1, resources, i =>
    if h : i < resources.length then
      let r := resources[i]
      if r.ResourceType = "AWS::CloudFormation::Stack" then
        match nestedStackNameOf r.PhysicalResourceId with
        | none => none
        | some nm =>
          match collectPages env nm (fuel + 1) [] none with
          | none => none
          | some base =>
            match expandLoop env fuel base 0 with
            | none => none
            | some nested => expandLoop env fuel (resources ++ nested) (i + 1)
      else expandLoop env fuel resources (i + 1)
    else some resources

/-- `listStackResources(stackName)`: paginate the stack's resource
summaries, then walk the accumulated array with `for...of`, appending
each nested stack's recursively-listed resources to the array being
walked (so appended elements are themselves visited).  `none` models
non-termination / a failed nested-stack lookup within the given fuel. -/
def listStackResources (env : ListEnv) : Nat → String → Option (List Resource)
  | 0, _ => none
  | fuel + 1, stackName =>
    match collectPages env stackName (fuel + 1) [] none with
    | none => none
    | some base => expandLoop env fuel base 0

/-- The duplication key of the dedup invariant: resource type and
physical id. -/
def resourceKey (r : Resource) : String × String :=
  (r.ResourceType, r.PhysicalResourceId)

/-!
Resource description (`describeStackResources`, `src/index.js` lines
112-167).  Each per-service AWS lookup is a total function of the
`DescribeEnv`; transport failures are outside this model.
-/

/-- The `uris` map of an AppSync `getGraphqlApi` response (only the
`GRAPHQL` entry is read). -/
structure GraphUris where
  GRAPHQL : String
deriving DecidableEq, Repr

/-- The `graphqlApi` payload of a `getGraphqlApi` response. -/
structure GraphqlApiInfo where
  uris : GraphUris
  arn : String
  authenticationType : String
deriving DecidableEq, Repr

/-- An AppSync `getGraphqlApi` response. -/
structure AppSyncMeta where
  graphqlApi : GraphqlApiInfo
deriving DecidableEq, Repr

/-- One federated provider entry of an identity pool's
`CognitoIdentityProviders` list (only `ClientId` is read). -/
structure CIProvider where
  ClientId : String
deriving DecidableEq, Repr

/-- A `describeIdentityPool` response: the federated-provider list and
the external login provider map (absent fields modelled as `none`). -/
structure IdpMeta where
  CognitoIdentityProviders : Option (List CIProvider)
  SupportedLoginProviders : Option (List (String × String))
deriving DecidableEq, Repr

/-- A `describeUserPool` response; the plugin stores it but never reads
its fields, so it is kept opaque. -/
structure UserPoolMeta where
  payload : String
deriving DecidableEq, Repr

/-- The `UserPoolClient` payload of a `describeUserPoolClient`
response. -/
structure UserPoolClientInfo where
  UserPoolId : String
  ClientId : String
  ClientSecret : Option String
deriving DecidableEq, Repr

/-- A `describeUserPoolClient` response. -/
structure UPCMeta where
  UserPoolClient : UserPoolClientInfo
deriving DecidableEq, Repr

/-- The per-service describe capabilities used by
`describeStackResources`. -/
structure DescribeEnv where
  getGraphqlApi : String → AppSyncMeta
  getIntrospectionSchema : String → String
  describeIdentityPool : String → IdpMeta
  describeUserPool : String → UserPoolMeta
  describeUserPoolClient : String → String → UPCMeta

/-- The `Properties.UserPoolId.Ref` reference of a user-pool client's
entry in the compiled CloudFormation template. -/
structure CfTemplateEntry where
  userPoolIdRef : String
deriving DecidableEq, Repr

/-- The compiled CloudFormation template's `Resources` map, read only to
resolve a client's parent pool logical id. -/
def CfTemplate := String → Option CfTemplateEntry

/-- A JavaScript exception, as observed by the pipeline's catch-all:
either an explicit `throw new Error(message)`, an undefined-property
access (`TypeError`), or a `JSON.parse` failure (`SyntaxError`). -/
inductive JsError where
  | error (msg : String)
  | typeError (msg : String)
  | syntaxError (msg : String)
deriving DecidableEq, Repr

/-- Type-specific metadata attached to a described resource. -/
inductive RMeta where
  | appSync (m : AppSyncMeta)
  | idp (m : IdpMeta)
  | userPool (m : UserPoolMeta)
  | upc (m : UPCMeta)
deriving DecidableEq, Repr

/-- A described resource record: the summary, plus the metadata added by
`Object.assign`, plus (for the GraphQL API) the parsed introspection
schema. -/
structure DResource where
  ResourceType : String
  LogicalResourceId : String
  PhysicalResourceId : String
  metadata : Option RMeta
  schema : Option Json

/-- Build a described record from a summary. -/
def mkDR (r : Resource) (m : Option RMeta) (s : Option Json) : DResource :=
  ⟨r.ResourceType, r.LogicalResourceId, r.PhysicalResourceId, m, s⟩

/-- First pass of `describeStackResources` (lines 114-146): dispatch on
`ResourceType`, fetch type-specific metadata, drop unrecognized types. -/
def describePass1 (env : DescribeEnv) : List Resource → Except JsError (List DResource)
  | [] => .ok []
  | r :: rest =>
    if r.ResourceType = "AWS::AppSync::GraphQLApi" then
      match parseJson (env.getIntrospectionSchema ((jsSplit r.PhysicalResourceId '/').getD 1 "")) with
      | none => .error (.syntaxError "Unexpected token in JSON")
      | some doc =>
        (describePass1 env rest).map (fun tail =>
          mkDR r (some (.appSync (env.getGraphqlApi
            ((jsSplit r.PhysicalResourceId '/').getD 1 "")))) (some doc) :: tail)
    else if r.ResourceType = "AWS::Cognito::IdentityPool" then
      (describePass1 env rest).map (fun tail =>
        mkDR r (some (.idp (env.describeIdentityPool r.PhysicalResourceId))) none :: tail)
    else if r.ResourceType = "AWS::Cognito::UserPool" then
      (describePass1 env rest).map (fun tail =>
        mkDR r (some (.userPool (env.describeUserPool r.PhysicalResourceId))) none :: tail)
    else if r.ResourceType = "AWS::S3::Bucket" then
      (describePass1 env rest).map (fun tail => mkDR r none none :: tail)
    else if r.ResourceType = "AWS::ApiGateway::RestApi" then
      (describePass1 env rest).map (fun tail => mkDR r none none :: tail)
    else
      describePass1 env rest

/-- Second pass of `describeStackResources` (lines 148-164): user-pool
clients are described after all user pools; the parent pool is resolved
through the compiled template, and a missing template entry or missing
parent pool record is an undefined-property access (`TypeError`). -/
def describePass2 (env : DescribeEnv) (template : CfTemplate) (resources : List Resource) :
    List Resource → Except JsError (List DResource)
  | [] => .ok []
  | r :: rest =>
    if r.ResourceType = "AWS::Cognito::UserPoolClient" then
      match template r.LogicalResourceId with
      | none =>
        .error (.typeError "Cannot read property Properties of undefined")
      | some entry =>
        match (resources.filter (fun q =>
            q.ResourceType == "AWS::Cognito::UserPool" &&
              q.LogicalResourceId == entry.userPoolIdRef)).head? with
        | none =>
          .error (.typeError "Cannot read property PhysicalResourceId of undefined")
        | some userPoolResource =>
          (describePass2 env template resources rest).map
            (fun tail => mkDR r (some (.upc (env.describeUserPoolClient
              r.PhysicalResourceId userPoolResource.PhysicalResourceId))) none :: tail)
    else describePass2 env template resources rest

/-- `describeStackResources(resources)`: the first pass over all
resources, then the user-pool-client pass, appended in order. -/
def describeStackResources (env : DescribeEnv) (template : CfTemplate)
    (resources : List Resource) : Except JsError (List DResource) := do
  let p1 ← describePass1 env resources
  let p2 ← describePass2 env template resources resources
  pure (p1 ++ p2)

/-!
Configuration synthesis (`writeConfigurationFiles` and the per-format
writers, `src/index.js` lines 198-576).  File-system writes are recorded
as `FileWrite` values; the external GraphQL code generators are abstract
capabilities of `GenEnv`.
-/

/-- Static plugin context: user agent, provider region and stage, and the
`new Date().toISOString()` timestamp used in generated-module headers. -/
structure PluginCtx where
  useragent : String
  region : String
  stage : String
  now : String

/-- One entry of the `custom.amplify` directive list.  `none` models an
absent property (`hasOwnProperty` false). -/
structure FileDetails where
  type : Option String
  filename : Option String
  appClient : Option String
  s3bucket : Option String
deriving DecidableEq, Repr

/-- One file write performed by the plugin. -/
structure FileWrite where
  filename : String
  contents : String
deriving DecidableEq, Repr

/-- External code generators (`amplify-graphql-docs-generator` and
`aws-appsync-codegen`), abstracted as functions of the schema document. -/
structure GenEnv where
  graphqlOperations : Json → String
  appSyncCode : Json → String → String

/-- An association-list JavaScript object under construction (keys in
insertion order, as `JSON.stringify` preserves them). -/
abbrev Assoc := List (String × Json)

/-- JavaScript `s.split(sep)[i]`; an out-of-range access yields
`undefined`, modelled as the empty string (never exercised by the
claims). -/
def jsSegment (s : String) (sep : Char) (i : Nat) : String :=
  (jsSplit s sep).getD i ""

/-- Read `metadata.UserPoolClient` from a record; on a record that does
not carry a `describeUserPoolClient` payload the JavaScript property
chain dereferences `undefined`. -/
def getUPC (d : DResource) : Except JsError UserPoolClientInfo :=
  match d.metadata with
  | some (.upc m) => .ok m.UserPoolClient
  | _ => .error (.typeError "Cannot read property UserPoolClient of undefined")

/-- Read identity-pool metadata from a record, with the same crash
semantics. -/
def getIdp (d : DResource) : Except JsError IdpMeta :=
  match d.metadata with
  | some (.idp m) => .ok m
  | _ => .error (.typeError "Cannot read property of undefined identity pool metadata")

/-- Read `metadata.graphqlApi` from a record, with the same crash
semantics. -/
def getAppSyncInfo (d : DResource) : Except JsError GraphqlApiInfo :=
  match d.metadata with
  | some (.appSync m) => .ok m.graphqlApi
  | _ => .error (.typeError "Cannot read property graphqlApi of undefined")

/-- JavaScript property access: reading a property of `undefined`
(modelled as `none`) throws a `TypeError`; a missing key of an object
yields `undefined`. -/
def jsProp (v : Option Json) (k : String) : Except JsError (Option Json) :=
  match v with
  | none => .error (.typeError ("Cannot read property " ++ k ++ " of undefined"))
  | some (.obj fs) => .ok (fs.lookup k)
  | some _ => .ok none

/-- JavaScript strict equality between a string and a possibly-undefined
value. -/
def eqStrJson (s : String) : Option Json → Bool
  | some (.str t) => s == t
  | _ => false

/-- `Array.prototype.find` with an effectful predicate (the predicate's
property accesses can throw). -/
def findE (p : α → Except JsError Bool) : List α → Except JsError (Option α)
  | [] => .ok none
  | x :: xs => do
    if (← p x) then pure (some x) else findE p xs

/-- API Gateway endpoint URL as interpolated by the writers. -/
def endpointUrl (ctx : PluginCtx) (phys : String) : String :=
  "https://" ++ phys ++ ".execute-api." ++ ctx.region ++ ".amazonaws.com/" ++ ctx.stage

/-- The `CognitoUserPool` section of the native configuration
(`src/index.js` lines 250-266). -/
def nativeAppClientSection (resources : List DResource) (fileDetails : FileDetails)
    (config : Assoc) : Except JsError Assoc :=
  match fileDetails.appClient with
  | none => .ok config
  | some name =>
    match resources.find? (fun r =>
        r.ResourceType == "AWS::Cognito::UserPoolClient" && r.LogicalResourceId == name) with
    | some appClient => do
      let upc ← getUPC appClient
      let cup : Assoc :=
        [("PoolId", .str upc.UserPoolId),
         ("Region", .str (jsSegment upc.UserPoolId '_' 0)),
         ("AppClientId", .str upc.ClientId)]
      let cup := match upc.ClientSecret with
        | some sec => cup ++ [("AppClientSecret", .str sec)]
        | none => cup
      .ok (config ++ [("CognitoUserPool", .obj [("Default", .obj cup)])])
    | none => .error (.error ("Invalid appClient specified: " ++ name))

/-- Read `config.CognitoUserPool.Default.AppClientId` as the identity
pool predicate of the native writer does. -/
def nativeAppClientId (config : Assoc) : Except JsError (Option Json) := do
  let a ← jsProp (some (.obj config)) "CognitoUserPool"
  let b ← jsProp a "Default"
  jsProp b "AppClientId"

/-- The `CredentialsProvider` and social-provider sections of the native
configuration (`src/index.js` lines 268-312). -/
def nativeIdentitySection (resources : List DResource) (fileDetails : FileDetails)
    (config : Assoc) : Except JsError Assoc := do
  let identityPools := resources.filter (fun r => r.ResourceType == "AWS::Cognito::IdentityPool")
  let identityPoolForUserPool ←
    if fileDetails.appClient.isSome then
      findE (fun r => do
        let m ← getIdp r
        match m.CognitoIdentityProviders with
        | none => pure false
        | some provs => do
          let target ← nativeAppClientId config
          pure (provs.any (fun p => eqStrJson p.ClientId target))) identityPools
    else pure none
  match identityPoolForUserPool.or identityPools.head? with
  | none => .ok config
  | some identityPool => do
    let cfg := config ++
      [("CredentialsProvider", .obj
        [("CognitoIdentity", .obj
          [("Default", .obj
            [("Region", .str (jsSegment identityPool.PhysicalResourceId ':' 0)),
             ("PoolId", .str identityPool.PhysicalResourceId)])])])]
    let m ← getIdp identityPool
    match m.SupportedLoginProviders with
    | none => .ok cfg
    | some providers =>
      let cfg := match providers.lookup "accounts.google.com" with
        | some v => cfg ++ [("GoogleSignin", .obj
            [("Permissions", .str "email,profile,openid"), ("ClientId-WebApp", .str v)])]
        | none => cfg
      let cfg := match providers.lookup "graph.facebook.com" with
        | some v => cfg ++ [("FacebookSignin", .obj
            [("Permissions", .str "public_profile"), ("AppId", .str v)])]
        | none => cfg
      let cfg := match providers.lookup "www.amazon.com" with
        | some v => cfg ++ [("AmazonSignin", .obj
            [("Permissions", .str "profile"), ("ClientId", .str v)])]
        | none => cfg
      .ok cfg

/-- The `AppSync` section of the native configuration (`src/index.js`
lines 314-323). -/
def nativeAppSyncSection (resources : List DResource) (config : Assoc) :
    Except JsError Assoc :=
  match resources.find? (fun r => r.ResourceType == "AWS::AppSync::GraphQLApi") with
  | none => .ok config
  | some appSync => do
    let g ← getAppSyncInfo appSync
    .ok (config ++ [("AppSync", .obj
      [("Default", .obj
        [("ApiUrl", .str g.uris.GRAPHQL),
         ("Region", .str (jsSegment g.arn ':' 3)),
         ("AuthMode", .str g.authenticationType)])])])

/-- The non-deployment buckets (`src/index.js` lines 325 and 428): all
`AWS::S3::Bucket` records except `ServerlessDeploymentBucket`. -/
def s3buckets (resources : List DResource) : List DResource :=
  resources.filter (fun r => r.ResourceType == "AWS::S3::Bucket" &&
    r.LogicalResourceId != "ServerlessDeploymentBucket")

/-- The `userFiles` bucket selection (`src/index.js` lines 327 and 430,
two identical lines): by logical id when the directive names a bucket,
else the first remaining bucket. -/
def selectBucket (resources : List DResource) (fileDetails : FileDetails) : Option DResource :=
  match fileDetails.s3bucket with
  | some name => (s3buckets resources).find? (fun r => r.LogicalResourceId == name)
  | none => (s3buckets resources).head?

/-- The `S3TransferUtility` section of the native configuration
(`src/index.js` lines 325-336): non-deployment buckets only; an explicit
`s3bucket` selects by logical id and is silently skipped when absent. -/
def nativeS3Section (ctx : PluginCtx) (resources : List DResource)
    (fileDetails : FileDetails) (config : Assoc) : Assoc :=
  if (s3buckets resources).length > 0 then
    match selectBucket resources fileDetails with
    | some uf => config ++ [("S3TransferUtility", .obj
        [("Default", .obj
          [("Bucket", .str uf.PhysicalResourceId), ("Region", .str ctx.region)])])]
    | none => config
  else config

/-- The `APIGateway` section of the native configuration (`src/index.js`
lines 338-348). -/
def nativeApiGwSection (ctx : PluginCtx) (resources : List DResource) (config : Assoc) : Assoc :=
  let apigw := resources.filter (fun r => r.ResourceType == "AWS::ApiGateway::RestApi")
  if apigw.length > 0 then
    config ++ [("APIGateway", .obj (apigw.map (fun v =>
      (v.LogicalResourceId, Json.obj
        [("Endpoint", .str (endpointUrl ctx v.PhysicalResourceId)),
         ("Region", .str ctx.region)]))))]
  else config

/-- The native configuration object built by `writeNativeConfiguration`
(`src/index.js` lines 244-350), before serialization. -/
def writeNativeConfigurationJson (ctx : PluginCtx) (resources : List DResource)
    (fileDetails : FileDetails) : Except JsError Assoc := do
  let config ← nativeAppClientSection resources fileDetails
    [("UserAgent", .str ctx.useragent), ("Version", .str "1.0")]
  let config ← nativeIdentitySection resources fileDetails config
  let config ← nativeAppSyncSection resources config
  pure (nativeApiGwSection ctx resources (nativeS3Section ctx resources fileDetails config))

/-- `writeNativeConfiguration`: serialize the config object with
`JSON.stringify(config, null, 2)` and write it to the directive's file. -/
def writeNativeConfiguration (ctx : PluginCtx) (resources : List DResource)
    (fileDetails : FileDetails) : Except JsError (List FileWrite) := do
  let config ← writeNativeConfigurationJson ctx resources fileDetails
  pure [⟨fileDetails.filename.getD "", stringify2 (.obj config)⟩]

/-- The user-pool keys of the JavaScript configuration
(`src/index.js` lines 364-377). -/
def jsAppClientSection (resources : List DResource) (fileDetails : FileDetails)
    (config : Assoc) : Except JsError Assoc :=
  match fileDetails.appClient with
  | none => .ok config
  | some name =>
    match resources.find? (fun r =>
        r.ResourceType == "AWS::Cognito::UserPoolClient" && r.LogicalResourceId == name) with
    | some appClient => do
      let upc ← getUPC appClient
      let cfg := config ++
        [("aws_cognito_region", .str (jsSegment upc.UserPoolId '_' 0)),
         ("aws_user_pools_id", .str upc.UserPoolId),
         ("aws_user_pools_web_client_id", .str upc.ClientId)]
      match upc.ClientSecret with
      | some sec => .ok (cfg ++ [("aws_user_pools_web_client_secret", .str sec)])
      | none => .ok cfg
    | none => .error (.error ("Invalid appClient specified: " ++ name))

/-- The identity-pool and federated keys of the JavaScript configuration
(`src/index.js` lines 379-419). -/
def jsIdentitySection (resources : List DResource) (fileDetails : FileDetails)
    (config : Assoc) : Except JsError Assoc := do
  let identityPools := resources.filter (fun r => r.ResourceType == "AWS::Cognito::IdentityPool")
  let identityPoolForUserPool ←
    if fileDetails.appClient.isSome then
      findE (fun r => do
        let m ← getIdp r
        match m.CognitoIdentityProviders with
        | none => pure false
        | some provs =>
          pure (provs.any (fun p =>
            eqStrJson p.ClientId (config.lookup "aws_user_pools_web_client_id")))) identityPools
    else pure none
  match identityPoolForUserPool.or identityPools.head? with
  | none => .ok config
  | some identityPool => do
    let cfg :=
      if (config.lookup "aws_cognito_region").isSome then config
      else config ++ [("aws_cognito_region", .str (jsSegment identityPool.PhysicalResourceId ':' 0))]
    let cfg := cfg ++ [("aws_cognito_identity_pool_id", .str identityPool.PhysicalResourceId)]
    let m ← getIdp identityPool
    match m.SupportedLoginProviders with
    | none => .ok cfg
    | some providers =>
      let federated : Assoc := match providers.lookup "accounts.google.com" with
        | some v => [("google_client_id", .str v)]
        | none => []
      let federated := match providers.lookup "graph.facebook.com" with
        | some v => federated ++ [("facebook_app_id", .str v)]
        | none => federated
      let federated := match providers.lookup "www.amazon.com" with
        | some v => federated ++ [("amazon_client_id", .str v)]
        | none => federated
      if federated.length > 0 then .ok (cfg ++ [("federated", .obj federated)])
      else .ok cfg

/-- The AppSync keys of the JavaScript configuration (`src/index.js`
lines 421-426). -/
def jsAppSyncSection (resources : List DResource) (config : Assoc) : Except JsError Assoc :=
  match resources.find? (fun r => r.ResourceType == "AWS::AppSync::GraphQLApi") with
  | none => .ok config
  | some appSync => do
    let g ← getAppSyncInfo appSync
    .ok (config ++
      [("aws_appsync_graphqlEndpoint", .str g.uris.GRAPHQL),
       ("aws_appsync_region", .str (jsSegment g.arn ':' 3)),
       ("aws_appsync_authenticationType", .str g.authenticationType)])

/-- The storage keys of the JavaScript configuration (`src/index.js`
lines 428-435): same bucket selection as the native writer. -/
def jsS3Section (ctx : PluginCtx) (resources : List DResource)
    (fileDetails : FileDetails) (config : Assoc) : Assoc :=
  if (s3buckets resources).length > 0 then
    match selectBucket resources fileDetails with
    | some uf => config ++
        [("aws_user_files_s3_bucket", .str uf.PhysicalResourceId),
         ("aws_user_files_s3_bucket_region", .str ctx.region)]
    | none => config
  else config

/-- The cloud-logic keys of the JavaScript configuration (`src/index.js`
lines 437-448). -/
def jsApiGwSection (ctx : PluginCtx) (resources : List DResource) (config : Assoc) : Assoc :=
  let apigw := resources.filter (fun r => r.ResourceType == "AWS::ApiGateway::RestApi")
  if apigw.length > 0 then
    config ++ [("aws_cloud_logic_custom", .arr (apigw.map (fun v =>
      Json.obj
        [("endpoint", .str (endpointUrl ctx v.PhysicalResourceId)),
         ("name", .str v.LogicalResourceId),
         ("region", .str ctx.region)])))]
  else config

/-- `getJavaScriptConfiguration` (`src/index.js` lines 360-451): the
configuration object shared by the JavaScript and TypeScript writers. -/
def getJavaScriptConfiguration (ctx : PluginCtx) (resources : List DResource)
    (fileDetails : FileDetails) : Except JsError Assoc := do
  let config ← jsAppClientSection resources fileDetails [("aws_project_region", .str ctx.region)]
  let config ← jsIdentitySection resources fileDetails config
  let config ← jsAppSyncSection resources config
  pure (jsApiGwSection ctx resources (jsS3Section ctx resources fileDetails config))

/-- Generated-module warning header with the generation timestamp
(`src/index.js` lines 461-465 and 479-482). -/
def moduleHeader (ctx : PluginCtx) : String :=
  "// WARNING: DO NOT EDIT.  This file is automatically generated\n" ++
    "// Written by " ++ ctx.useragent ++ " on " ++ ctx.now ++ "\n"

/-- The static TypeScript interface block emitted by
`writeTypeScriptConfiguration` (`src/index.js` lines 483-512),
independent of which fields are present. -/
def tsInterfaceBlock : String :=
  "interface IAWSAmplifyFederatedConfiguration \x7b\n" ++
  "    google_client_id?: string;\n" ++
  "    facebook_app_id?: string;\n" ++
  "    amazon_client_id?: string;\n" ++
  "\x7d\n\n" ++
  "interface IAWSAmplifyCloudLogicConfiguration \x7b\n" ++
  "    [index: number]: \x7b\n" ++
  "        endpoint: string;\n" ++
  "        name: string;\n" ++
  "        region: string;\n" ++
  "    \x7d;\n" ++
  "\x7d\n\n" ++
  "interface IAWSAmplifyConfiguration \x7b\n" ++
  "    aws_appsync_authenticationType?: string;\n" ++
  "    aws_appsync_graphqlEndpoint?: string;\n" ++
  "    aws_appsync_region?: string;\n" ++
  "    aws_cognito_identity_pool_id?: string;\n" ++
  "    aws_cognito_region?: string;\n" ++
  "    aws_cloud_logic_custom?: IAWSAmplifyCloudLogicConfiguration;\n" ++
  "    aws_project_region: string;\n" ++
  "    aws_user_files_s3_bucket?: string;\n" ++
  "    aws_user_files_s3_bucket_region?: string;\n" ++
  "    aws_user_pools_id?: string;\n" ++
  "    aws_user_pools_web_client_id?: string;\n" ++
  "    aws_user_pools_web_client_secret?: string;\n" ++
  "    federated?: IAWSAmplifyFederatedConfiguration;\n" ++
  "\x7d\n"

/-- Module body and footer around a serialized configuration, JavaScript
variant. -/
def jsModuleText (header serialized : String) : String :=
  header ++ "\n" ++ ("const awsmobile = " ++ serialized ++ ";") ++ "\n" ++
    "\nexport default awsmobile;\n"

/-- Module body and footer around a serialized configuration, TypeScript
variant: identical except for the interface block and the type
annotation. -/
def tsModuleText (header serialized : String) : String :=
  (header ++ "\n" ++ tsInterfaceBlock) ++ "\n" ++
    ("const awsmobile: IAWSAmplifyConfiguration = " ++ serialized ++ ";") ++ "\n" ++
    "\nexport default awsmobile;\n"

/-- `writeJavaScriptConfiguration` (`src/index.js` lines 459-469). -/
def writeJavaScriptConfiguration (ctx : PluginCtx) (resources : List DResource)
    (fileDetails : FileDetails) : Except JsError (List FileWrite) := do
  let config ← getJavaScriptConfiguration ctx resources fileDetails
  pure [⟨fileDetails.filename.getD "",
    jsModuleText (moduleHeader ctx) (stableStringify4 (.obj config))⟩]

/-- `writeTypeScriptConfiguration` (`src/index.js` lines 477-517). -/
def writeTypeScriptConfiguration (ctx : PluginCtx) (resources : List DResource)
    (fileDetails : FileDetails) : Except JsError (List FileWrite) := do
  let config ← getJavaScriptConfiguration ctx resources fileDetails
  pure [⟨fileDetails.filename.getD "",
    tsModuleText (moduleHeader ctx) (stableStringify4 (.obj config))⟩]

/-- Resource-record predicate for the GraphQL API. -/
def isAppSyncR (r : DResource) : Bool :=
  r.ResourceType == "AWS::AppSync::GraphQLApi"

/-- `writeSchemaJSONConfiguration` (`src/index.js` lines 525-533): write
the stored schema document, or throw when no GraphQL API record exists. -/
def writeSchemaJSONConfiguration (resources : List DResource)
    (fileDetails : FileDetails) : Except JsError (List FileWrite) :=
  match resources.find? isAppSyncR with
  | some resource =>
    match resource.schema with
    | some doc => .ok [⟨fileDetails.filename.getD "", stringify2 doc⟩]
    | none => .error (.typeError "Cannot stringify an absent schema")
  | none => .error (.error "No GraphQL API found - cannot write schema.json file")

/-- The file extension used as the code-generation target type:
`path.extname(filename).substr(1)`. -/
def fileTypeOf (s : String) : String :=
  let parts := jsSplit s '.'
  if parts.length ≥ 2 then parts.getLastD "" else ""

/-- `writeGraphQLOperations` (`src/index.js` lines 541-549): temporary
schema artifact, then generated operation stubs. -/
def writeGraphQLOperations (genv : GenEnv) (resources : List DResource)
    (fileDetails : FileDetails) : Except JsError (List FileWrite) :=
  match resources.find? isAppSyncR with
  | some resource =>
    match resource.schema with
    | some doc =>
      .ok [⟨".serverless/amplify-schema.json", stringify2 doc⟩,
           ⟨fileDetails.filename.getD "", genv.graphqlOperations doc⟩]
    | none => .error (.typeError "Cannot stringify an absent schema")
  | none =>
    .error (.error ("No GraphQL API found - cannot write " ++
      fileDetails.filename.getD "" ++ " file"))

/-- `writeAppSyncAPI` (`src/index.js` lines 557-576): temporary schema
and operations artifacts, then generated client code in the language
implied by the output file extension. -/
def writeAppSyncAPI (genv : GenEnv) (resources : List DResource)
    (fileDetails : FileDetails) : Except JsError (List FileWrite) :=
  match resources.find? isAppSyncR with
  | some resource =>
    match resource.schema with
    | some doc =>
      .ok [⟨".serverless/amplify-schema.json", stringify2 doc⟩,
           ⟨".serverless/amplify-operations.graphql", genv.graphqlOperations doc⟩,
           ⟨fileDetails.filename.getD "",
             genv.appSyncCode doc (fileTypeOf (fileDetails.filename.getD ""))⟩]
    | none => .error (.typeError "Cannot stringify an absent schema")
  | none =>
    .error (.error ("No GraphQL API found - cannot write " ++
      fileDetails.filename.getD "" ++ " file"))

/-- Text standing for `JSON.stringify(fileDetails)` in the invalid
directive messages. -/
def fdText (fd : FileDetails) : String :=
  fd.type.getD "undefined" ++ ":" ++ fd.filename.getD "undefined"

/-- The invalid-directive message of the unknown-type branch
(`src/index.js` line 229). -/
def invalidTypeMsg (fd : FileDetails) : String :=
  "Invalid Amplify configuration type directive for " ++ fdText fd

/-- The invalid-directive message of the missing-field branch
(`src/index.js` line 233). -/
def invalidFieldsMsg (fd : FileDetails) : String :=
  "Invalid Amplify configuration directive for " ++ fdText fd

/-- Processing of one directive by `writeConfigurationFiles`
(`src/index.js` lines 199-235): require `type` and `filename`, dispatch
on the lowercased type, throw on anything unrecognized. -/
def processDirective (ctx : PluginCtx) (genv : GenEnv) (resources : List DResource)
    (fd : FileDetails) : Except JsError (List FileWrite) :=
  if fd.type.isSome && fd.filename.isSome then
    match toLowerStr (fd.type.getD "") with
    | "native" => writeNativeConfiguration ctx resources fd
    | "javascript" => writeJavaScriptConfiguration ctx resources fd
    | "typescript" => writeTypeScriptConfiguration ctx resources fd
    | "schema.json" => writeSchemaJSONConfiguration resources fd
    | "graphql" => writeGraphQLOperations genv resources fd
    | "appsync" => writeAppSyncAPI genv resources fd
    | _ => .error (.error (invalidTypeMsg fd))
  else .error (.error (invalidFieldsMsg fd))

/-- `writeConfigurationFiles(resources)`: process the directive list in
order; a throwing directive aborts the loop, keeping the files already
written by earlier directives and recording the exception. -/
def writeConfigurationFiles (ctx : PluginCtx) (genv : GenEnv) (resources : List DResource) :
    List FileDetails → List FileWrite × Option JsError
  | [] => ([], none)
  | fd :: rest =>
    match processDirective ctx genv resources fd with
    | .ok ws =>
      let (ws2, e) := writeConfigurationFiles ctx genv resources rest
      (ws ++ ws2, e)
    | .error e => ([], some e)

/-- The post-description tail of the `process()` pipeline: describe the
enumerated resources, then write the configured files; an exception
during description reaches the catch-all before any file is written. -/
def generateFromResources (ctx : PluginCtx) (denv : DescribeEnv) (genv : GenEnv)
    (template : CfTemplate) (resources : List Resource) (directives : List FileDetails) :
    Except JsError (List FileWrite × Option JsError) :=
  (describeStackResources denv template resources).map
    (fun out => writeConfigurationFiles ctx genv out directives)

/-!
Concrete inputs used by counterexamples and witnesses.
-/

/-- Abbreviation for building resource summaries. -/
def mkRes (t l p : String) : Resource := ⟨t, l, p⟩

/-- Nested-stack expansion of the resources collected for one stack:
for each nested-stack resource, the resources its stack lists. -/
def expansionOf (pages : String → List Resource) (l : List Resource) : List Resource :=
  (l.filterMap (fun r =>
    if r.ResourceType = "AWS::CloudFormation::Stack" then
      (nestedStackNameOf r.PhysicalResourceId).map pages
    else none)).flatten

/-- Listing environment with a doubly nested stack: the root stack
contains stack `N1`, which contains stack `N2` and a bucket, and `N2`
contains a bucket. -/
def envDup : ListEnv :=
  ⟨fun s _ =>
    if s = "root" then
      ⟨[mkRes "AWS::CloudFormation::Stack" "NestedA" "arn:aws:cloudformation/N1/guid1"], none⟩
    else if s = "N1" then
      ⟨[mkRes "AWS::CloudFormation::Stack" "NestedB" "arn:aws:cloudformation/N2/guid2",
        mkRes "AWS::S3::Bucket" "Files" "bucket-files"], none⟩
    else if s = "N2" then
      ⟨[mkRes "AWS::S3::Bucket" "Logs" "bucket-logs"], none⟩
    else ⟨[], none⟩⟩

/-- The flat list `listStackResources` produces for `envDup`: the `N2`
stack is expanded twice, so the `Logs` bucket appears twice. -/
def envDupOut : List Resource :=
  [mkRes "AWS::CloudFormation::Stack" "NestedA" "arn:aws:cloudformation/N1/guid1",
   mkRes "AWS::CloudFormation::Stack" "NestedB" "arn:aws:cloudformation/N2/guid2",
   mkRes "AWS::S3::Bucket" "Files" "bucket-files",
   mkRes "AWS::S3::Bucket" "Logs" "bucket-logs",
   mkRes "AWS::S3::Bucket" "Logs" "bucket-logs"]

/-- Per-stack listings of the singly-nested witness environment. -/
def pagesW (s : String) : List Resource :=
  if s = "root" then
    [mkRes "AWS::CloudFormation::Stack" "NestedA" "arn:aws:cloudformation/N1/guid1",
     mkRes "AWS::S3::Bucket" "Files" "bucket-files"]
  else if s = "N1" then [mkRes "AWS::S3::Bucket" "Logs" "bucket-logs"]
  else []

/-- Listing environment serving `pagesW` in a single page. -/
def envW : ListEnv := ⟨fun s _ => ⟨pagesW s, none⟩⟩

/-- The pool reference carried by a described user-pool client's
metadata. -/
def upcPoolRef (d : DResource) : Option String :=
  match d.metadata with
  | some (.upc m) => some m.UserPoolClient.UserPoolId
  | _ => none

/-- The client's parent-pool precondition of the second describe pass:
every user-pool-client resource has a compiled-template entry and a
user-pool record matching its declared parent reference. -/
def clientPrecondition (tmpl : CfTemplate) (rs : List Resource) : Prop :=
  ∀ r ∈ rs, r.ResourceType = "AWS::Cognito::UserPoolClient" →
    ∃ entry, tmpl r.LogicalResourceId = some entry ∧
      ∃ pool, (rs.filter (fun q =>
        q.ResourceType == "AWS::Cognito::UserPool" &&
          q.LogicalResourceId == entry.userPoolIdRef)).head? = some pool

/-- Describe environment whose user-pool-client lookup echoes the
requested ids, as the AWS API does. -/
def envEcho : DescribeEnv :=
  { getGraphqlApi := fun _ => ⟨⟨⟨"https://example.com/graphql"⟩, "arn:aws:appsync:us-east-1:1:apis/x", "API_KEY"⟩⟩
    getIntrospectionSchema := fun _ => "null"
    describeIdentityPool := fun _ => ⟨none, none⟩
    describeUserPool := fun p => ⟨p⟩
    describeUserPoolClient := fun c p => ⟨⟨p, c, none⟩⟩ }

/-- A user pool and the app client that references it through the
compiled template. -/
def poolRes : Resource := mkRes "AWS::Cognito::UserPool" "UserPool" "us-east-1_POOLID"

/-- The app-client resource of the witness record set. -/
def clientRes : Resource := mkRes "AWS::Cognito::UserPoolClient" "WebClient" "clientid123"

/-- Compiled template declaring `WebClient`'s parent pool. -/
def tmplEcho : CfTemplate :=
  fun l => if l = "WebClient" then some ⟨"UserPool"⟩ else none

/-- Compiled template with no entries (the failing template of the
describe-precondition witness). -/
def tmplEmpty : CfTemplate := fun _ => none

/-- Does an identity-pool record's federated-client list contain the
given app-client id? -/
def idpContains (r : DResource) (cid : String) : Bool :=
  match r.metadata with
  | some (.idp mi) =>
    match mi.CognitoIdentityProviders with
    | some provs => provs.any (fun p => p.ClientId == cid)
    | none => false
  | _ => false

/-- The `CredentialsProvider` value the native writer emits for an
identity pool. -/
def credProviderJson (phys : String) : Json :=
  .obj [("CognitoIdentity", .obj
    [("Default", .obj
      [("Region", .str (jsSegment phys ':' 0)), ("PoolId", .str phys)])])]

/-- The optional web-client-secret key of the JavaScript configuration. -/
def secretExtras (m : UPCMeta) : Assoc :=
  match m.UserPoolClient.ClientSecret with
  | some sec => [("aws_user_pools_web_client_secret", .str sec)]
  | none => []

/-- The record predicate selecting identity pools. -/
def isIdpR (r : DResource) : Bool :=
  r.ResourceType == "AWS::Cognito::IdentityPool"

/-- The record predicate selecting the named user-pool client. -/
def isClientNamed (name : String) (r : DResource) : Bool :=
  r.ResourceType == "AWS::Cognito::UserPoolClient" && r.LogicalResourceId == name

/-- Identity pool federating an unrelated client (witness input). -/
def idpA : DResource :=
  ⟨"AWS::Cognito::IdentityPool", "IdentityPoolA", "us-east-1:aaaa",
    some (.idp ⟨some [⟨"otherclient"⟩], none⟩), none⟩

/-- Identity pool federating the `WebClient` app client (witness
input). -/
def idpB : DResource :=
  ⟨"AWS::Cognito::IdentityPool", "IdentityPoolB", "us-east-1:bbbb",
    some (.idp ⟨some [⟨"clientid123"⟩], none⟩), none⟩

/-- The described `WebClient` record (witness input). -/
def clientD : DResource :=
  ⟨"AWS::Cognito::UserPoolClient", "WebClient", "clientid123",
    some (.upc ⟨⟨"us-east-1_POOLID", "clientid123", none⟩⟩), none⟩

/-- Record set with two identity pools, the second federating the named
client. -/
def rstwo : List DResource := [clientD, idpA, idpB]

/-- Directive naming the `WebClient` app client. -/
def fdWeb : FileDetails := ⟨some "javascript", some "aws-exports.js", some "WebClient", none⟩

/-- Static context of the writer witnesses. -/
def ctxW : PluginCtx := ⟨"plugin/1.0", "us-east-1", "dev", "2019-01-01T00:00:00Z"⟩

/-- The `CognitoUserPool.Default` object the native writer emits for a
resolved app client. -/
def cupDefault (m : UPCMeta) : Assoc :=
  [("PoolId", .str m.UserPoolClient.UserPoolId),
   ("Region", .str (jsSegment m.UserPoolClient.UserPoolId '_' 0)),
   ("AppClientId", .str m.UserPoolClient.ClientId)] ++
  (match m.UserPoolClient.ClientSecret with
   | some sec => [("AppClientSecret", .str sec)]
   | none => [])

/-!
Theorems.  Each claim of the specification is settled by one theorem
below; helper lemmas precede the claims they support.
-/

/-- Step lemma: pagination when the response carries no continuation
token. -/
theorem collectPages_last (env : ListEnv) (s : String) (fuel : Nat) (acc : List Resource)
    (tok : Option String) (h : (env.fetchList s tok).NextToken = none) :
    collectPages env s (fuel + 1) acc tok =
      some (acc ++ (env.fetchList s tok).StackResourceSummaries) := by
  simp [collectPages, h]

/-- Step lemma: pagination when the response carries the falsy empty
continuation token. -/
theorem collectPages_emptyTok (env : ListEnv) (s : String) (fuel : Nat) (acc : List Resource)
    (tok : Option String) (h : (env.fetchList s tok).NextToken = some "") :
    collectPages env s (fuel + 1) acc tok =
      some (acc ++ (env.fetchList s tok).StackResourceSummaries) := by
  simp [collectPages, h]

/-- Step lemma: pagination follows a truthy continuation token. -/
theorem collectPages_more (env : ListEnv) (s : String) (fuel : Nat) (acc : List Resource)
    (tok : Option String) (t : String) (h : (env.fetchList s tok).NextToken = some t)
    (ht : t ≠ "") :
    collectPages env s (fuel + 1) acc tok =
      collectPages env s fuel (acc ++ (env.fetchList s tok).StackResourceSummaries) (some t) := by
  simp [collectPages, h, ht]

/-- The pagination loop is a partial function of its arguments: any two
fuels that make it finish produce the same page accumulation. -/
theorem collectPages_det (env : ListEnv) (s : String) :
    ∀ f1 f2 acc tok l1 l2, collectPages env s f1 acc tok = some l1 →
      collectPages env s f2 acc tok = some l2 → l1 = l2 := by
  intro f1
  induction f1 with
  | zero => intro f2 acc tok l1 l2 h1 _; simp [collectPages] at h1
  | succ f ih =>
    intro f2 acc tok l1 l2 h1 h2
    cases f2 with
    | zero => simp [collectPages] at h2
    | succ g =>
      cases hnt : (env.fetchList s tok).NextToken with
      | none =>
        rw [collectPages_last env s f acc tok hnt] at h1
        rw [collectPages_last env s g acc tok hnt] at h2
        exact (Option.some.inj h1).symm.trans (Option.some.inj h2)
      | some t =>
        by_cases ht : t = ""
        · subst ht
          rw [collectPages_emptyTok env s f acc tok hnt] at h1
          rw [collectPages_emptyTok env s g acc tok hnt] at h2
          exact (Option.some.inj h1).symm.trans (Option.some.inj h2)
        · rw [collectPages_more env s f acc tok t hnt ht] at h1
          rw [collectPages_more env s g acc tok t hnt ht] at h2
          exact ih g _ _ _ _ h1 h2

/-- Step lemma: the enumeration walk past the end of the array. -/
theorem expandLoop_done (env : ListEnv) (fuel : Nat) (l : List Resource) (i : Nat)
    (h : ¬ i < l.length) : expandLoop env (fuel + 1) l i = some l := by
  simp [expandLoop, h]

/-- Step lemma: the enumeration walk over a non-stack resource. -/
theorem expandLoop_skip (env : ListEnv) (fuel : Nat) (l : List Resource) (i : Nat)
    (h : i < l.length) (hns : l[i].ResourceType ≠ "AWS::CloudFormation::Stack") :
    expandLoop env (fuel + 1) l i = expandLoop env fuel l (i + 1) := by
  simp [expandLoop, h, hns]

/-- Step lemma: the enumeration walk over a nested-stack resource
appends the nested stack's listed-and-walked resources and moves on. -/
theorem expandLoop_stack (env : ListEnv) (fuel : Nat) (l : List Resource) (i : Nat)
    (h : i < l.length) (hs : l[i].ResourceType = "AWS::CloudFormation::Stack")
    (nm : String) (hnm : nestedStackNameOf l[i].PhysicalResourceId = some nm)
    (base : List Resource) (hcp : collectPages env nm (fuel + 1) [] none = some base)
    (nested : List Resource) (hexp : expandLoop env fuel base 0 = some nested) :
    expandLoop env (fuel + 1) l i = expandLoop env fuel (l ++ nested) (i + 1) := by
  simp [expandLoop, h, hs, hnm, hcp, hexp]

/-- Step lemma: the walk fails on a malformed nested-stack physical id. -/
theorem expandLoop_stack_badname (env : ListEnv) (fuel : Nat) (l : List Resource) (i : Nat)
    (h : i < l.length) (hs : l[i].ResourceType = "AWS::CloudFormation::Stack")
    (hnm : nestedStackNameOf l[i].PhysicalResourceId = none) :
    expandLoop env (fuel + 1) l i = none := by
  simp [expandLoop, h, hs, hnm]

/-- Unfolding lemma for `listStackResources` at positive fuel. -/
theorem listStackResources_succ (env : ListEnv) (fuel : Nat) (s : String) :
    listStackResources env (fuel + 1) s =
      match collectPages env s (fuel + 1) [] none with
      | none => none
      | some base => expandLoop env fuel base 0 := rfl

/-- A loop over a list without nested-stack resources appends nothing:
the walk returns the list unchanged. -/
theorem expandLoop_noStacks (env : ListEnv) (l : List Resource)
    (hl : ∀ x ∈ l, x.ResourceType ≠ "AWS::CloudFormation::Stack") :
    ∀ f i out, expandLoop env f l i = some out → out = l := by
  intro f
  induction f with
  | zero => intro i out h; simp [expandLoop] at h
  | succ f ih =>
    intro i out h
    by_cases hi : i < l.length
    · rw [expandLoop_skip env f l i hi (hl _ (List.getElem_mem hi))] at h
      exact ih _ _ h
    · rw [expandLoop_done env f l i hi] at h
      exact (Option.some.inj h).symm


/-- Expansion distributes over append. -/
theorem expansionOf_append (pages : String → List Resource) (a b : List Resource) :
    expansionOf pages (a ++ b) = expansionOf pages a ++ expansionOf pages b := by
  simp [expansionOf]

/-- A list without nested-stack resources expands to nothing. -/
theorem expansionOf_noStacks (pages : String → List Resource) (l : List Resource)
    (hl : ∀ x ∈ l, x.ResourceType ≠ "AWS::CloudFormation::Stack") :
    expansionOf pages l = [] := by
  unfold expansionOf
  rw [List.filterMap_eq_nil_iff.mpr]
  · rfl
  · intro a ha
    rw [if_neg (hl a ha)]

/-- Expansion of a list headed by a stack resource. -/
theorem expansionOf_cons_stack (pages : String → List Resource) (r : Resource)
    (rest : List Resource) (hstack : r.ResourceType = "AWS::CloudFormation::Stack")
    (nm : String) (hnm : nestedStackNameOf r.PhysicalResourceId = some nm) :
    expansionOf pages (r :: rest) = pages nm ++ expansionOf pages rest := by
  simp [expansionOf, List.filterMap_cons, hstack, hnm]

/-- Expansion of a list headed by a non-stack resource. -/
theorem expansionOf_cons_other (pages : String → List Resource) (r : Resource)
    (rest : List Resource) (hstack : r.ResourceType ≠ "AWS::CloudFormation::Stack") :
    expansionOf pages (r :: rest) = expansionOf pages rest := by
  simp [expansionOf, List.filterMap_cons, if_neg hstack]

/-- Main loop invariant of the enumeration walk: if the current array
together with the pending expansions of its unvisited suffix is
duplicate-free, and no pending nested stack lists further nested stacks,
then the final array is duplicate-free. -/
theorem expandLoop_nodup (env : ListEnv) (pages : String → List Resource)
    (hpag : ∀ s, ∃ f, collectPages env s f [] none = some (pages s)) :
    ∀ f l i out, expandLoop env f l i = some out →
      ((l ++ expansionOf pages (l.drop i)).map resourceKey).Nodup →
      (∀ r ∈ l.drop i, r.ResourceType = "AWS::CloudFormation::Stack" →
        ∀ nm, nestedStackNameOf r.PhysicalResourceId = some nm →
          ∀ x ∈ pages nm, x.ResourceType ≠ "AWS::CloudFormation::Stack") →
      (out.map resourceKey).Nodup := by
  intro f
  induction f with
  | zero => intro l i out h _ _; simp [expandLoop] at h
  | succ f ih =>
    intro l i out h h1 h2
    by_cases hi : i < l.length
    · have hdropi : l.drop i = l[i] :: l.drop (i + 1) := List.drop_eq_getElem_cons hi
      by_cases hstack : l[i].ResourceType = "AWS::CloudFormation::Stack"
      · cases hnm : nestedStackNameOf l[i].PhysicalResourceId with
        | none => rw [expandLoop_stack_badname env f l i hi hstack hnm] at h; simp at h
        | some nm =>
          have hrmem : l[i] ∈ l.drop i := by
            rw [hdropi]; exact List.mem_cons_self _ _
          have hnsnm := h2 _ hrmem hstack nm hnm
          cases hcp : collectPages env nm (f + 1) [] none with
          | none =>
            rw [show expandLoop env (f + 1) l i = none by simp [expandLoop, hi, hstack, hnm, hcp]] at h
            simp at h
          | some base =>
            have hbase : base = pages nm := by
              obtain ⟨f0, hf0⟩ := hpag nm
              exact collectPages_det env nm _ _ _ _ _ _ hcp hf0
            subst hbase
            cases hexp : expandLoop env f (pages nm) 0 with
            | none =>
              rw [show expandLoop env (f + 1) l i = none by
                    simp [expandLoop, hi, hstack, hnm, hcp, hexp]] at h
              simp at h
            | some nested =>
              have hnested : nested = pages nm :=
                expandLoop_noStacks env (pages nm) hnsnm f 0 nested hexp
              subst hnested
              rw [expandLoop_stack env f l i hi hstack nm hnm (pages nm) hcp (pages nm) hexp] at h
              refine ih (l ++ pages nm) (i + 1) out h ?_ ?_
              · have hsplit : (l ++ pages nm).drop (i + 1) = l.drop (i + 1) ++ pages nm :=
                  List.drop_append_of_le_length (by omega)
                rw [hsplit, expansionOf_append, expansionOf_noStacks pages (pages nm) hnsnm]
                rw [hdropi, expansionOf_cons_stack pages _ _ hstack nm hnm] at h1
                simp only [List.append_assoc, List.append_nil] at h1 ⊢
                exact h1
              · intro x hx hxs nm2 hnm2 y hy
                have hsplit : (l ++ pages nm).drop (i + 1) = l.drop (i + 1) ++ pages nm :=
                  List.drop_append_of_le_length (by omega)
                rw [hsplit] at hx
                rcases List.mem_append.mp hx with hx1 | hx2
                · exact h2 x (by rw [hdropi]; exact List.mem_cons_of_mem _ hx1) hxs nm2 hnm2 y hy
                · exact absurd hxs (hnsnm x hx2)
      · rw [expandLoop_skip env f l i hi hstack] at h
        refine ih l (i + 1) out h ?_ ?_
        · rw [hdropi, expansionOf_cons_other pages _ _ hstack] at h1
          exact h1
        · intro x hx
          exact h2 x (by rw [hdropi]; exact List.mem_cons_of_mem _ hx)
    · rw [expandLoop_done env f l i hi] at h
      have hnil : l.drop i = [] := List.drop_eq_nil_of_le (by omega)
      rw [hnil] at h1
      cases h
      simpa [expansionOf] using h1

/-- C1 (amended).  The enumeration performs no deduplication; its flat
list is duplicate-free in `(resourceType, physicalId)` provided (a) no
nested stack's listing contains a further nested-stack resource (the
walk re-expands nested-stack resources appended mid-iteration), and
(b) the root listing together with all nested listings is globally
duplicate-free in that key. -/
theorem enumeration_nodup_of_disjoint (env : ListEnv) (pages : String → List Resource)
    (root : String)
    (hpag : ∀ s, ∃ f, collectPages env s f [] none = some (pages s))
    (hdepth : ∀ r ∈ pages root, r.ResourceType = "AWS::CloudFormation::Stack" →
      ∀ nm, nestedStackNameOf r.PhysicalResourceId = some nm →
        ∀ x ∈ pages nm, x.ResourceType ≠ "AWS::CloudFormation::Stack")
    (hdisj : ((pages root ++ expansionOf pages (pages root)).map resourceKey).Nodup) :
    ∀ fuel out, listStackResources env fuel root = some out →
      (out.map resourceKey).Nodup := by
  intro fuel out h
  cases fuel with
  | zero => simp [listStackResources] at h
  | succ g =>
    rw [listStackResources_succ] at h
    cases hc : collectPages env root (g + 1) [] none with
    | none => rw [hc] at h; simp at h
    | some base =>
      rw [hc] at h
      obtain ⟨f0, hf0⟩ := hpag root
      have hbase : base = pages root := collectPages_det env root _ _ _ _ _ _ hc hf0
      subst hbase
      refine expandLoop_nodup env pages hpag g _ 0 out h ?_ ?_
      · simpa using hdisj
      · simpa using hdepth

/-- C1, counterexample to the claim as stated: with a doubly nested
stack the `for...of` walk revisits the nested-stack records it appended
mid-iteration and expands the inner stack twice, so the flat list holds
the `(AWS::S3::Bucket, bucket-logs)` pair twice. -/
theorem enumeration_dup_counterexample :
    listStackResources envDup 20 "root" = some envDupOut ∧
      ¬ (envDupOut.map resourceKey).Nodup := by
  constructor
  · decide
  · decide

/-- Witness input for the amended C1 theorem: the flat result of the
singly-nested witness environment. -/
theorem enumeration_nodup_witness :
    listStackResources envW 10 "root" = some (pagesW "root" ++ pagesW "N1") ∧
      (((pagesW "root" ++ pagesW "N1").map resourceKey)).Nodup := by
  refine ⟨by decide, ?_⟩
  refine enumeration_nodup_of_disjoint envW pagesW "root" ?_ ?_ ?_ 10 _ (by decide)
  · intro s
    exact ⟨1, by simp [collectPages, envW]⟩
  · intro r hr hstack nm hnm x hx
    simp only [pagesW, mkRes, if_pos rfl] at hr
    rcases List.mem_cons.mp hr with h | h
    · subst h
      have : nm = "N1" := by
        have h2 : nestedStackNameOf "arn:aws:cloudformation/N1/guid1" = some "N1" := by decide
        rw [h2] at hnm
        exact (Option.some.inj hnm).symm
      subst this
      revert hx
      revert x
      decide
    · simp only [List.mem_singleton] at h
      subst h
      simp at hstack
  · decide

/-- Inversion of `Except.map` returning `ok`. -/
theorem exceptMap_ok {ε α β : Type} {e : Except ε α} {f : α → β} {b : β}
    (h : e.map f = .ok b) : ∃ a, e = .ok a ∧ f a = b := by
  cases e with
  | error x => simp [Except.map] at h
  | ok a => exact ⟨a, rfl, by simpa [Except.map] using h⟩

/-- The first describe pass yields no user-pool-client records. -/
theorem describePass1_no_client (env : DescribeEnv) :
    ∀ rs out, describePass1 env rs = .ok out →
      ∀ d ∈ out, d.ResourceType ≠ "AWS::Cognito::UserPoolClient" := by
  intro rs
  induction rs with
  | nil =>
    intro out h d hd
    simp only [describePass1, Except.ok.injEq] at h
    subst h
    exact absurd hd (List.not_mem_nil d)
  | cons r rest ih =>
    intro out h d hd
    unfold describePass1 at h
    split_ifs at h with h1 h2 h3 h4 h5
    · cases hpj : parseJson (env.getIntrospectionSchema ((jsSplit r.PhysicalResourceId '/').getD 1 "")) with
      | none => rw [hpj] at h; simp at h
      | some doc =>
        rw [hpj] at h
        obtain ⟨tail, htail, rfl⟩ := exceptMap_ok h
        rcases List.mem_cons.mp hd with rfl | hdm
        · show r.ResourceType ≠ _
          rw [h1]; decide
        · exact ih tail htail d hdm
    · obtain ⟨tail, htail, rfl⟩ := exceptMap_ok h
      rcases List.mem_cons.mp hd with rfl | hdm
      · show r.ResourceType ≠ _
        rw [h2]; decide
      · exact ih tail htail d hdm
    · obtain ⟨tail, htail, rfl⟩ := exceptMap_ok h
      rcases List.mem_cons.mp hd with rfl | hdm
      · show r.ResourceType ≠ _
        rw [h3]; decide
      · exact ih tail htail d hdm
    · obtain ⟨tail, htail, rfl⟩ := exceptMap_ok h
      rcases List.mem_cons.mp hd with rfl | hdm
      · show r.ResourceType ≠ _
        rw [h4]; decide
      · exact ih tail htail d hdm
    · obtain ⟨tail, htail, rfl⟩ := exceptMap_ok h
      rcases List.mem_cons.mp hd with rfl | hdm
      · show r.ResourceType ≠ _
        rw [h5]; decide
      · exact ih tail htail d hdm
    · exact ih out h d hd

/-- The first describe pass records every user pool it sees. -/
theorem describePass1_mem_pool (env : DescribeEnv) :
    ∀ rs out, describePass1 env rs = .ok out →
      ∀ r ∈ rs, r.ResourceType = "AWS::Cognito::UserPool" →
        mkDR r (some (.userPool (env.describeUserPool r.PhysicalResourceId))) none ∈ out := by
  intro rs
  induction rs with
  | nil => intro out _ r hr; exact absurd hr (List.not_mem_nil r)
  | cons q rest ih =>
    intro out h r hr hrt
    unfold describePass1 at h
    split_ifs at h with h1 h2 h3 h4 h5
    · cases hpj : parseJson (env.getIntrospectionSchema ((jsSplit q.PhysicalResourceId '/').getD 1 "")) with
      | none => rw [hpj] at h; simp at h
      | some doc =>
        rw [hpj] at h
        obtain ⟨tail, htail, rfl⟩ := exceptMap_ok h
        rcases List.mem_cons.mp hr with rfl | hrm
        · rw [hrt] at h1; simp at h1
        · exact List.mem_cons_of_mem _ (ih tail htail r hrm hrt)
    · obtain ⟨tail, htail, rfl⟩ := exceptMap_ok h
      rcases List.mem_cons.mp hr with rfl | hrm
      · rw [hrt] at h2; simp at h2
      · exact List.mem_cons_of_mem _ (ih tail htail r hrm hrt)
    · obtain ⟨tail, htail, rfl⟩ := exceptMap_ok h
      rcases List.mem_cons.mp hr with rfl | hrm
      · exact List.mem_cons_self _ _
      · exact List.mem_cons_of_mem _ (ih tail htail r hrm hrt)
    · obtain ⟨tail, htail, rfl⟩ := exceptMap_ok h
      rcases List.mem_cons.mp hr with rfl | hrm
      · rw [hrt] at h4; simp at h4
      · exact List.mem_cons_of_mem _ (ih tail htail r hrm hrt)
    · obtain ⟨tail, htail, rfl⟩ := exceptMap_ok h
      rcases List.mem_cons.mp hr with rfl | hrm
      · rw [hrt] at h5; simp at h5
      · exact List.mem_cons_of_mem _ (ih tail htail r hrm hrt)
    · rcases List.mem_cons.mp hr with rfl | hrm
      · exact absurd hrt h3
      · exact ih out h r hrm hrt

/-- The second pass does nothing on a list without user-pool clients. -/
theorem describePass2_noClients (env : DescribeEnv) (tmpl : CfTemplate) (RS : List Resource) :
    ∀ rs, (∀ r ∈ rs, r.ResourceType ≠ "AWS::Cognito::UserPoolClient") →
      describePass2 env tmpl RS rs = .ok [] := by
  intro rs
  induction rs with
  | nil => intro _; rfl
  | cons q rest ih =>
    intro hno
    unfold describePass2
    rw [if_neg (hno q (List.mem_cons_self q rest))]
    exact ih (fun r hr => hno r (List.mem_cons_of_mem q hr))

/-- The second pass over a list with exactly one user-pool client,
whose template entry and parent pool resolve, produces exactly that
client's record. -/
theorem describePass2_single (env : DescribeEnv) (tmpl : CfTemplate) (RS : List Resource) :
    ∀ rs client,
      rs.filter (fun r => r.ResourceType == "AWS::Cognito::UserPoolClient") = [client] →
      ∀ entry, tmpl client.LogicalResourceId = some entry →
      ∀ pool, (RS.filter (fun q => q.ResourceType == "AWS::Cognito::UserPool" &&
          q.LogicalResourceId == entry.userPoolIdRef)).head? = some pool →
      describePass2 env tmpl RS rs =
        .ok [mkDR client (some (.upc (env.describeUserPoolClient client.PhysicalResourceId
          pool.PhysicalResourceId))) none] := by
  intro rs
  induction rs with
  | nil => intro client hf; simp at hf
  | cons q rest ih =>
    intro client hf entry hentry pool hpool
    by_cases hq : q.ResourceType = "AWS::Cognito::UserPoolClient"
    · rw [List.filter_cons_of_pos (by simp [hq])] at hf
      simp only [List.cons.injEq] at hf
      obtain ⟨rfl, hrest⟩ := hf
      have hnone : ∀ r ∈ rest, r.ResourceType ≠ "AWS::Cognito::UserPoolClient" := by
        intro r hr hc
        have hmem : r ∈ rest.filter
            (fun r => r.ResourceType == "AWS::Cognito::UserPoolClient") :=
          List.mem_filter.mpr ⟨hr, by simp [hc]⟩
        rw [hrest] at hmem
        exact absurd hmem (List.not_mem_nil r)
      have htail := describePass2_noClients env tmpl RS rest hnone
      simp [describePass2, hq, hentry, hpool, htail, Except.map]
    · rw [List.filter_cons_of_neg (by simp [hq])] at hf
      unfold describePass2
      rw [if_neg hq]
      exact ih client hf entry hentry pool hpool

/-- Filtering by a conjunction filters successively. -/
theorem filter_and_split (rs : List Resource) (P Q : Resource → Bool) :
    rs.filter (fun a => P a && Q a) = (rs.filter P).filter Q := by
  induction rs with
  | nil => rfl
  | cons x xs ih =>
    by_cases hp : P x <;> by_cases hq : Q x <;>
      simp [List.filter_cons, hp, hq, ih]

/-- C2.  On a record set with exactly one user pool and exactly one
user-pool client whose compiled-template entry references that pool,
`describeStackResources` describes the client strictly after the first
pass (hence after all user pools, which the first pass records), and the
client's record carries metadata whose pool reference is the pool's
physical id (given that the `describeUserPoolClient` capability echoes
the pool id it is asked about, as the AWS API does). -/
theorem describe_client_after_pools (env : DescribeEnv) (tmpl : CfTemplate)
    (rs : List Resource) (pool client : Resource)
    (hpools : rs.filter (fun r => r.ResourceType == "AWS::Cognito::UserPool") = [pool])
    (hclients : rs.filter (fun r => r.ResourceType == "AWS::Cognito::UserPoolClient") = [client])
    (entry : CfTemplateEntry) (hentry : tmpl client.LogicalResourceId = some entry)
    (href : entry.userPoolIdRef = pool.LogicalResourceId)
    (hconform : ∀ c p, (env.describeUserPoolClient c p).UserPoolClient.UserPoolId = p)
    (p1 : List DResource) (hp1 : describePass1 env rs = .ok p1) :
    ∃ crec, describeStackResources env tmpl rs = .ok (p1 ++ [crec]) ∧
      (∀ d ∈ p1, d.ResourceType ≠ "AWS::Cognito::UserPoolClient") ∧
      crec.ResourceType = "AWS::Cognito::UserPoolClient" ∧
      mkDR pool (some (.userPool (env.describeUserPool pool.PhysicalResourceId))) none ∈ p1 ∧
      crec.metadata = some (.upc (env.describeUserPoolClient client.PhysicalResourceId
        pool.PhysicalResourceId)) ∧
      upcPoolRef crec = some pool.PhysicalResourceId := by
  have hpoolmem : pool ∈ rs ∧ pool.ResourceType = "AWS::Cognito::UserPool" := by
    have : pool ∈ rs.filter (fun r => r.ResourceType == "AWS::Cognito::UserPool") := by
      rw [hpools]; exact List.mem_singleton.mpr rfl
    have h2 := List.mem_filter.mp this
    exact ⟨h2.1, by simpa using h2.2⟩
  have hclientmem : client ∈ rs ∧ client.ResourceType = "AWS::Cognito::UserPoolClient" := by
    have : client ∈ rs.filter (fun r => r.ResourceType == "AWS::Cognito::UserPoolClient") := by
      rw [hclients]; exact List.mem_singleton.mpr rfl
    have h2 := List.mem_filter.mp this
    exact ⟨h2.1, by simpa using h2.2⟩
  have hpfilter : (rs.filter (fun q => q.ResourceType == "AWS::Cognito::UserPool" &&
      q.LogicalResourceId == entry.userPoolIdRef)).head? = some pool := by
    rw [filter_and_split, hpools]
    rw [List.filter_cons_of_pos (by rw [href]; simp)]
    rfl
  have hp2 := describePass2_single env tmpl rs rs client hclients entry hentry pool hpfilter
  refine ⟨mkDR client (some (.upc (env.describeUserPoolClient client.PhysicalResourceId
    pool.PhysicalResourceId))) none, ?_, ?_, ?_, ?_, ?_, ?_⟩
  · simp [describeStackResources, hp1, hp2, Except.bind, bind, pure, Except.pure]
  · exact describePass1_no_client env rs p1 hp1
  · exact hclientmem.2
  · exact describePass1_mem_pool env rs p1 hp1 pool hpoolmem.1 hpoolmem.2
  · rfl
  · simp [upcPoolRef, mkDR, hconform]

/-- Witness for C2 at a concrete pool/client record set. -/
theorem describe_client_after_pools_witness :
    ∃ crec, describeStackResources envEcho tmplEcho [poolRes, clientRes] =
        .ok ([mkDR poolRes (some (.userPool ⟨"us-east-1_POOLID"⟩)) none] ++ [crec]) ∧
      (∀ d ∈ [mkDR poolRes (some (.userPool ⟨"us-east-1_POOLID"⟩)) none],
        d.ResourceType ≠ "AWS::Cognito::UserPoolClient") ∧
      crec.ResourceType = "AWS::Cognito::UserPoolClient" ∧
      mkDR poolRes (some (.userPool (envEcho.describeUserPool poolRes.PhysicalResourceId))) none ∈
        [mkDR poolRes (some (.userPool ⟨"us-east-1_POOLID"⟩)) none] ∧
      crec.metadata = some (.upc (envEcho.describeUserPoolClient clientRes.PhysicalResourceId
        poolRes.PhysicalResourceId)) ∧
      upcPoolRef crec = some poolRes.PhysicalResourceId :=
  describe_client_after_pools envEcho tmplEcho [poolRes, clientRes] poolRes clientRes
    (by decide) (by decide) ⟨"UserPool"⟩ rfl rfl (fun _ _ => rfl)
    [mkDR poolRes (some (.userPool ⟨"us-east-1_POOLID"⟩)) none] rfl

/-- The second pass either succeeds or throws an untagged `TypeError`:
no other failure shape exists in it. -/
theorem describePass2_shape (env : DescribeEnv) (tmpl : CfTemplate) (RS : List Resource) :
    ∀ rs, (∃ out, describePass2 env tmpl RS rs = .ok out) ∨
      (∃ m, describePass2 env tmpl RS rs = .error (.typeError m)) := by
  intro rs
  induction rs with
  | nil => exact .inl ⟨[], rfl⟩
  | cons q rest ih =>
    by_cases hq : q.ResourceType = "AWS::Cognito::UserPoolClient"
    · cases htm : tmpl q.LogicalResourceId with
      | none =>
        exact .inr ⟨"Cannot read property Properties of undefined",
          by simp [describePass2, hq, htm]⟩
      | some entry =>
        cases hhd : (RS.filter (fun p => p.ResourceType == "AWS::Cognito::UserPool" &&
            p.LogicalResourceId == entry.userPoolIdRef)).head? with
        | none =>
          exact .inr ⟨"Cannot read property PhysicalResourceId of undefined",
            by simp [describePass2, hq, htm, hhd]⟩
        | some pool =>
          rcases ih with ⟨o, ho⟩ | ⟨m, hm⟩
          · exact .inl ⟨mkDR q (some (.upc (env.describeUserPoolClient q.PhysicalResourceId
              pool.PhysicalResourceId))) none :: o,
              by simp [describePass2, hq, htm, hhd, ho, Except.map]⟩
          · exact .inr ⟨m, by simp [describePass2, hq, htm, hhd, hm, Except.map]⟩
    · rcases ih with ⟨o, ho⟩ | ⟨m, hm⟩
      · exact .inl ⟨o, by simp [describePass2, hq, ho]⟩
      · exact .inr ⟨m, by simp [describePass2, hq, hm]⟩

/-- The second pass succeeds exactly when every user-pool client in its
input has a template entry and a matching user-pool record. -/
theorem describePass2_ok_iff (env : DescribeEnv) (tmpl : CfTemplate) (RS : List Resource) :
    ∀ rs, (∃ out, describePass2 env tmpl RS rs = .ok out) ↔
      (∀ r ∈ rs, r.ResourceType = "AWS::Cognito::UserPoolClient" →
        ∃ entry, tmpl r.LogicalResourceId = some entry ∧
          ∃ pool, (RS.filter (fun q => q.ResourceType == "AWS::Cognito::UserPool" &&
            q.LogicalResourceId == entry.userPoolIdRef)).head? = some pool) := by
  intro rs
  induction rs with
  | nil => simp [describePass2]
  | cons q rest ih =>
    constructor
    · rintro ⟨out, hout⟩ r hr hc
      by_cases hq : q.ResourceType = "AWS::Cognito::UserPoolClient"
      · cases htm : tmpl q.LogicalResourceId with
        | none => rw [show describePass2 env tmpl RS (q :: rest) = .error
            (.typeError "Cannot read property Properties of undefined") by
              simp [describePass2, hq, htm]] at hout; simp at hout
        | some entry =>
          cases hhd : (RS.filter (fun p => p.ResourceType == "AWS::Cognito::UserPool" &&
              p.LogicalResourceId == entry.userPoolIdRef)).head? with
          | none => rw [show describePass2 env tmpl RS (q :: rest) = .error
              (.typeError "Cannot read property PhysicalResourceId of undefined") by
                simp [describePass2, hq, htm, hhd]] at hout; simp at hout
          | some pool =>
            have hout2 : (describePass2 env tmpl RS rest).map
                (fun tail => mkDR q (some (.upc (env.describeUserPoolClient
                  q.PhysicalResourceId pool.PhysicalResourceId))) none :: tail) = .ok out := by
              rw [← hout]; simp [describePass2, hq, htm, hhd]
            obtain ⟨tail, htail, _⟩ := exceptMap_ok hout2
            rcases List.mem_cons.mp hr with rfl | hrm
            · exact ⟨entry, htm, pool, hhd⟩
            · exact ih.mp ⟨tail, htail⟩ r hrm hc
      · have hout2 : describePass2 env tmpl RS rest = .ok out := by
          rw [← hout]; simp [describePass2, hq]
        rcases List.mem_cons.mp hr with rfl | hrm
        · exact absurd hc hq
        · exact ih.mp ⟨out, hout2⟩ r hrm hc
    · intro hP
      obtain ⟨tail, htail⟩ := ih.mpr (fun r hr hc => hP r (List.mem_cons_of_mem q hr) hc)
      by_cases hq : q.ResourceType = "AWS::Cognito::UserPoolClient"
      · obtain ⟨entry, htm, pool, hhd⟩ := hP q (List.mem_cons_self q rest) hq
        exact ⟨mkDR q (some (.upc (env.describeUserPoolClient q.PhysicalResourceId
          pool.PhysicalResourceId))) none :: tail,
          by simp [describePass2, hq, htm, hhd, htail, Except.map]⟩
      · exact ⟨tail, by simp [describePass2, hq, htail]⟩

/-- C10.  Given a first pass that succeeds (every introspection schema
parses), the describe pass is total exactly under the client/parent-pool
precondition; when the precondition fails, the failure is an untagged
`TypeError` (an undefined-property access, not an error tagged with the
client's logical id), and the whole generation pipeline aborts with it
before any directive is processed. -/
theorem describe_totality_iff_precondition (env : DescribeEnv) (tmpl : CfTemplate)
    (rs : List Resource) (hp1 : ∃ p1, describePass1 env rs = .ok p1) :
    ((∃ out, describeStackResources env tmpl rs = .ok out) ↔ clientPrecondition tmpl rs) ∧
    (¬ clientPrecondition tmpl rs →
      (∃ m, describeStackResources env tmpl rs = .error (.typeError m)) ∧
      ∀ ctx genv directives, ∃ m,
        generateFromResources ctx env genv tmpl rs directives = .error (.typeError m)) := by
  obtain ⟨p1, hp1⟩ := hp1
  constructor
  · constructor
    · rintro ⟨out, hout⟩
      rcases describePass2_shape env tmpl rs rs with ⟨o2, h2⟩ | ⟨m, h2⟩
      · exact (describePass2_ok_iff env tmpl rs rs).mp ⟨o2, h2⟩
      · rw [show describeStackResources env tmpl rs = .error (.typeError m) by
          simp [describeStackResources, hp1, h2, Except.bind, bind]] at hout
        simp at hout
    · intro hP
      obtain ⟨o2, h2⟩ := (describePass2_ok_iff env tmpl rs rs).mpr hP
      exact ⟨p1 ++ o2, by simp [describeStackResources, hp1, h2, Except.bind, bind, pure, Except.pure]⟩
  · intro hnP
    rcases describePass2_shape env tmpl rs rs with ⟨o2, h2⟩ | ⟨m, h2⟩
    · exact absurd ((describePass2_ok_iff env tmpl rs rs).mp ⟨o2, h2⟩) hnP
    · have herr : describeStackResources env tmpl rs = .error (.typeError m) := by
        simp [describeStackResources, hp1, h2, Except.bind, bind]
      refine ⟨⟨m, herr⟩, ?_⟩
      intro ctx genv directives
      exact ⟨m, by simp [generateFromResources, herr, Except.map]⟩

/-- Witness for C10: a record set with one app client and an empty
compiled template. -/
theorem describe_totality_iff_precondition_witness :
    ((∃ out, describeStackResources envEcho tmplEmpty [clientRes] = .ok out) ↔
      clientPrecondition tmplEmpty [clientRes]) ∧
    (¬ clientPrecondition tmplEmpty [clientRes] →
      (∃ m, describeStackResources envEcho tmplEmpty [clientRes] = .error (.typeError m)) ∧
      ∀ ctx genv directives, ∃ m,
        generateFromResources ctx envEcho genv tmplEmpty [clientRes] directives =
          .error (.typeError m)) :=
  describe_totality_iff_precondition envEcho tmplEmpty [clientRes] ⟨[], rfl⟩

/-- An effectful find whose predicate never throws is a plain find. -/
theorem findE_eq_find? (p : α → Except JsError Bool) (q : α → Bool) :
    ∀ l : List α, (∀ x ∈ l, p x = .ok (q x)) → findE p l = .ok (l.find? q) := by
  intro l
  induction l with
  | nil => intro _; rfl
  | cons x xs ih =>
    intro h
    have hx := h x (List.mem_cons_self x xs)
    by_cases hq : q x
    · simp [findE, hx, hq, List.find?, Except.bind, bind, pure, Except.pure]
    · simp only [Bool.not_eq_true] at hq
      simp [findE, hx, hq, List.find?, Except.bind, bind,
        ih (fun y hy => h y (List.mem_cons_of_mem x hy))]

/-- Decomposition of the JavaScript configuration builder into its
sections. -/
theorem getJS_parts (ctx : PluginCtx) (resources : List DResource) (fd : FileDetails)
    (cfg : Assoc) (h : getJavaScriptConfiguration ctx resources fd = .ok cfg) :
    ∃ c1 c2 c3,
      jsAppClientSection resources fd [("aws_project_region", .str ctx.region)] = .ok c1 ∧
      jsIdentitySection resources fd c1 = .ok c2 ∧
      jsAppSyncSection resources c2 = .ok c3 ∧
      cfg = jsApiGwSection ctx resources (jsS3Section ctx resources fd c3) := by
  unfold getJavaScriptConfiguration at h
  cases h1 : jsAppClientSection resources fd [("aws_project_region", .str ctx.region)] with
  | error e => rw [h1] at h; simp [Except.bind, bind] at h
  | ok c1 =>
    rw [h1] at h
    simp only [bind, Except.bind] at h
    cases h2 : jsIdentitySection resources fd c1 with
    | error e => rw [h2] at h; simp at h
    | ok c2 =>
      rw [h2] at h
      simp only [bind, Except.bind] at h
      cases h3 : jsAppSyncSection resources c2 with
      | error e => rw [h3] at h; simp at h
      | ok c3 =>
        rw [h3] at h
        simp only [bind, Except.bind, pure, Except.pure, Except.ok.injEq] at h
        exact ⟨c1, c2, c3, rfl, h2, h3, h.symm⟩

/-- Decomposition of the native configuration builder into its
sections. -/
theorem getNative_parts (ctx : PluginCtx) (resources : List DResource) (fd : FileDetails)
    (cfg : Assoc) (h : writeNativeConfigurationJson ctx resources fd = .ok cfg) :
    ∃ c1 c2 c3,
      nativeAppClientSection resources fd
        [("UserAgent", .str ctx.useragent), ("Version", .str "1.0")] = .ok c1 ∧
      nativeIdentitySection resources fd c1 = .ok c2 ∧
      nativeAppSyncSection resources c2 = .ok c3 ∧
      cfg = nativeApiGwSection ctx resources (nativeS3Section ctx resources fd c3) := by
  unfold writeNativeConfigurationJson at h
  cases h1 : nativeAppClientSection resources fd
      [("UserAgent", .str ctx.useragent), ("Version", .str "1.0")] with
  | error e => rw [h1] at h; simp [Except.bind, bind] at h
  | ok c1 =>
    rw [h1] at h
    simp only [bind, Except.bind] at h
    cases h2 : nativeIdentitySection resources fd c1 with
    | error e => rw [h2] at h; simp at h
    | ok c2 =>
      rw [h2] at h
      simp only [bind, Except.bind] at h
      cases h3 : nativeAppSyncSection resources c2 with
      | error e => rw [h3] at h; simp at h
      | ok c3 =>
        rw [h3] at h
        simp only [bind, Except.bind, pure, Except.pure, Except.ok.injEq] at h
        exact ⟨c1, c2, c3, rfl, h2, h3, h.symm⟩

/-- A lookup misses an association list none of whose keys match. -/
theorem lookup_none_of_keys (k : String) :
    ∀ a : Assoc, (∀ p ∈ a, p.1 ≠ k) → a.lookup k = none := by
  intro a
  induction a with
  | nil => intro _; rfl
  | cons p rest ih =>
    intro h
    have hne : ¬ (k == p.1) = true := by
      simp only [beq_iff_eq]
      exact fun he => h p (List.mem_cons_self p rest) (he.symm)
    cases p with
    | mk k1 v =>
      have hb : (k == k1) = false := by simpa using hne
      simp only [List.lookup, hb]
      exact ih (fun q hq => h q (List.mem_cons_of_mem _ hq))

/-- The app-client section of the JavaScript configuration when the
directive's client resolves. -/
theorem jsAppClientSection_resolved (resources : List DResource) (fd : FileDetails)
    (config : Assoc) (name : String) (client : DResource) (m : UPCMeta)
    (happ : fd.appClient = some name)
    (hfind : resources.find? (fun r => r.ResourceType == "AWS::Cognito::UserPoolClient" &&
      r.LogicalResourceId == name) = some client)
    (hupc : client.metadata = some (.upc m)) :
    jsAppClientSection resources fd config = .ok ((config ++
      [("aws_cognito_region", .str (jsSegment m.UserPoolClient.UserPoolId '_' 0)),
       ("aws_user_pools_id", .str m.UserPoolClient.UserPoolId),
       ("aws_user_pools_web_client_id", .str m.UserPoolClient.ClientId)]) ++ secretExtras m) := by
  have hg : getUPC client = .ok m.UserPoolClient := by simp [getUPC, hupc]
  cases hsec : m.UserPoolClient.ClientSecret with
  | none => simp [jsAppClientSection, happ, hfind, hg, hsec, secretExtras, Except.bind, bind]
  | some s => simp [jsAppClientSection, happ, hfind, hg, hsec, secretExtras, Except.bind, bind]

/-- The app-client section of the native configuration when the
directive's client resolves. -/
theorem nativeAppClientSection_resolved (resources : List DResource) (fd : FileDetails)
    (config : Assoc) (name : String) (client : DResource) (m : UPCMeta)
    (happ : fd.appClient = some name)
    (hfind : resources.find? (fun r => r.ResourceType == "AWS::Cognito::UserPoolClient" &&
      r.LogicalResourceId == name) = some client)
    (hupc : client.metadata = some (.upc m)) :
    nativeAppClientSection resources fd config =
      .ok (config ++ [("CognitoUserPool", .obj [("Default", .obj (cupDefault m))])]) := by
  have hg : getUPC client = .ok m.UserPoolClient := by simp [getUPC, hupc]
  cases hsec : m.UserPoolClient.ClientSecret with
  | none => simp [nativeAppClientSection, happ, hfind, hg, hsec, cupDefault, Except.bind, bind]
  | some s => simp [nativeAppClientSection, happ, hfind, hg, hsec, cupDefault, Except.bind, bind]

/-- The head of a list is a member. -/
theorem mem_of_headq {α : Type} (l : List α) (a : α) (h : l.head? = some a) : a ∈ l := by
  cases l with
  | nil => simp at h
  | cons x xs =>
    simp only [List.head?, Option.some.injEq] at h
    subst h
    exact List.mem_cons_self x xs

/-- A found element is a member. -/
theorem mem_of_findq {α : Type} (p : α → Bool) (l : List α) (a : α)
    (h : l.find? p = some a) : a ∈ l :=
  List.mem_of_find?_eq_some h

/-- The identity-pool predicate of both writers is `idpContains` when
the configuration's web-client id resolves to `cid`. -/
theorem findE_idp (target : Option Json) (cid : String)
    (htarget : target = some (.str cid))
    (pools : List DResource)
    (hwf : ∀ r ∈ pools, ∃ mi, r.metadata = some (.idp mi)) :
    findE (fun r => do
      let m ← getIdp r
      match m.CognitoIdentityProviders with
      | none => pure false
      | some provs => pure (provs.any (fun p => eqStrJson p.ClientId target))) pools =
      .ok (pools.find? (fun r => idpContains r cid)) := by
  refine findE_eq_find? _ _ pools ?_
  intro r hr
  obtain ⟨mi, hmi⟩ := hwf r hr
  have hg : getIdp r = .ok mi := by simp [getIdp, hmi]
  cases hc : mi.CognitoIdentityProviders with
  | none => simp [hg, hc, idpContains, hmi, Except.bind, bind, pure, Except.pure]
  | some provs =>
    simp [hg, hc, idpContains, hmi, htarget, eqStrJson, Except.bind, bind, pure, Except.pure]

/-- The identity section of the JavaScript configuration under a
directive that names a resolved app client: the selected pool is the
first whose federated list contains the client id, falling back to the
first enumerated pool. -/
theorem jsIdentitySection_app (resources : List DResource) (fd : FileDetails) (config : Assoc)
    (cid : String) (happ : fd.appClient.isSome = true)
    (htarget : config.lookup "aws_user_pools_web_client_id" = some (.str cid))
    (hregion : (config.lookup "aws_cognito_region").isSome = true)
    (hwf : ∀ r ∈ resources.filter (fun r => r.ResourceType == "AWS::Cognito::IdentityPool"),
      ∃ mi, r.metadata = some (.idp mi)) :
    ∀ out, jsIdentitySection resources fd config = .ok out →
      match ((resources.filter (fun r => r.ResourceType == "AWS::Cognito::IdentityPool")).find?
          (fun r => idpContains r cid)).or
          (resources.filter (fun r => r.ResourceType == "AWS::Cognito::IdentityPool")).head? with
      | none => out = config
      | some selected => ∃ fed, out = config ++
          ("aws_cognito_identity_pool_id", .str selected.PhysicalResourceId) :: fed ∧
          ∀ p ∈ fed, p.1 = "federated" := by
  intro out hout
  have hfe := findE_idp (config.lookup "aws_user_pools_web_client_id") cid htarget
    (resources.filter (fun r => r.ResourceType == "AWS::Cognito::IdentityPool")) hwf
  unfold jsIdentitySection at hout
  rw [if_pos happ] at hout
  rw [hfe] at hout
  simp only [bind, Except.bind] at hout
  cases hsel : ((resources.filter (fun r => r.ResourceType == "AWS::Cognito::IdentityPool")).find?
      (fun r => idpContains r cid)).or
      (resources.filter (fun r => r.ResourceType == "AWS::Cognito::IdentityPool")).head? with
  | none =>
    rw [hsel] at hout
    simp only [Except.ok.injEq] at hout
    simpa using hout.symm
  | some selected =>
    rw [hsel] at hout
    have hmem : selected ∈ resources.filter
        (fun r => r.ResourceType == "AWS::Cognito::IdentityPool") := by
      rcases Option.or_eq_some.mp hsel with hf | ⟨_, hh⟩
      · exact mem_of_findq _ _ _ hf
      · exact mem_of_headq _ _ hh
    obtain ⟨mi, hmi⟩ := hwf selected hmem
    have hg : getIdp selected = .ok mi := by simp [getIdp, hmi]
    cases hsp : mi.SupportedLoginProviders with
    | none =>
      simp [hg, hsp, hregion] at hout
      exact ⟨[], by simpa using hout.symm, by simp⟩
    | some providers =>
      cases hgg : providers.lookup "accounts.google.com" <;>
        cases hff : providers.lookup "graph.facebook.com" <;>
          cases haa : providers.lookup "www.amazon.com" <;>
            simp [hg, hsp, hregion, hgg, hff, haa] at hout <;>
              exact ⟨_, hout.symm, by simp⟩

/-- The identity section of the JavaScript configuration when the
directive names no app client: the first enumerated pool is selected. -/
theorem jsIdentitySection_noapp (resources : List DResource) (fd : FileDetails) (config : Assoc)
    (happ : fd.appClient = none)
    (hwf : ∀ r ∈ resources.filter (fun r => r.ResourceType == "AWS::Cognito::IdentityPool"),
      ∃ mi, r.metadata = some (.idp mi)) :
    ∀ out, jsIdentitySection resources fd config = .ok out →
      match (resources.filter (fun r => r.ResourceType == "AWS::Cognito::IdentityPool")).head? with
      | none => out = config
      | some selected => ∃ pre fed, out = config ++
          (pre ++ ("aws_cognito_identity_pool_id", .str selected.PhysicalResourceId) :: fed) ∧
          (∀ p ∈ pre, p.1 = "aws_cognito_region") ∧ ∀ p ∈ fed, p.1 = "federated" := by
  intro out hout
  unfold jsIdentitySection at hout
  rw [show fd.appClient.isSome = false by simp [happ]] at hout
  simp only [Bool.false_eq_true, if_false, bind, Except.bind, pure, Except.pure] at hout
  cases hsel : (resources.filter
      (fun r => r.ResourceType == "AWS::Cognito::IdentityPool")).head? with
  | none =>
    rw [show (none : Option DResource).or (resources.filter
        (fun r => r.ResourceType == "AWS::Cognito::IdentityPool")).head? =
          none by rw [hsel]; rfl] at hout
    simp only [Except.ok.injEq] at hout
    simpa using hout.symm
  | some selected =>
    rw [show (none : Option DResource).or (resources.filter
        (fun r => r.ResourceType == "AWS::Cognito::IdentityPool")).head? =
          some selected by rw [hsel]; rfl] at hout
    have hmem := mem_of_headq _ _ hsel
    obtain ⟨mi, hmi⟩ := hwf selected hmem
    have hg : getIdp selected = .ok mi := by simp [getIdp, hmi]
    by_cases hreg : (config.lookup "aws_cognito_region").isSome = true
    · cases hsp : mi.SupportedLoginProviders with
      | none =>
        simp [hg, hsp, hreg] at hout
        exact ⟨[], [], by simpa using hout.symm, by simp, by simp⟩
      | some providers =>
        cases hgg : providers.lookup "accounts.google.com" <;>
          cases hff : providers.lookup "graph.facebook.com" <;>
            cases haa : providers.lookup "www.amazon.com" <;>
              simp [hg, hsp, hreg, hgg, hff, haa] at hout <;>
                exact ⟨[], _, hout.symm, by simp, by simp⟩
    · cases hsp : mi.SupportedLoginProviders with
      | none =>
        simp [hg, hsp, hreg] at hout
        exact ⟨[("aws_cognito_region", .str (jsSegment selected.PhysicalResourceId ':' 0))], [],
          by simpa using hout.symm, by simp, by simp⟩
      | some providers =>
        cases hgg : providers.lookup "accounts.google.com" <;>
          cases hff : providers.lookup "graph.facebook.com" <;>
            cases haa : providers.lookup "www.amazon.com" <;>
              simp [hg, hsp, hreg, hgg, hff, haa] at hout <;>
                exact ⟨[("aws_cognito_region", .str (jsSegment selected.PhysicalResourceId ':' 0))],
                  _, by simpa using hout.symm, by simp, by simp⟩

/-- The native identity-pool predicate is `idpContains` when the
configuration's app-client id resolves to `cid`. -/
theorem findE_idp_native (config : Assoc) (cid : String)
    (htarget : nativeAppClientId config = .ok (some (.str cid)))
    (pools : List DResource)
    (hwf : ∀ r ∈ pools, ∃ mi, r.metadata = some (.idp mi)) :
    findE (fun r => do
      let m ← getIdp r
      match m.CognitoIdentityProviders with
      | none => pure false
      | some provs => do
        let target ← nativeAppClientId config
        pure (provs.any (fun p => eqStrJson p.ClientId target))) pools =
      .ok (pools.find? (fun r => idpContains r cid)) := by
  refine findE_eq_find? _ _ pools ?_
  intro r hr
  obtain ⟨mi, hmi⟩ := hwf r hr
  have hg : getIdp r = .ok mi := by simp [getIdp, hmi]
  cases hc : mi.CognitoIdentityProviders with
  | none => simp [hg, hc, idpContains, hmi, Except.bind, bind, pure, Except.pure]
  | some provs =>
    simp [hg, hc, idpContains, hmi, htarget, eqStrJson, Except.bind, bind, pure, Except.pure]

/-- The identity section of the native configuration under a directive
that names a resolved app client. -/
theorem nativeIdentitySection_app (resources : List DResource) (fd : FileDetails) (config : Assoc)
    (cid : String) (happ : fd.appClient.isSome = true)
    (htarget : nativeAppClientId config = .ok (some (.str cid)))
    (hwf : ∀ r ∈ resources.filter (fun r => r.ResourceType == "AWS::Cognito::IdentityPool"),
      ∃ mi, r.metadata = some (.idp mi)) :
    ∀ out, nativeIdentitySection resources fd config = .ok out →
      match ((resources.filter (fun r => r.ResourceType == "AWS::Cognito::IdentityPool")).find?
          (fun r => idpContains r cid)).or
          (resources.filter (fun r => r.ResourceType == "AWS::Cognito::IdentityPool")).head? with
      | none => out = config
      | some selected => ∃ social, out = config ++
          ("CredentialsProvider", credProviderJson selected.PhysicalResourceId) :: social ∧
          ∀ p ∈ social, p.1 = "GoogleSignin" ∨ p.1 = "FacebookSignin" ∨ p.1 = "AmazonSignin" := by
  intro out hout
  have hfe := findE_idp_native config cid htarget
    (resources.filter (fun r => r.ResourceType == "AWS::Cognito::IdentityPool")) hwf
  unfold nativeIdentitySection at hout
  rw [if_pos happ] at hout
  rw [hfe] at hout
  simp only [bind, Except.bind] at hout
  cases hsel : ((resources.filter (fun r => r.ResourceType == "AWS::Cognito::IdentityPool")).find?
      (fun r => idpContains r cid)).or
      (resources.filter (fun r => r.ResourceType == "AWS::Cognito::IdentityPool")).head? with
  | none =>
    rw [hsel] at hout
    simp only [Except.ok.injEq] at hout
    simpa using hout.symm
  | some selected =>
    rw [hsel] at hout
    have hmem : selected ∈ resources.filter
        (fun r => r.ResourceType == "AWS::Cognito::IdentityPool") := by
      rcases Option.or_eq_some.mp hsel with hf | ⟨_, hh⟩
      · exact mem_of_findq _ _ _ hf
      · exact mem_of_headq _ _ hh
    obtain ⟨mi, hmi⟩ := hwf selected hmem
    have hg : getIdp selected = .ok mi := by simp [getIdp, hmi]
    cases hsp : mi.SupportedLoginProviders with
    | none =>
      simp [hg, hsp, credProviderJson] at hout
      exact ⟨[], by simpa using hout.symm, by simp⟩
    | some providers =>
      cases hgg : providers.lookup "accounts.google.com" <;>
        cases hff : providers.lookup "graph.facebook.com" <;>
          cases haa : providers.lookup "www.amazon.com" <;>
            simp [hg, hsp, hgg, hff, haa, credProviderJson] at hout <;>
              exact ⟨_, hout.symm, by simp⟩

/-- The identity section of the native configuration when the directive
names no app client. -/
theorem nativeIdentitySection_noapp (resources : List DResource) (fd : FileDetails)
    (config : Assoc) (happ : fd.appClient = none)
    (hwf : ∀ r ∈ resources.filter (fun r => r.ResourceType == "AWS::Cognito::IdentityPool"),
      ∃ mi, r.metadata = some (.idp mi)) :
    ∀ out, nativeIdentitySection resources fd config = .ok out →
      match (resources.filter (fun r => r.ResourceType == "AWS::Cognito::IdentityPool")).head? with
      | none => out = config
      | some selected => ∃ social, out = config ++
          ("CredentialsProvider", credProviderJson selected.PhysicalResourceId) :: social ∧
          ∀ p ∈ social, p.1 = "GoogleSignin" ∨ p.1 = "FacebookSignin" ∨ p.1 = "AmazonSignin" := by
  intro out hout
  unfold nativeIdentitySection at hout
  rw [show fd.appClient.isSome = false by simp [happ]] at hout
  simp only [Bool.false_eq_true, if_false, bind, Except.bind, pure, Except.pure] at hout
  cases hsel : (resources.filter
      (fun r => r.ResourceType == "AWS::Cognito::IdentityPool")).head? with
  | none =>
    rw [show (none : Option DResource).or (resources.filter
        (fun r => r.ResourceType == "AWS::Cognito::IdentityPool")).head? =
          none by rw [hsel]; rfl] at hout
    simp only [Except.ok.injEq] at hout
    simpa using hout.symm
  | some selected =>
    rw [show (none : Option DResource).or (resources.filter
        (fun r => r.ResourceType == "AWS::Cognito::IdentityPool")).head? =
          some selected by rw [hsel]; rfl] at hout
    have hmem := mem_of_headq _ _ hsel
    obtain ⟨mi, hmi⟩ := hwf selected hmem
    have hg : getIdp selected = .ok mi := by simp [getIdp, hmi]
    cases hsp : mi.SupportedLoginProviders with
    | none =>
      simp [hg, hsp, credProviderJson] at hout
      exact ⟨[], by simpa using hout.symm, by simp⟩
    | some providers =>
      cases hgg : providers.lookup "accounts.google.com" <;>
        cases hff : providers.lookup "graph.facebook.com" <;>
          cases haa : providers.lookup "www.amazon.com" <;>
            simp [hg, hsp, hgg, hff, haa, credProviderJson] at hout <;>
              exact ⟨_, hout.symm, by simp⟩

/-- The AppSync section of the JavaScript configuration only appends its
own keys. -/
theorem jsAppSyncSection_extend (resources : List DResource) (config out : Assoc)
    (h : jsAppSyncSection resources config = .ok out) :
    ∃ extras, out = config ++ extras ∧ ∀ p ∈ extras,
      p.1 = "aws_appsync_graphqlEndpoint" ∨ p.1 = "aws_appsync_region" ∨
        p.1 = "aws_appsync_authenticationType" := by
  unfold jsAppSyncSection at h
  cases hf : resources.find? (fun r => r.ResourceType == "AWS::AppSync::GraphQLApi") with
  | none =>
    rw [hf] at h
    simp only [Except.ok.injEq] at h
    exact ⟨[], by simpa using h.symm, by simp⟩
  | some appSync =>
    rw [hf] at h
    simp only [bind, Except.bind] at h
    cases hg : getAppSyncInfo appSync with
    | error e => rw [hg] at h; simp [Except.bind, bind] at h
    | ok g =>
      rw [hg] at h
      simp only [bind, Except.bind, Except.ok.injEq] at h
      exact ⟨_, h.symm, by simp⟩

/-- The storage section of the JavaScript configuration only appends its
own keys. -/
theorem jsS3Section_extend (ctx : PluginCtx) (resources : List DResource) (fd : FileDetails)
    (config : Assoc) :
    ∃ extras, jsS3Section ctx resources fd config = config ++ extras ∧ ∀ p ∈ extras,
      p.1 = "aws_user_files_s3_bucket" ∨ p.1 = "aws_user_files_s3_bucket_region" := by
  unfold jsS3Section
  by_cases hl : (s3buckets resources).length > 0
  · rw [if_pos hl]
    cases hu : selectBucket resources fd with
    | none => exact ⟨[], by simp, by simp⟩
    | some uf =>
      exact ⟨[("aws_user_files_s3_bucket", .str uf.PhysicalResourceId),
        ("aws_user_files_s3_bucket_region", .str ctx.region)], by simp, by simp⟩
  · rw [if_neg hl]
    exact ⟨[], by simp, by simp⟩

/-- The cloud-logic section of the JavaScript configuration only appends
its own key. -/
theorem jsApiGwSection_extend (ctx : PluginCtx) (resources : List DResource) (config : Assoc) :
    ∃ extras, jsApiGwSection ctx resources config = config ++ extras ∧ ∀ p ∈ extras,
      p.1 = "aws_cloud_logic_custom" := by
  unfold jsApiGwSection
  by_cases hl : (resources.filter (fun r => r.ResourceType == "AWS::ApiGateway::RestApi")).length > 0
  · rw [if_pos hl]; exact ⟨_, rfl, by simp⟩
  · rw [if_neg hl]; exact ⟨[], by simp, by simp⟩

/-- The AppSync section of the native configuration only appends its own
key. -/
theorem nativeAppSyncSection_extend (resources : List DResource) (config out : Assoc)
    (h : nativeAppSyncSection resources config = .ok out) :
    ∃ extras, out = config ++ extras ∧ ∀ p ∈ extras, p.1 = "AppSync" := by
  unfold nativeAppSyncSection at h
  cases hf : resources.find? (fun r => r.ResourceType == "AWS::AppSync::GraphQLApi") with
  | none =>
    rw [hf] at h
    simp only [Except.ok.injEq] at h
    exact ⟨[], by simpa using h.symm, by simp⟩
  | some appSync =>
    rw [hf] at h
    simp only [bind, Except.bind] at h
    cases hg : getAppSyncInfo appSync with
    | error e => rw [hg] at h; simp [Except.bind, bind] at h
    | ok g =>
      rw [hg] at h
      simp only [bind, Except.bind, Except.ok.injEq] at h
      exact ⟨_, h.symm, by simp⟩

/-- The storage section of the native configuration only appends its own
key. -/
theorem nativeS3Section_extend (ctx : PluginCtx) (resources : List DResource) (fd : FileDetails)
    (config : Assoc) :
    ∃ extras, nativeS3Section ctx resources fd config = config ++ extras ∧ ∀ p ∈ extras,
      p.1 = "S3TransferUtility" := by
  unfold nativeS3Section
  by_cases hl : (s3buckets resources).length > 0
  · rw [if_pos hl]
    cases hu : selectBucket resources fd with
    | none => exact ⟨[], by simp, by simp⟩
    | some uf =>
      exact ⟨[("S3TransferUtility", Json.obj
        [("Default", Json.obj
          [("Bucket", .str uf.PhysicalResourceId), ("Region", .str ctx.region)])])],
        by simp, by simp⟩
  · rw [if_neg hl]
    exact ⟨[], by simp, by simp⟩

/-- The API Gateway section of the native configuration only appends its
own key. -/
theorem nativeApiGwSection_extend (ctx : PluginCtx) (resources : List DResource) (config : Assoc) :
    ∃ extras, nativeApiGwSection ctx resources config = config ++ extras ∧ ∀ p ∈ extras,
      p.1 = "APIGateway" := by
  unfold nativeApiGwSection
  by_cases hl : (resources.filter (fun r => r.ResourceType == "AWS::ApiGateway::RestApi")).length > 0
  · rw [if_pos hl]; exact ⟨_, rfl, by simp⟩
  · rw [if_neg hl]; exact ⟨[], by simp, by simp⟩

/-- A key found in the prefix survives appending. -/
theorem lookup_extend (config extras : Assoc) (k : String) (v : Json)
    (h : config.lookup k = some v) : (config ++ extras).lookup k = some v := by
  rw [List.lookup_append, h]; rfl

/-- A key missing from the prefix is looked up in the suffix. -/
theorem lookup_skip (config extras : Assoc) (k : String)
    (h : config.lookup k = none) : (config ++ extras).lookup k = extras.lookup k := by
  rw [List.lookup_append, h]; rfl

/-- A key present after the identity section survives the JavaScript
configuration's remaining sections. -/
theorem js_tail_preserves (ctx : PluginCtx) (resources : List DResource) (fd : FileDetails)
    (c2 c3 cfgJ : Assoc) (k : String) (v : Json)
    (h3 : jsAppSyncSection resources c2 = .ok c3)
    (hcfg : cfgJ = jsApiGwSection ctx resources (jsS3Section ctx resources fd c3))
    (h : c2.lookup k = some v) : cfgJ.lookup k = some v := by
  obtain ⟨e3, he3, _⟩ := jsAppSyncSection_extend resources c2 c3 h3
  obtain ⟨e4, he4, _⟩ := jsS3Section_extend ctx resources fd c3
  obtain ⟨e5, he5, _⟩ := jsApiGwSection_extend ctx resources (jsS3Section ctx resources fd c3)
  rw [hcfg, he5, he4, he3]
  exact lookup_extend _ _ _ _ (lookup_extend _ _ _ _ (lookup_extend _ _ _ _ h))

/-- A key present after the identity section survives the native
configuration's remaining sections. -/
theorem native_tail_preserves (ctx : PluginCtx) (resources : List DResource) (fd : FileDetails)
    (c2 c3 cfgN : Assoc) (k : String) (v : Json)
    (h3 : nativeAppSyncSection resources c2 = .ok c3)
    (hcfg : cfgN = nativeApiGwSection ctx resources (nativeS3Section ctx resources fd c3))
    (h : c2.lookup k = some v) : cfgN.lookup k = some v := by
  obtain ⟨e3, he3, _⟩ := nativeAppSyncSection_extend resources c2 c3 h3
  obtain ⟨e4, he4, _⟩ := nativeS3Section_extend ctx resources fd c3
  obtain ⟨e5, he5, _⟩ := nativeApiGwSection_extend ctx resources (nativeS3Section ctx resources fd c3)
  rw [hcfg, he5, he4, he3]
  exact lookup_extend _ _ _ _ (lookup_extend _ _ _ _ (lookup_extend _ _ _ _ h))

/-- C3.  Identity-pool selection: when the directive names an app client
that resolves, the pool selected for the `CredentialsProvider` (native)
and identity-pool (JavaScript) sections is the first whose federated
client list contains the client's id; when no pool's list contains it,
or when no app client is named, the first enumerated identity pool is
selected. -/
theorem identityPool_selection (ctx : PluginCtx) (resources : List DResource) (fd : FileDetails)
    (hwf : ∀ r ∈ resources.filter (fun r => r.ResourceType == "AWS::Cognito::IdentityPool"),
      ∃ mi, r.metadata = some (.idp mi))
    (hlen : 2 ≤ (resources.filter (fun r => r.ResourceType == "AWS::Cognito::IdentityPool")).length)
    (cfgJ cfgN : Assoc)
    (hJ : getJavaScriptConfiguration ctx resources fd = .ok cfgJ)
    (hN : writeNativeConfigurationJson ctx resources fd = .ok cfgN) :
    (∀ name client m, fd.appClient = some name →
      resources.find? (fun r => r.ResourceType == "AWS::Cognito::UserPoolClient" &&
        r.LogicalResourceId == name) = some client →
      client.metadata = some (.upc m) →
      (∀ selected,
        (resources.filter (fun r => r.ResourceType == "AWS::Cognito::IdentityPool")).find?
          (fun r => idpContains r m.UserPoolClient.ClientId) = some selected →
        idpContains selected m.UserPoolClient.ClientId = true ∧
        cfgJ.lookup "aws_cognito_identity_pool_id" = some (.str selected.PhysicalResourceId) ∧
        cfgN.lookup "CredentialsProvider" = some (credProviderJson selected.PhysicalResourceId)) ∧
      ((resources.filter (fun r => r.ResourceType == "AWS::Cognito::IdentityPool")).find?
          (fun r => idpContains r m.UserPoolClient.ClientId) = none →
        ∀ first,
          (resources.filter (fun r => r.ResourceType == "AWS::Cognito::IdentityPool")).head? =
            some first →
          cfgJ.lookup "aws_cognito_identity_pool_id" = some (.str first.PhysicalResourceId) ∧
          cfgN.lookup "CredentialsProvider" = some (credProviderJson first.PhysicalResourceId))) ∧
    (fd.appClient = none →
      ∀ first,
        (resources.filter (fun r => r.ResourceType == "AWS::Cognito::IdentityPool")).head? =
          some first →
        cfgJ.lookup "aws_cognito_identity_pool_id" = some (.str first.PhysicalResourceId) ∧
        cfgN.lookup "CredentialsProvider" = some (credProviderJson first.PhysicalResourceId)) := by
  obtain ⟨c1J, c2J, c3J, h1J, h2J, h3J, hcfgJ⟩ := getJS_parts ctx resources fd cfgJ hJ
  obtain ⟨c1N, c2N, c3N, h1N, h2N, h3N, hcfgN⟩ := getNative_parts ctx resources fd cfgN hN
  constructor
  · intro name client m happ hfind hupc
    have hra := jsAppClientSection_resolved resources fd
      [("aws_project_region", .str ctx.region)] name client m happ hfind hupc
    have hc1J : c1J = ([("aws_project_region", Json.str ctx.region)] ++
        [("aws_cognito_region", .str (jsSegment m.UserPoolClient.UserPoolId '_' 0)),
         ("aws_user_pools_id", .str m.UserPoolClient.UserPoolId),
         ("aws_user_pools_web_client_id", .str m.UserPoolClient.ClientId)]) ++ secretExtras m := by
      rw [h1J] at hra
      exact Except.ok.inj hra
    have hrn := nativeAppClientSection_resolved resources fd
      [("UserAgent", .str ctx.useragent), ("Version", .str "1.0")] name client m happ hfind hupc
    have hc1N : c1N = [("UserAgent", Json.str ctx.useragent), ("Version", Json.str "1.0")] ++
        [("CognitoUserPool", .obj [("Default", .obj (cupDefault m))])] := by
      rw [h1N] at hrn
      exact Except.ok.inj hrn
    have htargetJ : c1J.lookup "aws_user_pools_web_client_id" =
        some (.str m.UserPoolClient.ClientId) := by
      rw [hc1J]
      simp [List.lookup_append, List.lookup]
    have hregionJ : (c1J.lookup "aws_cognito_region").isSome = true := by
      rw [hc1J]
      simp [List.lookup_append, List.lookup]
    have htargetN : nativeAppClientId c1N = .ok (some (.str m.UserPoolClient.ClientId)) := by
      rw [hc1N]
      simp [nativeAppClientId, jsProp, cupDefault, List.lookup_append, List.lookup,
        Except.bind, bind, pure, Except.pure]
    have hkeyJ : c1J.lookup "aws_cognito_identity_pool_id" = none := by
      rw [hc1J]
      cases hsec : m.UserPoolClient.ClientSecret <;>
        simp [secretExtras, hsec, List.lookup_append, List.lookup]
    have hkeyN : c1N.lookup "CredentialsProvider" = none := by
      rw [hc1N]
      simp [List.lookup_append, List.lookup]
    have hselJ := jsIdentitySection_app resources fd c1J m.UserPoolClient.ClientId
      (by simp [happ]) htargetJ hregionJ hwf c2J h2J
    have hselN := nativeIdentitySection_app resources fd c1N m.UserPoolClient.ClientId
      (by simp [happ]) htargetN hwf c2N h2N
    constructor
    · intro selected hfound
      rw [show ((resources.filter (fun r => r.ResourceType == "AWS::Cognito::IdentityPool")).find?
          (fun r => idpContains r m.UserPoolClient.ClientId)).or
          (resources.filter (fun r => r.ResourceType == "AWS::Cognito::IdentityPool")).head? =
            some selected by rw [hfound]; rfl] at hselJ hselN
      obtain ⟨fedJ, hc2J, _⟩ := hselJ
      obtain ⟨socN, hc2N, _⟩ := hselN
      have hci := List.find?_some hfound
      refine ⟨hci, ?_, ?_⟩
      · refine js_tail_preserves ctx resources fd c2J c3J cfgJ _ _ h3J hcfgJ ?_
        rw [hc2J, lookup_skip _ _ _ hkeyJ]
        simp [List.lookup]
      · refine native_tail_preserves ctx resources fd c2N c3N cfgN _ _ h3N hcfgN ?_
        rw [hc2N, lookup_skip _ _ _ hkeyN]
        simp [List.lookup]
    · intro hnone first hfirst
      rw [show ((resources.filter (fun r => r.ResourceType == "AWS::Cognito::IdentityPool")).find?
          (fun r => idpContains r m.UserPoolClient.ClientId)).or
          (resources.filter (fun r => r.ResourceType == "AWS::Cognito::IdentityPool")).head? =
            some first by rw [hnone, hfirst]; rfl] at hselJ hselN
      obtain ⟨fedJ, hc2J, _⟩ := hselJ
      obtain ⟨socN, hc2N, _⟩ := hselN
      constructor
      · refine js_tail_preserves ctx resources fd c2J c3J cfgJ _ _ h3J hcfgJ ?_
        rw [hc2J, lookup_skip _ _ _ hkeyJ]
        simp [List.lookup]
      · refine native_tail_preserves ctx resources fd c2N c3N cfgN _ _ h3N hcfgN ?_
        rw [hc2N, lookup_skip _ _ _ hkeyN]
        simp [List.lookup]
  · intro happ first hfirst
    have hc1J : c1J = [("aws_project_region", Json.str ctx.region)] := by
      have := h1J
      simp [jsAppClientSection, happ] at this
      exact this.symm
    have hc1N : c1N = [("UserAgent", Json.str ctx.useragent), ("Version", Json.str "1.0")] := by
      have := h1N
      simp [nativeAppClientSection, happ] at this
      exact this.symm
    have hselJ := jsIdentitySection_noapp resources fd c1J happ hwf c2J h2J
    have hselN := nativeIdentitySection_noapp resources fd c1N happ hwf c2N h2N
    rw [hfirst] at hselJ hselN
    obtain ⟨preJ, fedJ, hc2J, hpreJ, _⟩ := hselJ
    obtain ⟨socN, hc2N, _⟩ := hselN
    constructor
    · refine js_tail_preserves ctx resources fd c2J c3J cfgJ _ _ h3J hcfgJ ?_
      have hkeyJ : c1J.lookup "aws_cognito_identity_pool_id" = none := by
        rw [hc1J]; simp [List.lookup]
      have hkeyPre : preJ.lookup "aws_cognito_identity_pool_id" = none :=
        lookup_none_of_keys _ preJ (fun p hp => by rw [hpreJ p hp]; decide)
      rw [hc2J, ← List.append_assoc, lookup_skip _ _ _ (by
        rw [lookup_skip _ _ _ hkeyJ]; exact hkeyPre)]
      simp [List.lookup]
    · refine native_tail_preserves ctx resources fd c2N c3N cfgN _ _ h3N hcfgN ?_
      have hkeyN : c1N.lookup "CredentialsProvider" = none := by
        rw [hc1N]; simp [List.lookup]
      rw [hc2N, lookup_skip _ _ _ hkeyN]
      simp [List.lookup]

/-- Witness for C3: two identity pools, the second federating the
requested client; the second pool is selected, not the first. -/
theorem identityPool_selection_witness :
    (∀ name client m, fdWeb.appClient = some name →
      rstwo.find? (fun r => r.ResourceType == "AWS::Cognito::UserPoolClient" &&
        r.LogicalResourceId == name) = some client →
      client.metadata = some (.upc m) →
      (∀ selected,
        (rstwo.filter (fun r => r.ResourceType == "AWS::Cognito::IdentityPool")).find?
          (fun r => idpContains r m.UserPoolClient.ClientId) = some selected →
        idpContains selected m.UserPoolClient.ClientId = true ∧
        (List.lookup "aws_cognito_identity_pool_id"
          [("aws_project_region", Json.str "us-east-1"),
           ("aws_cognito_region", Json.str "us-east-1"),
           ("aws_user_pools_id", Json.str "us-east-1_POOLID"),
           ("aws_user_pools_web_client_id", Json.str "clientid123"),
           ("aws_cognito_identity_pool_id", Json.str "us-east-1:bbbb")] =
          some (.str selected.PhysicalResourceId)) ∧
        (List.lookup "CredentialsProvider"
          [("UserAgent", Json.str "plugin/1.0"), ("Version", Json.str "1.0"),
           ("CognitoUserPool", Json.obj [("Default", Json.obj
             [("PoolId", Json.str "us-east-1_POOLID"),
              ("Region", Json.str "us-east-1"),
              ("AppClientId", Json.str "clientid123")])]),
           ("CredentialsProvider", credProviderJson "us-east-1:bbbb")] =
          some (credProviderJson selected.PhysicalResourceId))) ∧
      ((rstwo.filter (fun r => r.ResourceType == "AWS::Cognito::IdentityPool")).find?
          (fun r => idpContains r m.UserPoolClient.ClientId) = none →
        ∀ first,
          (rstwo.filter (fun r => r.ResourceType == "AWS::Cognito::IdentityPool")).head? =
            some first →
          List.lookup "aws_cognito_identity_pool_id"
            [("aws_project_region", Json.str "us-east-1"),
             ("aws_cognito_region", Json.str "us-east-1"),
             ("aws_user_pools_id", Json.str "us-east-1_POOLID"),
             ("aws_user_pools_web_client_id", Json.str "clientid123"),
             ("aws_cognito_identity_pool_id", Json.str "us-east-1:bbbb")] =
            some (.str first.PhysicalResourceId) ∧
          List.lookup "CredentialsProvider"
            [("UserAgent", Json.str "plugin/1.0"), ("Version", Json.str "1.0"),
             ("CognitoUserPool", Json.obj [("Default", Json.obj
               [("PoolId", Json.str "us-east-1_POOLID"),
                ("Region", Json.str "us-east-1"),
                ("AppClientId", Json.str "clientid123")])]),
             ("CredentialsProvider", credProviderJson "us-east-1:bbbb")] =
            some (credProviderJson first.PhysicalResourceId))) ∧
    (fdWeb.appClient = none →
      ∀ first,
        (rstwo.filter (fun r => r.ResourceType == "AWS::Cognito::IdentityPool")).head? =
          some first →
        List.lookup "aws_cognito_identity_pool_id"
          [("aws_project_region", Json.str "us-east-1"),
           ("aws_cognito_region", Json.str "us-east-1"),
           ("aws_user_pools_id", Json.str "us-east-1_POOLID"),
           ("aws_user_pools_web_client_id", Json.str "clientid123"),
           ("aws_cognito_identity_pool_id", Json.str "us-east-1:bbbb")] =
          some (.str first.PhysicalResourceId) ∧
        List.lookup "CredentialsProvider"
          [("UserAgent", Json.str "plugin/1.0"), ("Version", Json.str "1.0"),
           ("CognitoUserPool", Json.obj [("Default", Json.obj
             [("PoolId", Json.str "us-east-1_POOLID"),
              ("Region", Json.str "us-east-1"),
              ("AppClientId", Json.str "clientid123")])]),
           ("CredentialsProvider", credProviderJson "us-east-1:bbbb")] =
          some (credProviderJson first.PhysicalResourceId)) :=
  identityPool_selection ctxW rstwo fdWeb
    (by
      intro r hr
      simp [rstwo, clientD, idpA, idpB] at hr
      rcases hr with rfl | rfl
      · exact ⟨⟨some [⟨"otherclient"⟩], none⟩, rfl⟩
      · exact ⟨⟨some [⟨"clientid123"⟩], none⟩, rfl⟩)
    (by decide)
    _ _ rfl rfl

/-- C6.  A directive naming an app client with no matching user-pool
client record makes every configuration builder and writer that uses it
(native, JavaScript module, TypeScript module) throw the explicit
`Invalid appClient specified` error naming the client, instead of
emitting a configuration without the client section. -/
theorem invalid_appClient_error (ctx : PluginCtx) (resources : List DResource)
    (fd : FileDetails) (name : String)
    (happ : fd.appClient = some name)
    (hnone : resources.find? (fun r => r.ResourceType == "AWS::Cognito::UserPoolClient" &&
      r.LogicalResourceId == name) = none) :
    getJavaScriptConfiguration ctx resources fd =
      .error (.error ("Invalid appClient specified: " ++ name)) ∧
    writeNativeConfigurationJson ctx resources fd =
      .error (.error ("Invalid appClient specified: " ++ name)) ∧
    writeNativeConfiguration ctx resources fd =
      .error (.error ("Invalid appClient specified: " ++ name)) ∧
    writeJavaScriptConfiguration ctx resources fd =
      .error (.error ("Invalid appClient specified: " ++ name)) ∧
    writeTypeScriptConfiguration ctx resources fd =
      .error (.error ("Invalid appClient specified: " ++ name)) := by
  have hjs : jsAppClientSection resources fd [("aws_project_region", .str ctx.region)] =
      .error (.error ("Invalid appClient specified: " ++ name)) := by
    simp [jsAppClientSection, happ, hnone]
  have hnat : nativeAppClientSection resources fd
      [("UserAgent", .str ctx.useragent), ("Version", .str "1.0")] =
      .error (.error ("Invalid appClient specified: " ++ name)) := by
    simp [nativeAppClientSection, happ, hnone]
  have hJ : getJavaScriptConfiguration ctx resources fd =
      .error (.error ("Invalid appClient specified: " ++ name)) := by
    simp [getJavaScriptConfiguration, hjs, Except.bind, bind]
  have hN : writeNativeConfigurationJson ctx resources fd =
      .error (.error ("Invalid appClient specified: " ++ name)) := by
    simp [writeNativeConfigurationJson, hnat, Except.bind, bind]
  refine ⟨hJ, hN, ?_, ?_, ?_⟩
  · simp [writeNativeConfiguration, hN, Except.bind, bind]
  · simp [writeJavaScriptConfiguration, hJ, Except.bind, bind]
  · simp [writeTypeScriptConfiguration, hJ, Except.bind, bind]

/-- Witness for C6: a directive naming `WebClient` over a record set
with no user-pool client. -/
theorem invalid_appClient_error_witness :
    getJavaScriptConfiguration ctxW [idpA] fdWeb =
      .error (.error ("Invalid appClient specified: " ++ "WebClient")) ∧
    writeNativeConfigurationJson ctxW [idpA] fdWeb =
      .error (.error ("Invalid appClient specified: " ++ "WebClient")) ∧
    writeNativeConfiguration ctxW [idpA] fdWeb =
      .error (.error ("Invalid appClient specified: " ++ "WebClient")) ∧
    writeJavaScriptConfiguration ctxW [idpA] fdWeb =
      .error (.error ("Invalid appClient specified: " ++ "WebClient")) ∧
    writeTypeScriptConfiguration ctxW [idpA] fdWeb =
      .error (.error ("Invalid appClient specified: " ++ "WebClient")) :=
  invalid_appClient_error ctxW [idpA] fdWeb "WebClient" rfl rfl

/-- A successful bind splits into a successful step and continuation. -/
theorem except_bind_ok {ε α β : Type} {x : Except ε α} {f : α → Except ε β} {b : β}
    (h : x >>= f = .ok b) : ∃ a, x = .ok a ∧ f a = .ok b := by
  cases x with
  | error e => simp [bind, Except.bind] at h
  | ok a => exact ⟨a, rfl, by simpa [bind, Except.bind] using h⟩

/-- The app-client section of the JavaScript configuration only appends
its own keys. -/
theorem jsAppClientSection_extend (resources : List DResource) (fd : FileDetails)
    (config out : Assoc) (h : jsAppClientSection resources fd config = .ok out) :
    ∃ extras, out = config ++ extras ∧ ∀ p ∈ extras,
      p.1 = "aws_cognito_region" ∨ p.1 = "aws_user_pools_id" ∨
        p.1 = "aws_user_pools_web_client_id" ∨ p.1 = "aws_user_pools_web_client_secret" := by
  unfold jsAppClientSection at h
  cases ha : fd.appClient with
  | none =>
    rw [ha] at h
    simp only [Except.ok.injEq] at h
    exact ⟨[], by simpa using h.symm, by simp⟩
  | some name =>
    rw [ha] at h
    cases hf : resources.find? (fun r => r.ResourceType == "AWS::Cognito::UserPoolClient" &&
        r.LogicalResourceId == name) with
    | none => simp [hf] at h
    | some client =>
      simp only [hf] at h
      rcases except_bind_ok h with ⟨upc, -, h⟩
      try dsimp only at h
      cases hs : upc.ClientSecret with
      | none =>
        simp [hs] at h
        exact ⟨_, h.symm, by simp⟩
      | some sec =>
        simp [hs] at h
        exact ⟨_, h.symm, by simp⟩

/-- The identity section of the JavaScript configuration only appends
its own keys. -/
theorem jsIdentitySection_extend (resources : List DResource) (fd : FileDetails)
    (config out : Assoc) (h : jsIdentitySection resources fd config = .ok out) :
    ∃ extras, out = config ++ extras ∧ ∀ p ∈ extras,
      p.1 = "aws_cognito_region" ∨ p.1 = "aws_cognito_identity_pool_id" ∨ p.1 = "federated" := by
  unfold jsIdentitySection at h
  by_cases happ : fd.appClient.isSome = true
  all_goals first
    | rw [if_pos happ] at h
    | rw [if_neg happ] at h
  all_goals (
    rcases except_bind_ok h with ⟨o, -, h⟩
    try dsimp only at h
    split at h
    · simp only [Except.ok.injEq] at h
      exact ⟨[], by simpa using h.symm, by simp⟩
    · rcases except_bind_ok h with ⟨m, -, h⟩
      try dsimp only at h
      by_cases hreg : (config.lookup "aws_cognito_region").isSome
      · cases hsp : m.SupportedLoginProviders with
        | none =>
          simp [hsp, hreg] at h
          exact ⟨_, h.symm, by simp⟩
        | some providers =>
          cases hgg : providers.lookup "accounts.google.com" <;>
            cases hff : providers.lookup "graph.facebook.com" <;>
              cases haa : providers.lookup "www.amazon.com" <;>
                simp [hsp, hreg, hgg, hff, haa] at h <;>
                  exact ⟨_, h.symm, by simp⟩
      · cases hsp : m.SupportedLoginProviders with
        | none =>
          simp [hsp, hreg] at h
          exact ⟨_, h.symm, by simp⟩
        | some providers =>
          cases hgg : providers.lookup "accounts.google.com" <;>
            cases hff : providers.lookup "graph.facebook.com" <;>
              cases haa : providers.lookup "www.amazon.com" <;>
                simp [hsp, hreg, hgg, hff, haa] at h <;>
                  exact ⟨_, h.symm, by simp⟩)

/-- The app-client section of the native configuration only appends its
own key. -/
theorem nativeAppClientSection_extend (resources : List DResource) (fd : FileDetails)
    (config out : Assoc) (h : nativeAppClientSection resources fd config = .ok out) :
    ∃ extras, out = config ++ extras ∧ ∀ p ∈ extras, p.1 = "CognitoUserPool" := by
  unfold nativeAppClientSection at h
  cases ha : fd.appClient with
  | none =>
    rw [ha] at h
    simp only [Except.ok.injEq] at h
    exact ⟨[], by simpa using h.symm, by simp⟩
  | some name =>
    rw [ha] at h
    cases hf : resources.find? (fun r => r.ResourceType == "AWS::Cognito::UserPoolClient" &&
        r.LogicalResourceId == name) with
    | none => simp [hf] at h
    | some client =>
      simp only [hf] at h
      rcases except_bind_ok h with ⟨upc, -, h⟩
      try dsimp only at h
      simp only [Except.ok.injEq] at h
      exact ⟨_, h.symm, by simp⟩

/-- The identity section of the native configuration only appends its
own keys. -/
theorem nativeIdentitySection_extend (resources : List DResource) (fd : FileDetails)
    (config out : Assoc) (h : nativeIdentitySection resources fd config = .ok out) :
    ∃ extras, out = config ++ extras ∧ ∀ p ∈ extras,
      p.1 = "CredentialsProvider" ∨ p.1 = "GoogleSignin" ∨ p.1 = "FacebookSignin" ∨
        p.1 = "AmazonSignin" := by
  unfold nativeIdentitySection at h
  by_cases happ : fd.appClient.isSome = true
  all_goals first
    | rw [if_pos happ] at h
    | rw [if_neg happ] at h
  all_goals (
    rcases except_bind_ok h with ⟨o, -, h⟩
    try dsimp only at h
    split at h
    · simp only [Except.ok.injEq] at h
      exact ⟨[], by simpa using h.symm, by simp⟩
    · rcases except_bind_ok h with ⟨m, -, h⟩
      try dsimp only at h
      cases hsp : m.SupportedLoginProviders with
      | none =>
        simp [hsp] at h
        exact ⟨_, h.symm, by simp⟩
      | some providers =>
        cases hgg : providers.lookup "accounts.google.com" <;>
          cases hff : providers.lookup "graph.facebook.com" <;>
            cases haa : providers.lookup "www.amazon.com" <;>
              simp [hsp, hgg, hff, haa] at h <;>
                exact ⟨_, h.symm, by simp⟩)

/-- A described non-deployment bucket record. -/
def photoBucket : DResource :=
  ⟨"AWS::S3::Bucket", "PhotoBucket", "photo-bucket-phys", none, none⟩

/-- A directive whose `s3bucket` field names a logical id absent from
the record set. -/
def fdMiss : FileDetails :=
  ⟨some "javascript", some "aws-exports.js", none, some "MissingBucket"⟩

/-- Counterexample to C4.  A directive whose `s3bucket` names the absent
logical id `MissingBucket` does not fail: both configuration builders
succeed, returning configurations without any storage key, because the
source's bucket selection (`src/index.js` lines 327 and 430) silently
yields `undefined` and lines 329/432 skip the section; no
ResourceNotFoundError exists anywhere in the writers. -/
theorem missing_s3bucket_counterexample :
    getJavaScriptConfiguration ctxW [photoBucket] fdMiss =
      .ok [("aws_project_region", .str "us-east-1")] ∧
    writeNativeConfigurationJson ctxW [photoBucket] fdMiss =
      .ok [("UserAgent", .str "plugin/1.0"), ("Version", .str "1.0")] :=
  ⟨rfl, rfl⟩

/-- C4 (amended).  A directive whose `s3bucket` names a logical id
absent from the non-deployment bucket records is handled silently: the
storage sections of both builders return their input configuration
unchanged, and any successfully built configuration carries none of the
storage keys; no error is raised for the missing bucket. -/
theorem missing_s3bucket_silent_omission (ctx : PluginCtx) (resources : List DResource)
    (fd : FileDetails) (name : String)
    (hs3 : fd.s3bucket = some name)
    (hmiss : (s3buckets resources).find? (fun r => r.LogicalResourceId == name) = none) :
    (∀ config, jsS3Section ctx resources fd config = config) ∧
    (∀ config, nativeS3Section ctx resources fd config = config) ∧
    (∀ cfg, getJavaScriptConfiguration ctx resources fd = .ok cfg →
      cfg.lookup "aws_user_files_s3_bucket" = none ∧
      cfg.lookup "aws_user_files_s3_bucket_region" = none) ∧
    (∀ cfg, writeNativeConfigurationJson ctx resources fd = .ok cfg →
      cfg.lookup "S3TransferUtility" = none) := by
  have hsel : selectBucket resources fd = none := by simp [selectBucket, hs3, hmiss]
  have hjs : ∀ config, jsS3Section ctx resources fd config = config := by
    intro config; simp [jsS3Section, hsel]
  have hnat : ∀ config, nativeS3Section ctx resources fd config = config := by
    intro config; simp [nativeS3Section, hsel]
  refine ⟨hjs, hnat, ?_, ?_⟩
  · intro cfg hcfg
    obtain ⟨c1, c2, c3, h1, h2, h3, hc⟩ := getJS_parts ctx resources fd cfg hcfg
    obtain ⟨e1, he1, hk1⟩ := jsAppClientSection_extend resources fd _ c1 h1
    obtain ⟨e2, he2, hk2⟩ := jsIdentitySection_extend resources fd c1 c2 h2
    obtain ⟨e3, he3, hk3⟩ := jsAppSyncSection_extend resources c2 c3 h3
    obtain ⟨e5, he5, hk5⟩ := jsApiGwSection_extend ctx resources (jsS3Section ctx resources fd c3)
    have hcfg2 : cfg = (([("aws_project_region", Json.str ctx.region)] ++ e1) ++ e2 ++ e3) ++ e5 := by
      rw [hc, he5, hjs c3, he3, he2, he1]
    have hbound : ∀ p ∈ cfg, p.1 ≠ "aws_user_files_s3_bucket" ∧
        p.1 ≠ "aws_user_files_s3_bucket_region" := by
      intro p hp
      rw [hcfg2] at hp
      simp only [List.mem_append] at hp
      rcases hp with (((hp | hp) | hp) | hp) | hp
      · simp only [List.mem_singleton] at hp
        subst hp
        exact ⟨by simp, by simp⟩
      · rcases hk1 p hp with h | h | h | h <;> rw [h] <;> exact ⟨by simp, by simp⟩
      · rcases hk2 p hp with h | h | h <;> rw [h] <;> exact ⟨by simp, by simp⟩
      · rcases hk3 p hp with h | h | h <;> rw [h] <;> exact ⟨by simp, by simp⟩
      · rw [hk5 p hp]; exact ⟨by simp, by simp⟩
    exact ⟨lookup_none_of_keys _ _ (fun p hp => (hbound p hp).1),
      lookup_none_of_keys _ _ (fun p hp => (hbound p hp).2)⟩
  · intro cfg hcfg
    obtain ⟨c1, c2, c3, h1, h2, h3, hc⟩ := getNative_parts ctx resources fd cfg hcfg
    obtain ⟨e1, he1, hk1⟩ := nativeAppClientSection_extend resources fd _ c1 h1
    obtain ⟨e2, he2, hk2⟩ := nativeIdentitySection_extend resources fd c1 c2 h2
    obtain ⟨e3, he3, hk3⟩ := nativeAppSyncSection_extend resources c2 c3 h3
    obtain ⟨e5, he5, hk5⟩ :=
      nativeApiGwSection_extend ctx resources (nativeS3Section ctx resources fd c3)
    have hcfg2 : cfg = (([("UserAgent", Json.str ctx.useragent), ("Version", Json.str "1.0")] ++
        e1) ++ e2 ++ e3) ++ e5 := by
      rw [hc, he5, hnat c3, he3, he2, he1]
    have hbound : ∀ p ∈ cfg, p.1 ≠ "S3TransferUtility" := by
      intro p hp
      rw [hcfg2] at hp
      simp only [List.mem_append] at hp
      rcases hp with (((hp | hp) | hp) | hp) | hp
      · simp only [List.mem_cons, List.not_mem_nil, or_false] at hp
        rcases hp with hp | hp <;> (subst hp; simp)
      · rw [hk1 p hp]; simp
      · rcases hk2 p hp with h | h | h | h <;> rw [h] <;> simp
      · rcases hk3 p hp with h <;> rw [h] <;> simp
      · rw [hk5 p hp]; simp
    exact lookup_none_of_keys _ _ hbound

/-- Witness for C4 (amended) at a concrete record set holding one
non-deployment bucket and a directive naming a different logical id. -/
theorem missing_s3bucket_silent_omission_witness :
    jsS3Section ctxW [photoBucket] fdMiss [] = [] ∧
    nativeS3Section ctxW [photoBucket] fdMiss [] = [] ∧
    (List.lookup "aws_user_files_s3_bucket"
        [("aws_project_region", Json.str "us-east-1")] = none ∧
      List.lookup "aws_user_files_s3_bucket_region"
        [("aws_project_region", Json.str "us-east-1")] = none) ∧
    List.lookup "S3TransferUtility"
      [("UserAgent", Json.str "plugin/1.0"), ("Version", Json.str "1.0")] = none := by
  have h := missing_s3bucket_silent_omission ctxW [photoBucket] fdMiss "MissingBucket" rfl rfl
  exact ⟨h.1 [], h.2.1 [], h.2.2.1 _ rfl, h.2.2.2 _ rfl⟩

/-- A bucket record whose logical id is literally the sentinel word. -/
def disabledBucket : DResource :=
  ⟨"AWS::S3::Bucket", "disabled", "disabled-bucket-phys", none, none⟩

/-- A directive with `s3bucket` set to the documented sentinel value. -/
def fdDisabled : FileDetails :=
  ⟨some "javascript", some "aws-exports.js", none, some "disabled"⟩

/-- C5.  The documented `disabled` sentinel is not implemented: the
bucket selection (`src/index.js` lines 327 and 430) treats `disabled`
as an ordinary logical id, so over a record set holding a bucket whose
logical id is literally `disabled`, both builders emit a storage
section for that bucket instead of omitting storage information. -/
theorem disabled_sentinel_not_implemented :
    getJavaScriptConfiguration ctxW [disabledBucket] fdDisabled =
      .ok [("aws_project_region", .str "us-east-1"),
           ("aws_user_files_s3_bucket", .str "disabled-bucket-phys"),
           ("aws_user_files_s3_bucket_region", .str "us-east-1")] ∧
    writeNativeConfigurationJson ctxW [disabledBucket] fdDisabled =
      .ok [("UserAgent", .str "plugin/1.0"), ("Version", .str "1.0"),
           ("S3TransferUtility", .obj
             [("Default", .obj
               [("Bucket", .str "disabled-bucket-phys"),
                ("Region", .str "us-east-1")])])] :=
  ⟨rfl, rfl⟩


/-- A prefix of successfully processed directives contributes its writes
before whatever the remaining directives produce. -/
theorem writeConfigurationFiles_append (ctx : PluginCtx) (genv : GenEnv)
    (resources : List DResource) :
    ∀ (pre : List FileDetails) (ws : List FileWrite) (rest : List FileDetails),
      writeConfigurationFiles ctx genv resources pre = (ws, none) →
      writeConfigurationFiles ctx genv resources (pre ++ rest) =
        (ws ++ (writeConfigurationFiles ctx genv resources rest).1,
         (writeConfigurationFiles ctx genv resources rest).2) := by
  intro pre
  induction pre with
  | nil =>
    intro ws rest h
    simp only [writeConfigurationFiles, Prod.mk.injEq] at h
    simp [h.1.symm]
  | cons fd pre' ih =>
    intro ws rest h
    rcases hx : writeConfigurationFiles ctx genv resources pre' with ⟨ws2, e2⟩
    cases hp : processDirective ctx genv resources fd with
    | error e =>
      simp only [writeConfigurationFiles, hp] at h
      simp at h
    | ok w =>
      simp only [writeConfigurationFiles, hp, hx, Prod.mk.injEq] at h
      obtain ⟨hws, he2⟩ := h
      subst he2
      have hih := ih ws2 rest hx
      simp only [List.cons_append, writeConfigurationFiles, hp, hih]
      simp [hws.symm, hih]

/-- C7.  The first invalid directive — one lacking `type`, lacking
`filename`, or carrying an unrecognized type value — aborts
`writeConfigurationFiles` with the corresponding invalid-directive
error; the files already written by the earlier, valid directives are
kept, and the directives after it contribute nothing, whatever they
are. -/
theorem first_invalid_directive_aborts (ctx : PluginCtx) (genv : GenEnv)
    (resources : List DResource) (pre post : List FileDetails) (bad : FileDetails)
    (ws : List FileWrite)
    (hpre : writeConfigurationFiles ctx genv resources pre = (ws, none))
    (hbad : (bad.type.isSome && bad.filename.isSome) = false ∨
      ((bad.type.isSome && bad.filename.isSome) = true ∧
        toLowerStr (bad.type.getD "") ≠ "native" ∧
        toLowerStr (bad.type.getD "") ≠ "javascript" ∧
        toLowerStr (bad.type.getD "") ≠ "typescript" ∧
        toLowerStr (bad.type.getD "") ≠ "schema.json" ∧
        toLowerStr (bad.type.getD "") ≠ "graphql" ∧
        toLowerStr (bad.type.getD "") ≠ "appsync")) :
    writeConfigurationFiles ctx genv resources (pre ++ bad :: post) =
      (ws, some (.error (if (bad.type.isSome && bad.filename.isSome) = true
        then invalidTypeMsg bad else invalidFieldsMsg bad))) := by
  have hperr : processDirective ctx genv resources bad =
      .error (.error (if (bad.type.isSome && bad.filename.isSome) = true
        then invalidTypeMsg bad else invalidFieldsMsg bad)) := by
    rcases hbad with hb | ⟨hb, h1, h2, h3, h4, h5, h6⟩
    · simp [processDirective, hb]
    · unfold processDirective
      rw [if_pos hb, if_pos hb]
      split <;> simp_all
  have hbadcons : writeConfigurationFiles ctx genv resources (bad :: post) =
      ([], some (.error (if (bad.type.isSome && bad.filename.isSome) = true
        then invalidTypeMsg bad else invalidFieldsMsg bad))) := by
    simp [writeConfigurationFiles, hperr]
  rw [writeConfigurationFiles_append ctx genv resources pre ws (bad :: post) hpre, hbadcons]
  simp

/-- Trivial code generators for concrete runs. -/
def genvW : GenEnv := ⟨fun _ => "", fun _ _ => ""⟩

/-- A directive with an unrecognized type value. -/
def fdBad : FileDetails := ⟨some "yaml", some "out.yaml", none, none⟩

/-- Witness for C7: an unrecognized `yaml` directive aborts the run
before the valid directive that follows it. -/
theorem first_invalid_directive_aborts_witness :
    writeConfigurationFiles ctxW genvW [] [fdBad, fdWeb] =
      ([], some (.error "Invalid Amplify configuration type directive for yaml:out.yaml")) := by
  have h := first_invalid_directive_aborts ctxW genvW [] [] [fdWeb] fdBad [] rfl
    (Or.inr ⟨rfl, by decide, by decide, by decide, by decide, by decide, by decide⟩)
  simpa [invalidTypeMsg, fdText, fdBad] using h

/-- C9.  The JavaScript and TypeScript writers serialize the very same
configuration object — the one built by their shared
`getJavaScriptConfiguration` — through the same
`JSON.stringify(config, null, 4)` serialization; their outputs differ
only in the fixed wrappers `jsModuleText` and `tsModuleText` (header,
static interface block and type annotation). -/
theorem ts_js_same_config (ctx : PluginCtx) (resources : List DResource)
    (fd : FileDetails) (cfg : Assoc)
    (h : getJavaScriptConfiguration ctx resources fd = .ok cfg) :
    writeJavaScriptConfiguration ctx resources fd =
      .ok [⟨fd.filename.getD "",
        jsModuleText (moduleHeader ctx) (stableStringify4 (.obj cfg))⟩] ∧
    writeTypeScriptConfiguration ctx resources fd =
      .ok [⟨fd.filename.getD "",
        tsModuleText (moduleHeader ctx) (stableStringify4 (.obj cfg))⟩] := by
  constructor
  · simp [writeJavaScriptConfiguration, h, bind, Except.bind, pure, Except.pure]
  · simp [writeTypeScriptConfiguration, h, bind, Except.bind, pure, Except.pure]

/-- Witness for C9 at a concrete record set and directive. -/
theorem ts_js_same_config_witness :
    writeJavaScriptConfiguration ctxW [photoBucket] fdMiss =
      .ok [⟨"aws-exports.js",
        jsModuleText (moduleHeader ctxW)
          (stableStringify4 (.obj [("aws_project_region", .str "us-east-1")]))⟩] ∧
    writeTypeScriptConfiguration ctxW [photoBucket] fdMiss =
      .ok [⟨"aws-exports.js",
        tsModuleText (moduleHeader ctxW)
          (stableStringify4 (.obj [("aws_project_region", .str "us-east-1")]))⟩] :=
  ts_js_same_config ctxW [photoBucket] fdMiss [("aws_project_region", .str "us-east-1")] rfl

/-!
Round-trip of the JSON renderer and parser, towards the schema-document
claim.
-/

/-- Characters differ when their code points do. -/
theorem char_ne_of_toNat {c d : Char} (h : c.toNat ≠ d.toNat) : c ≠ d :=
  fun he => h (he ▸ rfl)

/-- Skipping whitespace passes over an all-whitespace block. -/
theorem skipWs_append_ws (w l : List Char) (hw : ∀ c ∈ w, isWsC c = true) :
    skipWs (w ++ l) = skipWs l := by
  induction w with
  | nil => rfl
  | cons c t ih =>
    simp only [List.cons_append, skipWs, List.dropWhile_cons,
      hw c (List.mem_cons_self c t), if_true]
    exact ih (fun d hd => hw d (List.mem_cons_of_mem c hd))

/-- Skipping whitespace stops at a non-whitespace head. -/
theorem skipWs_cons_not (c : Char) (l : List Char) (h : isWsC c = false) :
    skipWs (c :: l) = c :: l := by
  simp [skipWs, List.dropWhile_cons, h]

/-- Code point of a digit character made from a digit value. -/
theorem toNat_ofNat_digit (d : Nat) (h : d < 10) : (Char.ofNat (48 + d)).toNat = 48 + d := by
  interval_cases d <;> decide

/-- Every character printed for a natural number is a decimal digit. -/
theorem natChars_digits (n : Nat) : ∀ c ∈ natChars n, isDigitC c = true := by
  induction n using Nat.strong_induction_on with
  | _ n ih =>
    unfold natChars
    by_cases h : n < 10
    · rw [dif_pos h]
      intro c hc
      simp only [List.mem_singleton] at hc
      subst hc
      simp [isDigitC, toNat_ofNat_digit n h]
      omega
    · rw [dif_neg h]
      intro c hc
      rcases List.mem_append.mp hc with hc | hc
      · exact ih (n / 10) (Nat.div_lt_self (by omega) (by omega)) c hc
      · simp only [List.mem_singleton] at hc
        subst hc
        have hm : n % 10 < 10 := Nat.mod_lt _ (by omega)
        simp [isDigitC, toNat_ofNat_digit _ hm]
        omega

/-- The digit string of a natural number is never empty. -/
theorem natChars_ne_nil (n : Nat) : natChars n ≠ [] := by
  unfold natChars
  by_cases h : n < 10
  · rw [dif_pos h]; simp
  · rw [dif_neg h]; simp

/-- The digit string of a natural number, split off its first digit. -/
theorem natChars_cons (n : Nat) :
    ∃ d t, natChars n = d :: t ∧ isDigitC d = true := by
  cases hc : natChars n with
  | nil => exact absurd hc (natChars_ne_nil n)
  | cons d t =>
    exact ⟨d, t, rfl, natChars_digits n d (by rw [hc]; exact List.mem_cons_self d t)⟩

/-- Folding the digit-accumulation step over a printed natural number. -/
theorem foldl_natChars (n : Nat) : ∀ a : Nat,
    (natChars n).foldl (fun a c => 10 * a + (c.toNat - 48)) a =
      a * 10 ^ (natChars n).length + n := by
  induction n using Nat.strong_induction_on with
  | _ n ih =>
    intro a
    unfold natChars
    by_cases h : n < 10
    · rw [dif_pos h]
      simp [toNat_ofNat_digit n h]
      omega
    · rw [dif_neg h]
      rw [List.foldl_append, ih (n / 10) (Nat.div_lt_self (by omega) (by omega)) a]
      have hm : n % 10 < 10 := Nat.mod_lt _ (by omega)
      simp only [List.foldl_cons, List.foldl_nil, List.length_append,
        List.length_singleton, toNat_ofNat_digit _ hm]
      rw [pow_succ, ← mul_assoc]
      have hY : a * 10 ^ (natChars (n / 10)).length * 10 =
          (a * 10 ^ (natChars (n / 10)).length) * 10 := by ring
      omega

/-- Parsing back the digits of a printed natural number. -/
theorem digitsToNat_natChars (n : Nat) : digitsToNat (natChars n) = n := by
  unfold digitsToNat
  rw [foldl_natChars n 0]
  simp

/-- `takeWhile`/`dropWhile` on a digit run followed by a non-digit. -/
theorem takeDrop_digits (ds rest : List Char)
    (hds : ∀ c ∈ ds, isDigitC c = true)
    (hrest : ∀ c, rest.head? = some c → isDigitC c = false) :
    (ds ++ rest).takeWhile isDigitC = ds ∧ (ds ++ rest).dropWhile isDigitC = rest := by
  induction ds with
  | nil =>
    cases rest with
    | nil => simp
    | cons c t =>
      simp [List.takeWhile_cons, List.dropWhile_cons, hrest c rfl]
  | cons d t ih =>
    have hd := hds d (List.mem_cons_self d t)
    have iht := ih (fun c hc => hds c (List.mem_cons_of_mem d hc))
    simp [List.takeWhile_cons, List.dropWhile_cons, hd, iht.1, iht.2]

/-- Properties of a digit character needed at parse boundaries. -/
theorem digit_char_props (c : Char) (h : isDigitC c = true) :
    isWsC c = false ∧ c ≠ ']' ∧ c ≠ ',' ∧ c ≠ '-' := by
  simp only [isDigitC, Bool.and_eq_true, decide_eq_true_eq] at h
  refine ⟨?_, ?_, ?_, ?_⟩
  · simp only [isWsC, Bool.or_eq_false_iff, decide_eq_false_iff_not]
    refine ⟨⟨⟨?_, ?_⟩, ?_⟩, ?_⟩ <;> (intro he; subst he; exact absurd h (by decide))
  · intro he; subst he; exact absurd h (by decide)
  · intro he; subst he; exact absurd h (by decide)
  · intro he; subst he; exact absurd h (by decide)

/-- Parsing back a printed integer, up to a non-digit boundary. -/
theorem parseNum_intChars (i : Int) (rest : List Char)
    (hrest : ∀ c, rest.head? = some c → isDigitC c = false) :
    parseNum (intChars i ++ rest) = some (.num i, rest) := by
  obtain ⟨d, t, hdt, hd⟩ := natChars_cons i.natAbs
  have hdigits : ∀ c ∈ d :: t, isDigitC c = true := by
    rw [← hdt]; exact natChars_digits i.natAbs
  have hspan : List.span isDigitC (d :: (t ++ rest)) = (d :: t, rest) := by
    rw [show d :: (t ++ rest) = (d :: t) ++ rest from rfl, List.span_eq_take_drop,
      (takeDrop_digits _ _ hdigits hrest).1, (takeDrop_digits _ _ hdigits hrest).2]
  have hval : digitsToNat (d :: t) = i.natAbs := by rw [← hdt]; exact digitsToNat_natChars _
  by_cases hi : i < 0
  · have hin : intChars i ++ rest = '-' :: (d :: (t ++ rest)) := by
      rw [intChars, if_pos hi, hdt]; rfl
    rw [hin]
    simp only [parseNum]
    rw [hspan]
    simp [hval, show -((i.natAbs : Nat) : Int) = i from by omega]
    rw [abs_of_neg hi, neg_neg]
  · have hic : intChars i ++ rest = d :: (t ++ rest) := by
      rw [intChars, if_neg hi, hdt]; rfl
    rw [hic]
    have hne : d ≠ '-' := (digit_char_props d hd).2.2.2
    unfold parseNum
    split
    · rename_i r heq
      exact absurd (List.cons.injEq .. ▸ heq).1 hne
    · rw [hspan]
      simp [hval, show ((i.natAbs : Nat) : Int) = i from by omega]

/-- A printed hexadecimal digit parses back to its value. -/
theorem hexValC_hexDigitC (d : Nat) (h : d < 16) : hexValC (hexDigitC d) = some d := by
  interval_cases d <;> decide

/-- The escaped body of a string literal parses back to the original
characters, leaving the input after the closing quote. -/
theorem parseStringBody_esc : ∀ (cs z : List Char),
    parseStringBody (cs.flatMap escChar ++ '"' :: z) = some (cs, z) := by
  intro cs
  induction cs with
  | nil => intro z; rw [parseStringBody.eq_def]; simp
  | cons c cs ih =>
    intro z
    rw [List.flatMap_cons, List.append_assoc]
    by_cases h1 : c = '"'
    · subst h1; rw [parseStringBody.eq_def]; simp [escChar, ih]
    · by_cases h2 : c = '\\'
      · subst h2; rw [parseStringBody.eq_def]; simp [escChar, ih]
      · by_cases h3 : c = '\n'
        · subst h3; rw [parseStringBody.eq_def]; simp [escChar, ih]
        · by_cases h4 : c = '\r'
          · subst h4; rw [parseStringBody.eq_def]; simp [escChar, ih]
          · by_cases h5 : c = '\t'
            · subst h5; rw [parseStringBody.eq_def]; simp [escChar, ih]
            · by_cases h6 : c = Char.ofNat 8
              · subst h6; rw [parseStringBody.eq_def]; simp [escChar, ih]
              · by_cases h7 : c = Char.ofNat 12
                · subst h7; rw [parseStringBody.eq_def]; simp [escChar, ih]
                · by_cases hlt : c.toNat < 32
                  · have hesc : escChar c = ['\\', 'u', '0', '0',
                        hexDigitC (c.toNat / 16), hexDigitC (c.toNat % 16)] := by
                      rw [escChar, if_neg h1, if_neg h2, if_neg h3, if_neg h4, if_neg h5,
                        if_neg h6, if_neg h7, if_pos hlt]
                    rw [hesc]
                    simp only [List.cons_append]
                    rw [parseStringBody.eq_def]
                    simp [hexValC_hexDigitC _ (show c.toNat / 16 < 16 by omega),
                      hexValC_hexDigitC _ (show c.toNat % 16 < 16 by omega),
                      show hexValC '0' = some 0 from by decide, ih]
                    rw [show 16 * (c.toNat / 16) + c.toNat % 16 =
                      c.toNat from by omega, Char.ofNat_toNat]
                  · have hesc : escChar c = [c] := by
                      rw [escChar, if_neg h1, if_neg h2, if_neg h3, if_neg h4, if_neg h5,
                        if_neg h6, if_neg h7, if_neg hlt]
                    rw [hesc]
                    simp only [List.cons_append]
                    rw [parseStringBody.eq_def]
                    simp [h1, h2, ih]

mutual
/-- Recursion-depth measure of a document, counting one per node and per
list link; atoms count one regardless of their printed width. -/
def jmeasure : Json → Nat
  | .null => 1
  | .bool _ => 1
  | .num _ => 1
  | .str _ => 1
  | .arr xs => 1 + jlmeasure xs
  | .obj fs => 1 + jfmeasure fs
termination_by v => sizeOf v
decreasing_by all_goals (simp_wf; try omega)

/-- List variant of `jmeasure`. -/
def jlmeasure : List Json → Nat
  | [] => 0
  | x :: xs => 1 + jmeasure x + jlmeasure xs
termination_by l => sizeOf l
decreasing_by all_goals (simp_wf; try omega)

/-- Field-list variant of `jmeasure`. -/
def jfmeasure : List (String × Json) → Nat
  | [] => 0
  | (_, v) :: fs => 1 + jmeasure v + jfmeasure fs
termination_by l => sizeOf l
decreasing_by all_goals (simp_wf; try omega)
end

/-- Separator-led tail of a rendered item list: empty for the last item,
else a comma, a newline and the remaining items. -/
def itemsSep (gap ind : List Char) : List Json → List Char
  | [] => []
  | y :: ys => ',' :: '\n' :: renderItems gap ind y ys

/-- Separator-led tail of a rendered field list. -/
def fieldsSep (gap ind : List Char) : List (String × Json) → List Char
  | [] => []
  | (k2, v2) :: gs => ',' :: '\n' :: renderFields gap ind k2 v2 gs

/-- One rendered item line followed by the separator-led tail. -/
theorem renderItems_eq (gap ind : List Char) (x : Json) (l : List Json) :
    renderItems gap ind x l = ind ++ renderC gap ind x ++ itemsSep gap ind l := by
  cases l with
  | nil => rw [renderItems, itemsSep]; simp
  | cons y ys => rw [renderItems, itemsSep]

/-- One rendered field line followed by the separator-led tail. -/
theorem renderFields_eq (gap ind : List Char) (k : String) (v : Json)
    (l : List (String × Json)) :
    renderFields gap ind k v l =
      ind ++ quoteString k ++ ':' :: ' ' :: renderC gap ind v ++ fieldsSep gap ind l := by
  cases l with
  | nil => rw [renderFields, fieldsSep]; simp
  | cons g gs =>
    rcases g with ⟨k2, v2⟩
    rw [renderFields, fieldsSep]

/-- The first character of a rendered document: never whitespace, never
a closing bracket, never a comma. -/
theorem renderC_head (gap indent : List Char) (v : Json) :
    ∃ c cs, renderC gap indent v = c :: cs ∧ isWsC c = false ∧ c ≠ ']' ∧ c ≠ ',' := by
  cases v with
  | null => exact ⟨'n', _, by rw [renderC], by decide, by decide, by decide⟩
  | bool b =>
    cases b with
    | true =>
      exact ⟨'t', ['r', 'u', 'e'], by rw [renderC]; simp, by decide, by decide, by decide⟩
    | false =>
      exact ⟨'f', ['a', 'l', 's', 'e'], by rw [renderC]; simp, by decide, by decide, by decide⟩
  | num i =>
    obtain ⟨d, t, hdt, hd⟩ := natChars_cons i.natAbs
    obtain ⟨hws, hbr, hcm, hmn⟩ := digit_char_props d hd
    by_cases hi : i < 0
    · exact ⟨'-', _, by rw [renderC, intChars, if_pos hi], by decide, by decide, by decide⟩
    · exact ⟨d, t, by rw [renderC, intChars, if_neg hi, hdt], hws, hbr, hcm⟩
  | str s =>
    exact ⟨'"', escString s ++ ['"'], by rw [renderC, quoteString]; simp, by decide, by decide,
      by decide⟩
  | arr xs =>
    cases xs with
    | nil => exact ⟨'[', _, by rw [renderC], by decide, by decide, by decide⟩
    | cons x xs =>
      exact ⟨'[', '\n' :: renderItems gap (indent ++ gap) x xs ++ '\n' :: indent ++ [']'],
        by rw [renderC]; simp, by decide, by decide, by decide⟩
  | obj fs =>
    cases fs with
    | nil => exact ⟨lbraceC, _, by rw [renderC], by decide, by decide, by decide⟩
    | cons f fs =>
      rcases f with ⟨k, v⟩
      exact ⟨lbraceC, '\n' :: renderFields gap (indent ++ gap) k v fs ++
          '\n' :: indent ++ [rbraceC],
        by rw [renderC]; simp, by decide, by decide, by decide⟩

/-- Whitespace-membership over an append. -/
theorem allWs_append (a b : List Char) (ha : ∀ c ∈ a, isWsC c = true)
    (hb : ∀ c ∈ b, isWsC c = true) : ∀ c ∈ a ++ b, isWsC c = true := by
  intro c hc
  rcases List.mem_append.mp hc with hc | hc
  · exact ha c hc
  · exact hb c hc

/-- Every document measures at least one. -/
theorem jmeasure_pos (v : Json) : 1 ≤ jmeasure v := by
  cases v <;> simp [jmeasure]

/-- A digit is none of the parser's dispatch characters. -/
theorem digit_not_dispatch (c : Char) (h : isDigitC c = true) :
    c ≠ 'n' ∧ c ≠ 't' ∧ c ≠ 'f' ∧ c ≠ '"' ∧ c ≠ '[' ∧ c ≠ lbraceC := by
  simp only [isDigitC, Bool.and_eq_true, decide_eq_true_eq] at h
  refine ⟨?_, ?_, ?_, ?_, ?_, ?_⟩ <;> (intro he; subst he; exact absurd h (by decide))

/-- On an input headed by none of the dispatch characters, `parseValue`
falls through to the number parser. -/
theorem parseValue_notlit (fuel : Nat) (c : Char) (r : List Char)
    (hn : c ≠ 'n') (ht : c ≠ 't') (hf : c ≠ 'f') (hq : c ≠ '"') (hb : c ≠ '[')
    (ho : c ≠ lbraceC) :
    parseValue (fuel + 1) (c :: r) = parseNum (c :: r) := by
  rw [parseValue.eq_def]
  simp only [if_neg hn, if_neg ht, if_neg hf, if_neg hq, if_neg hb, if_neg ho]

/-- `parseValue` dispatch on an opening quote. -/
theorem parseValue_quote (fuel : Nat) (r : List Char) :
    parseValue (fuel + 1) ('"' :: r) =
      match parseStringBody r with
      | some (cs, r2) => some (.str (String.mk cs), r2)
      | none => none := by
  rw [parseValue.eq_def]
  simp

/-- `parseValue` dispatch on an opening bracket. -/
theorem parseValue_bracket (fuel : Nat) (r : List Char) :
    parseValue (fuel + 1) ('[' :: r) =
      match skipWs r with
      | [] => none
      | c2 :: r2 =>
        if c2 = ']' then some (.arr [], r2)
        else
          match parseValue fuel (c2 :: r2) with
          | some (v, rest) => parseArrTail fuel [v] rest
          | none => none := by
  rw [parseValue.eq_def]
  simp

/-- `parseValue` dispatch on an opening brace. -/
theorem parseValue_brace (fuel : Nat) (r : List Char) :
    parseValue (fuel + 1) (lbraceC :: r) =
      match skipWs r with
      | [] => none
      | c2 :: r2 =>
        if c2 = rbraceC then some (.obj [], r2)
        else parseObjTail fuel [] (c2 :: r2) := by
  rw [parseValue.eq_def]
  simp [lbraceC]

/-- Whitespace followed by a block with a non-whitespace head. -/
theorem skipWs_block (w l : List Char) (c : Char) (cs : List Char)
    (hw : ∀ c ∈ w, isWsC c = true) (hl : l = c :: cs) (hc : isWsC c = false) :
    skipWs (w ++ l) = l := by
  rw [skipWs_append_ws _ _ hw, hl, skipWs_cons_not _ _ hc]

/-- A newline and an indentation block are all whitespace. -/
theorem ws_nl_block (indent : List Char) (hi : ∀ c ∈ indent, isWsC c = true) :
    ∀ c ∈ '\n' :: indent, isWsC c = true := by
  intro c hc
  rcases List.mem_cons.mp hc with h | h
  · subst h; decide
  · exact hi c h

/-- `parseValue` on an empty rendered array. -/
theorem parseValue_arr_empty (fuel : Nat) (r rest : List Char)
    (hsk : skipWs r = ']' :: rest) :
    parseValue (fuel + 1) ('[' :: r) = some (.arr [], rest) := by
  rw [parseValue_bracket, hsk]
  simp

/-- `parseValue` on a non-empty rendered array: parse the first element,
then the tail. -/
theorem parseValue_arr_elem (fuel : Nat) (r r2 rest2 : List Char) (c2 : Char) (v : Json)
    (hsk : skipWs r = c2 :: r2) (hne : c2 ≠ ']')
    (hv : parseValue fuel (c2 :: r2) = some (v, rest2)) :
    parseValue (fuel + 1) ('[' :: r) = parseArrTail fuel [v] rest2 := by
  rw [parseValue_bracket, hsk]
  simp [hne, hv]

/-- `parseValue` on an empty rendered object. -/
theorem parseValue_obj_empty (fuel : Nat) (r rest : List Char)
    (hsk : skipWs r = rbraceC :: rest) :
    parseValue (fuel + 1) (lbraceC :: r) = some (.obj [], rest) := by
  rw [parseValue_brace, hsk]
  simp

/-- `parseValue` on a non-empty rendered object: hand over to the field
parser. -/
theorem parseValue_obj_field (fuel : Nat) (r r2 : List Char) (c2 : Char)
    (hsk : skipWs r = c2 :: r2) (hne : c2 ≠ rbraceC) :
    parseValue (fuel + 1) (lbraceC :: r) = parseObjTail fuel [] (c2 :: r2) := by
  rw [parseValue_brace, hsk]
  simp [hne]

/-- `parseArrTail` at a closing bracket. -/
theorem parseArrTail_stop (fuel : Nat) (acc : List Json) (l rest : List Char)
    (hsk : skipWs l = ']' :: rest) :
    parseArrTail (fuel + 1) acc l = some (.arr acc, rest) := by
  rw [parseArrTail.eq_def]
  simp [hsk]

/-- `parseArrTail` at a comma: parse the next element and continue. -/
theorem parseArrTail_next (fuel : Nat) (acc : List Json) (l r rest2 : List Char) (v : Json)
    (hsk : skipWs l = ',' :: r)
    (hv : parseValue fuel (skipWs r) = some (v, rest2)) :
    parseArrTail (fuel + 1) acc l = parseArrTail fuel (acc ++ [v]) rest2 := by
  rw [parseArrTail.eq_def]
  simp [hsk, hv]

/-- `parseObjTail` across one complete field. -/
theorem parseObjTail_field (fuel : Nat) (acc : List (String × Json))
    (r kcs r2 r3 rest2 r4 : List Char) (v : Json) (c4 : Char)
    (hq : parseStringBody r = some (kcs, r2))
    (hc3 : skipWs r2 = ':' :: r3)
    (hv : parseValue fuel (skipWs r3) = some (v, rest2))
    (hc4 : skipWs rest2 = c4 :: r4) :
    parseObjTail (fuel + 1) acc ('"' :: r) =
      (if c4 = ',' then parseObjTail fuel (acc ++ [(String.mk kcs, v)]) (skipWs r4)
      else if c4 = rbraceC then some (.obj (acc ++ [(String.mk kcs, v)]), r4)
      else none) := by
  rw [parseObjTail.eq_def]
  simp [hq, hc3, hv, hc4]

/-- Round-trip of the renderer and the fueled parser: a rendered
document followed by any non-digit-headed remainder parses back to
itself, and the array/object tail parsers consume rendered tails,
provided the fuel covers the document measure. -/
theorem parse_render_fuel : ∀ fuel : Nat,
    (∀ (v : Json) (gap indent rest : List Char),
      jmeasure v ≤ fuel →
      (∀ c ∈ gap, isWsC c = true) →
      (∀ c ∈ indent, isWsC c = true) →
      (∀ c, rest.head? = some c → isDigitC c = false) →
      parseValue fuel (renderC gap indent v ++ rest) = some (v, rest)) ∧
    (∀ (l : List Json) (gap indent : List Char) (acc : List Json) (rest : List Char),
      jlmeasure l + 1 ≤ fuel →
      (∀ c ∈ gap, isWsC c = true) →
      (∀ c ∈ indent, isWsC c = true) →
      parseArrTail fuel acc
        (itemsSep gap (indent ++ gap) l ++ '\n' :: indent ++ ']' :: rest) =
        some (.arr (acc ++ l), rest)) ∧
    (∀ (fs : List (String × Json)) (k : String) (v : Json) (gap indent : List Char)
        (acc : List (String × Json)) (rest : List Char),
      jfmeasure fs + jmeasure v + 1 ≤ fuel →
      (∀ c ∈ gap, isWsC c = true) →
      (∀ c ∈ indent, isWsC c = true) →
      parseObjTail fuel acc
        (quoteString k ++ ':' :: ' ' :: renderC gap (indent ++ gap) v ++
          (fieldsSep gap (indent ++ gap) fs ++ '\n' :: indent ++ rbraceC :: rest)) =
        some (.obj (acc ++ (k, v) :: fs), rest)) := by
  intro fuel
  induction fuel with
  | zero =>
    refine ⟨?_, ?_, ?_⟩
    · intro v _ _ _ hm _ _ _
      have := jmeasure_pos v
      omega
    · intro l _ _ _ _ hm _ _
      omega
    · intro fs k v _ _ _ _ hm _ _
      omega
  | succ f ih =>
    obtain ⟨ihA, ihB, ihC⟩ := ih
    refine ⟨?_, ?_, ?_⟩
    · -- parseValue on a rendered document
      intro v gap indent rest hm hg hi hrest
      cases v with
      | null =>
        rw [renderC, parseValue.eq_def]
        simp
      | bool b =>
        cases b <;> (rw [renderC, parseValue.eq_def]; simp)
      | num i =>
        rw [renderC]
        by_cases hneg : i < 0
        · have hin : intChars i ++ rest = '-' :: (natChars i.natAbs ++ rest) := by
            rw [intChars, if_pos hneg]; rfl
          rw [hin, parseValue_notlit f '-' _ (by decide) (by decide) (by decide) (by decide)
            (by decide) (by decide), ← hin]
          exact parseNum_intChars i rest hrest
        · obtain ⟨d, t, hdt, hd⟩ := natChars_cons i.natAbs
          obtain ⟨d1, d2, d3, d4, d5, d6⟩ := digit_not_dispatch d hd
          have hin : intChars i ++ rest = d :: (t ++ rest) := by
            rw [intChars, if_neg hneg, hdt]; rfl
          rw [hin, parseValue_notlit f d _ d1 d2 d3 d4 d5 d6, ← hin]
          exact parseNum_intChars i rest hrest
      | str s =>
        obtain ⟨cs⟩ := s
        have hin : renderC gap indent (.str ⟨cs⟩) ++ rest =
            '"' :: (cs.flatMap escChar ++ '"' :: rest) := by
          rw [renderC, quoteString]
          simp [escString]
        rw [hin, parseValue_quote, parseStringBody_esc]
      | arr xs =>
        cases xs with
        | nil =>
          have hin : renderC gap indent (.arr []) ++ rest = '[' :: (']' :: rest) := by
            rw [renderC]; rfl
          rw [hin]
          exact parseValue_arr_empty f _ rest (skipWs_cons_not _ _ (by decide))
        | cons x xs =>
          have hws' : ∀ c ∈ indent ++ gap, isWsC c = true := allWs_append _ _ hi hg
          obtain ⟨c2, cs2, hx, hxw, hxbr, hxcm⟩ := renderC_head gap (indent ++ gap) x
          simp only [jmeasure, jlmeasure] at hm
          have hin : renderC gap indent (.arr (x :: xs)) ++ rest =
              '[' :: ('\n' :: (renderItems gap (indent ++ gap) x xs ++
                ('\n' :: (indent ++ (']' :: rest))))) := by
            rw [renderC]; simp
          have hsk : skipWs ('\n' :: (renderItems gap (indent ++ gap) x xs ++
              ('\n' :: (indent ++ (']' :: rest))))) =
              c2 :: (cs2 ++ (itemsSep gap (indent ++ gap) xs ++
                '\n' :: indent ++ ']' :: rest)) := by
            have h1 : '\n' :: (renderItems gap (indent ++ gap) x xs ++
                ('\n' :: (indent ++ (']' :: rest)))) =
                ('\n' :: (indent ++ gap)) ++ (renderC gap (indent ++ gap) x ++
                  (itemsSep gap (indent ++ gap) xs ++ '\n' :: indent ++ ']' :: rest)) := by
              rw [renderItems_eq]; simp
            rw [h1, skipWs_block _ _ c2 (cs2 ++ (itemsSep gap (indent ++ gap) xs ++
              '\n' :: indent ++ ']' :: rest)) (ws_nl_block _ hws')
              (by rw [hx, List.cons_append]) hxw]
            rw [hx, List.cons_append]
          have hbound : ∀ c, (itemsSep gap (indent ++ gap) xs ++
              '\n' :: indent ++ ']' :: rest).head? = some c → isDigitC c = false := by
            cases xs with
            | nil => intro c hc; simp [itemsSep] at hc; subst hc; decide
            | cons y ys => intro c hc; simp [itemsSep] at hc; subst hc; decide
          have hA := ihA x gap (indent ++ gap)
            (itemsSep gap (indent ++ gap) xs ++ '\n' :: indent ++ ']' :: rest)
            (by omega) hg hws' hbound
          rw [hx, List.cons_append] at hA
          have hB := ihB xs gap indent [x] rest (by omega) hg hi
          rw [hin, parseValue_arr_elem f _ _ _ c2 x hsk hxbr hA, hB]
          simp
      | obj fs =>
        cases fs with
        | nil =>
          have hin : renderC gap indent (.obj []) ++ rest = lbraceC :: (rbraceC :: rest) := by
            rw [renderC]; rfl
          rw [hin]
          exact parseValue_obj_empty f _ rest (skipWs_cons_not _ _ (by decide))
        | cons kv fs =>
          rcases kv with ⟨k, v⟩
          have hws' : ∀ c ∈ indent ++ gap, isWsC c = true := allWs_append _ _ hi hg
          simp only [jmeasure, jfmeasure] at hm
          have hin : renderC gap indent (.obj ((k, v) :: fs)) ++ rest =
              lbraceC :: ('\n' :: (renderFields gap (indent ++ gap) k v fs ++
                ('\n' :: (indent ++ (rbraceC :: rest))))) := by
            rw [renderC]; simp
          have hsk : skipWs ('\n' :: (renderFields gap (indent ++ gap) k v fs ++
              ('\n' :: (indent ++ (rbraceC :: rest))))) =
              '"' :: (escString k ++ ['"'] ++
                (':' :: ' ' :: renderC gap (indent ++ gap) v ++
                  (fieldsSep gap (indent ++ gap) fs ++ '\n' :: indent ++ rbraceC :: rest))) := by
            have h1 : '\n' :: (renderFields gap (indent ++ gap) k v fs ++
                ('\n' :: (indent ++ (rbraceC :: rest)))) =
                ('\n' :: (indent ++ gap)) ++
                  (quoteString k ++ ':' :: ' ' :: renderC gap (indent ++ gap) v ++
                    (fieldsSep gap (indent ++ gap) fs ++
                      '\n' :: indent ++ rbraceC :: rest)) := by
              rw [renderFields_eq]; simp
            rw [h1, skipWs_block _ _ '"' (escString k ++ ['"'] ++
              (':' :: ' ' :: renderC gap (indent ++ gap) v ++
                (fieldsSep gap (indent ++ gap) fs ++ '\n' :: indent ++ rbraceC :: rest)))
              (ws_nl_block _ hws') (by rw [quoteString]; simp) (by decide)]
            rw [quoteString]
            simp
          have hback : ('"' : Char) :: (escString k ++ ['"'] ++
              (':' :: ' ' :: renderC gap (indent ++ gap) v ++
                (fieldsSep gap (indent ++ gap) fs ++ '\n' :: indent ++ rbraceC :: rest))) =
              quoteString k ++ ':' :: ' ' :: renderC gap (indent ++ gap) v ++
                (fieldsSep gap (indent ++ gap) fs ++ '\n' :: indent ++ rbraceC :: rest) := by
            rw [quoteString]
            simp
          have hC := ihC fs k v gap indent [] rest (by omega) hg hi
          rw [hin, parseValue_obj_field f _ _ '"' hsk (by decide), hback, hC]
          simp
    · -- parseArrTail on a rendered item tail
      intro l gap indent acc rest hm hg hi
      cases l with
      | nil =>
        have hsk : skipWs (itemsSep gap (indent ++ gap) [] ++
            '\n' :: indent ++ ']' :: rest) = ']' :: rest := by
          rw [itemsSep]
          rw [show ([] : List Char) ++ '\n' :: indent ++ ']' :: rest =
            ('\n' :: indent) ++ (']' :: rest) from by simp]
          exact skipWs_block _ _ ']' rest (ws_nl_block _ hi) rfl (by decide)
        rw [parseArrTail_stop f acc _ rest hsk]
        simp
      | cons y ys =>
        have hws' : ∀ c ∈ indent ++ gap, isWsC c = true := allWs_append _ _ hi hg
        obtain ⟨c2, cs2, hx, hxw, hxbr, hxcm⟩ := renderC_head gap (indent ++ gap) y
        simp only [jlmeasure] at hm
        have hin : itemsSep gap (indent ++ gap) (y :: ys) ++ '\n' :: indent ++ ']' :: rest =
            ',' :: ('\n' :: (renderItems gap (indent ++ gap) y ys ++
              ('\n' :: (indent ++ (']' :: rest))))) := by
          rw [itemsSep]; simp
        have hskc : skipWs (itemsSep gap (indent ++ gap) (y :: ys) ++
            '\n' :: indent ++ ']' :: rest) =
            ',' :: ('\n' :: (renderItems gap (indent ++ gap) y ys ++
              ('\n' :: (indent ++ (']' :: rest))))) := by
          rw [hin]
          exact skipWs_cons_not _ _ (by decide)
        have hsk : skipWs ('\n' :: (renderItems gap (indent ++ gap) y ys ++
            ('\n' :: (indent ++ (']' :: rest))))) =
            renderC gap (indent ++ gap) y ++
              (itemsSep gap (indent ++ gap) ys ++ '\n' :: indent ++ ']' :: rest) := by
          have h1 : '\n' :: (renderItems gap (indent ++ gap) y ys ++
              ('\n' :: (indent ++ (']' :: rest)))) =
              ('\n' :: (indent ++ gap)) ++ (renderC gap (indent ++ gap) y ++
                (itemsSep gap (indent ++ gap) ys ++ '\n' :: indent ++ ']' :: rest)) := by
            rw [renderItems_eq]; simp
          rw [h1, skipWs_block _ _ c2 (cs2 ++ (itemsSep gap (indent ++ gap) ys ++
              '\n' :: indent ++ ']' :: rest)) (ws_nl_block _ hws')
            (by rw [hx, List.cons_append]) hxw]
        have hbound : ∀ c, (itemsSep gap (indent ++ gap) ys ++
            '\n' :: indent ++ ']' :: rest).head? = some c → isDigitC c = false := by
          cases ys with
          | nil => intro c hc; simp [itemsSep] at hc; subst hc; decide
          | cons z zs => intro c hc; simp [itemsSep] at hc; subst hc; decide
        have hA := ihA y gap (indent ++ gap)
          (itemsSep gap (indent ++ gap) ys ++ '\n' :: indent ++ ']' :: rest)
          (by omega) hg hws' hbound
        have hv : parseValue f (skipWs ('\n' :: (renderItems gap (indent ++ gap) y ys ++
            ('\n' :: (indent ++ (']' :: rest)))))) =
            some (y, itemsSep gap (indent ++ gap) ys ++ '\n' :: indent ++ ']' :: rest) := by
          rw [hsk, hA]
        have hB := ihB ys gap indent (acc ++ [y]) rest (by omega) hg hi
        rw [parseArrTail_next f acc _ _ _ y hskc hv, hB]
        simp
    · -- parseObjTail on a rendered field run
      intro fs k v gap indent acc rest hm hg hi
      obtain ⟨kd⟩ := k
      have hws' : ∀ c ∈ indent ++ gap, isWsC c = true := allWs_append _ _ hi hg
      obtain ⟨c2, cs2, hx, hxw, hxbr, hxcm⟩ := renderC_head gap (indent ++ gap) v
      have hin : quoteString ⟨kd⟩ ++ ':' :: ' ' :: renderC gap (indent ++ gap) v ++
          (fieldsSep gap (indent ++ gap) fs ++ '\n' :: indent ++ rbraceC :: rest) =
          '"' :: (kd.flatMap escChar ++ '"' ::
            (':' :: (' ' :: (renderC gap (indent ++ gap) v ++
              (fieldsSep gap (indent ++ gap) fs ++
                '\n' :: indent ++ rbraceC :: rest))))) := by
        rw [quoteString]
        simp [escString]
      have hq := parseStringBody_esc kd
        (':' :: (' ' :: (renderC gap (indent ++ gap) v ++
          (fieldsSep gap (indent ++ gap) fs ++ '\n' :: indent ++ rbraceC :: rest))))
      have hc3 : skipWs (':' :: (' ' :: (renderC gap (indent ++ gap) v ++
          (fieldsSep gap (indent ++ gap) fs ++ '\n' :: indent ++ rbraceC :: rest)))) =
          ':' :: (' ' :: (renderC gap (indent ++ gap) v ++
            (fieldsSep gap (indent ++ gap) fs ++ '\n' :: indent ++ rbraceC :: rest))) :=
        skipWs_cons_not _ _ (by decide)
      have hbound : ∀ c, (fieldsSep gap (indent ++ gap) fs ++
          '\n' :: indent ++ rbraceC :: rest).head? = some c → isDigitC c = false := by
        cases fs with
        | nil => intro c hc; simp [fieldsSep] at hc; subst hc; decide
        | cons g gs =>
          rcases g with ⟨k2, v2⟩
          intro c hc; simp [fieldsSep] at hc; subst hc; decide
      have hA := ihA v gap (indent ++ gap)
        (fieldsSep gap (indent ++ gap) fs ++ '\n' :: indent ++ rbraceC :: rest)
        (by omega) hg hws' hbound
      have hv : parseValue f (skipWs (' ' :: (renderC gap (indent ++ gap) v ++
          (fieldsSep gap (indent ++ gap) fs ++ '\n' :: indent ++ rbraceC :: rest)))) =
          some (v, fieldsSep gap (indent ++ gap) fs ++ '\n' :: indent ++ rbraceC :: rest) := by
        rw [show ' ' :: (renderC gap (indent ++ gap) v ++
            (fieldsSep gap (indent ++ gap) fs ++ '\n' :: indent ++ rbraceC :: rest)) =
            [' '] ++ (renderC gap (indent ++ gap) v ++
              (fieldsSep gap (indent ++ gap) fs ++ '\n' :: indent ++ rbraceC :: rest))
          from rfl]
        rw [skipWs_block _ _ c2 (cs2 ++ (fieldsSep gap (indent ++ gap) fs ++
            '\n' :: indent ++ rbraceC :: rest))
          (by intro c hc; simp at hc; subst hc; decide) (by rw [hx, List.cons_append]) hxw]
        rw [hx, List.cons_append, ← List.cons_append, ← hx, hA]
      cases fs with
      | nil =>
        have hc4 : skipWs (fieldsSep gap (indent ++ gap)
            ([] : List (String × Json)) ++ '\n' :: indent ++ rbraceC :: rest) =
            rbraceC :: rest := by
          rw [fieldsSep]
          rw [show ([] : List Char) ++ '\n' :: indent ++ rbraceC :: rest =
            ('\n' :: indent) ++ (rbraceC :: rest) from by simp]
          exact skipWs_block _ _ rbraceC rest (ws_nl_block _ hi) rfl (by decide)
        rw [hin, parseObjTail_field f acc _ kd _ _ _ _ v rbraceC hq hc3 hv hc4]
        rw [if_neg (show rbraceC ≠ ',' from by decide), if_pos rfl]
      | cons g gs =>
        rcases g with ⟨k2, v2⟩
        simp only [jfmeasure, jmeasure] at hm
        have hin2 : fieldsSep gap (indent ++ gap) ((k2, v2) :: gs) ++
            '\n' :: indent ++ rbraceC :: rest =
            ',' :: ('\n' :: (renderFields gap (indent ++ gap) k2 v2 gs ++
              ('\n' :: (indent ++ (rbraceC :: rest))))) := by
          rw [fieldsSep]; simp
        have hc4 : skipWs (fieldsSep gap (indent ++ gap) ((k2, v2) :: gs) ++
            '\n' :: indent ++ rbraceC :: rest) =
            ',' :: ('\n' :: (renderFields gap (indent ++ gap) k2 v2 gs ++
              ('\n' :: (indent ++ (rbraceC :: rest))))) := by
          rw [hin2]
          exact skipWs_cons_not _ _ (by decide)
        have hsk2 : skipWs ('\n' :: (renderFields gap (indent ++ gap) k2 v2 gs ++
            ('\n' :: (indent ++ (rbraceC :: rest))))) =
            quoteString k2 ++ ':' :: ' ' :: renderC gap (indent ++ gap) v2 ++
              (fieldsSep gap (indent ++ gap) gs ++ '\n' :: indent ++ rbraceC :: rest) := by
          have h1 : '\n' :: (renderFields gap (indent ++ gap) k2 v2 gs ++
              ('\n' :: (indent ++ (rbraceC :: rest)))) =
              ('\n' :: (indent ++ gap)) ++
                (quoteString k2 ++ ':' :: ' ' :: renderC gap (indent ++ gap) v2 ++
                  (fieldsSep gap (indent ++ gap) gs ++
                    '\n' :: indent ++ rbraceC :: rest)) := by
            rw [renderFields_eq]; simp
          rw [h1, skipWs_block _ _ '"' (escString k2 ++ ['"'] ++
            (':' :: ' ' :: renderC gap (indent ++ gap) v2 ++
              (fieldsSep gap (indent ++ gap) gs ++ '\n' :: indent ++ rbraceC :: rest)))
            (ws_nl_block _ hws') (by rw [quoteString]; simp) (by decide)]
        have hC := ihC gs k2 v2 gap indent (acc ++ [(String.mk kd, v)]) rest
          (by omega) hg hi
        rw [hin, parseObjTail_field f acc _ kd _ _ _ _ v ',' hq hc3 hv hc4]
        rw [if_pos rfl, hsk2, hC]
        simp

/-- A printed integer is at least one character. -/
theorem intChars_length_pos (i : Int) : 1 ≤ (intChars i).length := by
  obtain ⟨d, t, hdt, -⟩ := natChars_cons i.natAbs
  rw [intChars]
  by_cases hi : i < 0
  · rw [if_pos hi]; simp
  · rw [if_neg hi, hdt]; simp

/-- The rendered width of a document dominates its measure. -/
theorem render_length_ge : ∀ n : Nat,
    (∀ v : Json, jmeasure v ≤ n → ∀ gap indent : List Char,
      jmeasure v ≤ (renderC gap indent v).length) ∧
    (∀ (x : Json) (l : List Json), jmeasure x + jlmeasure l ≤ n → ∀ gap ind : List Char,
      jmeasure x + jlmeasure l ≤ (renderItems gap ind x l).length + 1) ∧
    (∀ (k : String) (v : Json) (fs : List (String × Json)),
      jmeasure v + jfmeasure fs ≤ n → ∀ gap ind : List Char,
      jmeasure v + jfmeasure fs ≤ (renderFields gap ind k v fs).length + 1) := by
  intro n
  induction n with
  | zero =>
    refine ⟨?_, ?_, ?_⟩
    · intro v hv
      have := jmeasure_pos v
      omega
    · intro x l hv
      have := jmeasure_pos x
      omega
    · intro k v fs hv
      have := jmeasure_pos v
      omega
  | succ n ih =>
    obtain ⟨ihL, ihLI, ihLF⟩ := ih
    have hL : ∀ v : Json, jmeasure v ≤ n + 1 → ∀ gap indent : List Char,
        jmeasure v ≤ (renderC gap indent v).length := by
      intro v hv gap indent
      cases v with
      | null => rw [renderC]; simp [jmeasure]
      | bool b => cases b <;> (rw [renderC]; simp [jmeasure])
      | num i =>
        rw [renderC]
        have := intChars_length_pos i
        simp [jmeasure]
        omega
      | str s => rw [renderC, quoteString]; simp [jmeasure]
      | arr xs =>
        cases xs with
        | nil => rw [renderC]; simp [jmeasure, jlmeasure]
        | cons x l =>
          rw [renderC]
          simp only [jmeasure, jlmeasure] at hv ⊢
          have hi := ihLI x l (by omega) gap (indent ++ gap)
          simp [List.length_append]
          omega
      | obj fs =>
        cases fs with
        | nil => rw [renderC]; simp [jmeasure, jfmeasure]
        | cons kv fs =>
          rcases kv with ⟨k, v⟩
          rw [renderC]
          simp only [jmeasure, jfmeasure] at hv ⊢
          have hi := ihLF k v fs (by omega) gap (indent ++ gap)
          simp [List.length_append]
          omega
    refine ⟨hL, ?_, ?_⟩
    · intro x l hv gap ind
      cases l with
      | nil =>
        rw [renderItems]
        have := hL x (by have := jmeasure_pos x; omega) gap ind
        simp only [jlmeasure]
        simp [List.length_append]
        omega
      | cons y ys =>
        rw [renderItems]
        have h1 := hL x (by have := jmeasure_pos x; omega) gap ind
        have h2 := ihLI y ys (by
          have := jmeasure_pos x
          simp only [jlmeasure] at hv
          omega) gap ind
        simp only [jlmeasure] at hv ⊢
        simp [List.length_append]
        omega
    · intro k v fs hv gap ind
      cases fs with
      | nil =>
        rw [renderFields]
        have := hL v (by have := jmeasure_pos v; omega) gap ind
        simp only [jfmeasure]
        simp [List.length_append]
        omega
      | cons g gs =>
        rcases g with ⟨k2, v2⟩
        rw [renderFields]
        have h1 := hL v (by have := jmeasure_pos v; omega) gap ind
        have h2 := ihLF k2 v2 gs (by
          have := jmeasure_pos v
          simp only [jfmeasure] at hv
          omega) gap ind
        simp only [jfmeasure] at hv ⊢
        simp [List.length_append]
        omega

/-- `JSON.parse` inverts `JSON.stringify(v, null, 2)`. -/
theorem parseJson_stringify2 (v : Json) : parseJson (stringify2 v) = some v := by
  have hgap : ∀ c ∈ ([' ', ' '] : List Char), isWsC c = true := by decide
  have hind : ∀ c ∈ ([] : List Char), isWsC c = true := by intro c hc; simp at hc
  have hrest : ∀ c : Char, (([] : List Char)).head? = some c → isDigitC c = false := by
    intro c hc; simp at hc
  obtain ⟨c, cs, hx, hxw, -, -⟩ := renderC_head [' ', ' '] [] v
  have hmlen : jmeasure v ≤ (renderC [' ', ' '] [] v).length :=
    (render_length_ge (jmeasure v)).1 v le_rfl [' ', ' '] []
  have hA := (parse_render_fuel ((renderC [' ', ' '] [] v).length + 1)).1 v
    [' ', ' '] [] [] (by omega) hgap hind hrest
  rw [List.append_nil] at hA
  unfold parseJson stringify2
  have hdata : (String.mk (renderC [' ', ' '] [] v)).data = renderC [' ', ' '] [] v := rfl
  rw [hdata]
  have hskip : skipWs (renderC [' ', ' '] [] v) = renderC [' ', ' '] [] v := by
    rw [hx]; exact skipWs_cons_not _ _ hxw
  rw [hskip, hA]
  simp [skipWs]

/-- C8.  The schema-document directive writes exactly
`JSON.stringify(schema, null, 2)` of the schema stored on the GraphQL
API record during description, and parsing that rendering back yields
the stored schema unchanged; when no GraphQL API record exists, the
directive fails with the explicit missing-resource error. -/
theorem schema_document_roundtrip (resources : List DResource) (fd : FileDetails) :
    (∀ r doc, resources.find? isAppSyncR = some r → r.schema = some doc →
      writeSchemaJSONConfiguration resources fd =
        .ok [⟨fd.filename.getD "", stringify2 doc⟩] ∧
      parseJson (stringify2 doc) = some doc) ∧
    (resources.find? isAppSyncR = none →
      writeSchemaJSONConfiguration resources fd =
        .error (.error "No GraphQL API found - cannot write schema.json file")) := by
  constructor
  · intro r doc hfind hschema
    constructor
    · simp [writeSchemaJSONConfiguration, hfind, hschema]
    · exact parseJson_stringify2 doc
  · intro hfind
    simp [writeSchemaJSONConfiguration, hfind]

/-- A concrete stored introspection schema. -/
def docW : Json :=
  .obj [("__schema", .obj [("queryType", .obj [("name", .str "Query")])])]

/-- A described GraphQL API record carrying `docW`. -/
def asRes : DResource :=
  ⟨"AWS::AppSync::GraphQLApi", "GraphQlApi", "apiid123", none, some docW⟩

/-- The schema-document directive. -/
def fdSchema : FileDetails := ⟨some "schema.json", some "schema.json", none, none⟩

/-- Witness for C8 at a concrete record set, and at one with no GraphQL
API record. -/
theorem schema_document_roundtrip_witness :
    (writeSchemaJSONConfiguration [asRes] fdSchema =
        .ok [⟨"schema.json", stringify2 docW⟩] ∧
      parseJson (stringify2 docW) = some docW) ∧
    writeSchemaJSONConfiguration [] fdSchema =
      .error (.error "No GraphQL API found - cannot write schema.json file") :=
  ⟨(schema_document_roundtrip [asRes] fdSchema).1 asRes docW rfl rfl,
   (schema_document_roundtrip [] fdSchema).2 rfl⟩
